import Mathlib

/-! oh_my_loam: odometry correspondence search and frame processing.

A shallow embedding of `oh_my_loam/base/helper.h` and `src/odometry/odometry.cc`.

Conventions of the embedding:

* `float`/`double` values are exact rationals (`ℚ`); `int` values are unbounded integers
  (every scan-line id is assumed to stay inside the `int` range).
* A `TPointCloud` is the list of its points, `tgt.points[i]` is the `i`-th element.
* An access outside a vector (undefined behaviour in C++) and an exception thrown by the
  configuration lookup are explicit `Fault`s of the `Except` monad.
* The k-d tree (PCL), the pose solver and the pose type live outside the embedded files: the
  k-d tree and the solver are parameters of the embedded functions, the pose type and its
  composition are modelled from the specification.
* `Process` also returns the records of the iterations it ran (`IterRecord`), so that
  statements can speak about what happened inside the loop.
-/

namespace OhMyLoam

/-! ## Points and the helpers of `helper.h` -/

/-- Modelled from the spec: the point type `TPoint` of `oh_my_loam/base/types.h`, a 3D position
together with the `time` field that encodes scan-line id and capture-time fraction. -/
structure TPoint where
  x : ℚ
  y : ℚ
  z : ℚ
  time : ℚ
deriving DecidableEq

/-- The conversion `static_cast<int>(t)` of a floating value: truncation towards zero. -/
def castToInt (t : ℚ) : Int := Int.tdiv t.num t.den

/-- Scan-line id of a point: `static_cast<int>(pt.time)` (helper.h, line 11). -/
def GetScanId (pt : TPoint) : Int := castToInt pt.time

/-- Capture-time fraction of a point: `pt.time - GetScanId(pt)` (helper.h, line 15). -/
def GetTime (pt : TPoint) : ℚ := pt.time - (GetScanId pt : ℚ)

/-- Modelled from the spec: `DistanceSqure` of `common/pcl/pcl_utils.h`, the squared Euclidean
distance between the positions of two points. -/
def DistanceSqure (a b : TPoint) : ℚ :=
  (a.x - b.x) * (a.x - b.x) + (a.y - b.y) * (a.y - b.y) + (a.z - b.z) * (a.z - b.z)

/-- The nested struct `PointLinePair::Line`. -/
structure Line where
  pt1 : TPoint
  pt2 : TPoint
deriving DecidableEq

/-- The struct `PointLinePair` (helper.h, lines 38-49). -/
structure PointLinePair where
  pt : TPoint
  line : Line
deriving DecidableEq

/-- The nested struct `PointPlanePair::Plane`. -/
structure Plane where
  pt1 : TPoint
  pt2 : TPoint
  pt3 : TPoint
deriving DecidableEq

/-- The struct `PointPlanePair` (helper.h, lines 51-64). -/
structure PointPlanePair where
  pt : TPoint
  plane : Plane
deriving DecidableEq

/-! ## Faults and the nearest-neighbour index -/

/-- The ways in which the embedded code can fail to return. -/
inductive Fault where
  | outOfRange
  | badConfig
deriving DecidableEq

deriving instance DecidableEq for Except

/-- Checked element access: `v[i]` of a `std::vector`, a fault when `i` is not an index. -/
def vecAt {α : Type} (v : List α) (i : Nat) : Except Fault α :=
  match v[i]? with
  | some a => .ok a
  | none => .error .outOfRange

/-- The two output vectors `indices` and `dists` of `nearestKSearch`. -/
structure KSearchResult where
  indices : List Nat
  dists : List ℚ
deriving DecidableEq

/-- A nearest-neighbour index: `setInputCloud(tgt)` followed by
`nearestKSearch(query_pt, 1, indices, dists)`. -/
abbrev KdTree := List TPoint → TPoint → KSearchResult

/-- Linear scan for the first point of minimum squared distance. -/
def nearestScan (query_pt : TPoint) : List (Nat × TPoint) → Option (Nat × ℚ) → Option (Nat × ℚ)
  | [], best => best
  | (i, pt) :: rest, none => nearestScan query_pt rest (some (i, DistanceSqure query_pt pt))
  | (i, pt) :: rest, some (j, d) =>
    if DistanceSqure query_pt pt < d then
      nearestScan query_pt rest (some (i, DistanceSqure query_pt pt))
    else
      nearestScan query_pt rest (some (j, d))

/-- Modelled from the spec: the Spatial Index (`pcl::KdTreeFLANN`, an external library) queried
with k = 1. It returns one index and one squared distance, those of a nearest target point, and
two empty vectors when the target cloud has no point. -/
def nearestKSearch : KdTree := fun tgt query_pt =>
  match nearestScan query_pt tgt.enum none with
  | none => ⟨[], []⟩
  | some (i, d) => ⟨[i], [d]⟩

/-- The behaviour contract of a k = 1 nearest-neighbour index: nothing is returned for an empty
cloud, otherwise the index of a point of minimum squared distance and that distance. -/
def KdContract (search : KdTree) : Prop :=
  ∀ (tgt : List TPoint) (query_pt : TPoint),
    (tgt = [] → search tgt query_pt = ⟨[], []⟩) ∧
    (tgt ≠ [] → ∃ i pt1, tgt[i]? = some pt1 ∧
      search tgt query_pt = ⟨[i], [DistanceSqure query_pt pt1]⟩ ∧
      ∀ pt ∈ tgt, DistanceSqure query_pt pt1 ≤ DistanceSqure query_pt pt)

/-! ## Constants of `odometry.cc` -/

/-- Half-width of the scan-line window (odometry.cc, line 7). -/
def kNearbyScanNum : Int := 2

/-- Squared-distance threshold passed by `Process` (odometry.cc, line 8). -/
def kDistSquareThresh : ℚ := 25

/-- Minimum number of correspondences below which a warning is logged (odometry.cc, line 9). -/
def kMinMatchNum : Nat := 10

/-! ## `AssociateCornPoints` -/

/-- The local variables `pt2_idx` and `min_dist_pt2_squre` of `AssociateCornPoints`. -/
structure CornState where
  pt2_idx : Int
  min_dist_pt2_squre : ℚ
deriving DecidableEq

/-- The forward loop of `AssociateCornPoints` (lines 67-77). The list holds the pairs
`(i, tgt.points[i])` for `i = indices[0] + 1, ..., tgt.size() - 1`. -/
def cornForward (query_pt : TPoint) : List (Nat × TPoint) → CornState → CornState
  | [], st => st
  | (i, pt) :: rest, st =>
    let scan_id := GetScanId pt
    if scan_id ≤ GetScanId query_pt then cornForward query_pt rest st
    else if scan_id > GetScanId query_pt + kNearbyScanNum then st
    else
      let dist_squre := DistanceSqure query_pt pt
      if dist_squre < st.min_dist_pt2_squre then
        cornForward query_pt rest ⟨(i : Int), dist_squre⟩
      else cornForward query_pt rest st

/-- The backward loop of `AssociateCornPoints` (lines 78-88). The list holds the pairs
`(i, tgt.points[i])` for `i = indices[0] - 1, ..., 0`. -/
def cornBackward (query_pt : TPoint) : List (Nat × TPoint) → CornState → CornState
  | [], st => st
  | (i, pt) :: rest, st =>
    let scan_id := GetScanId pt
    if scan_id ≥ GetScanId query_pt then cornBackward query_pt rest st
    else if scan_id < GetScanId query_pt - kNearbyScanNum then st
    else
      let dist_squre := DistanceSqure query_pt pt
      if dist_squre < st.min_dist_pt2_squre then
        cornBackward query_pt rest ⟨(i : Int), dist_squre⟩
      else cornBackward query_pt rest st

/-- The index sequence of a forward loop `for (i = n + 1; i < tgt.size(); ++i)`. -/
def forwardRange (tgt : List TPoint) (n : Nat) : List (Nat × TPoint) :=
  tgt.enum.drop (n + 1)

/-- The index sequence of a backward loop `for (i = n - 1; i >= 0; --i)`. -/
def backwardRange (tgt : List TPoint) (n : Nat) : List (Nat × TPoint) :=
  (tgt.enum.take n).reverse

/-- The value of `pt2_idx` and `min_dist_pt2_squre` after both loops (lines 64-88). -/
def cornScan (tgt : List TPoint) (dist_thresh : ℚ) (query_pt : TPoint) (n : Nat) : CornState :=
  cornBackward query_pt (backwardRange tgt n)
    (cornForward query_pt (forwardRange tgt n) ⟨-1, dist_thresh * dist_thresh⟩)

/-- The windowed search of `AssociateCornPoints` for a query that passed the threshold
(lines 63-92): `some` correspondence when one is appended to `pairs`. -/
def cornWindow (tgt : List TPoint) (dist_thresh : ℚ) (query_pt : TPoint)
    (indices : List Nat) : Except Fault (Option PointLinePair) := do
  let n ← vecAt indices 0
  let pt1 ← vecAt tgt n
  let st := cornScan tgt dist_thresh query_pt n
  if st.pt2_idx ≥ 0 then
    let pt2 ← vecAt tgt st.pt2_idx.toNat
    pure (some ⟨query_pt, ⟨pt1, pt2⟩⟩)
  else pure none

/-- The body of the loop over `src` in `AssociateCornPoints` (lines 59-92). -/
def cornBody (search : KdTree) (tgt : List TPoint) (dist_thresh : ℚ) (query_pt : TPoint) :
    Except Fault (Option PointLinePair) := do
  let r := search tgt query_pt
  let d0 ← vecAt r.dists 0
  if d0 ≥ dist_thresh then pure none
  else cornWindow tgt dist_thresh query_pt r.indices

/-- Appends to `pairs` what one loop body emitted (`emplace_back`, or nothing). -/
def emplace {α : Type} (pairs : List α) : Option α → List α
  | none => pairs
  | some p => pairs ++ [p]

/-- The range-based loop `for (const auto& query_pt : src)` shared by the two association
functions: the body is run for each query point in order, what it emits is appended to `pairs`,
and a fault ends the loop. -/
def forEachQuery {α : Type} (body : TPoint → Except Fault (Option α)) :
    List TPoint → List α → Except Fault (List α)
  | [], pairs => .ok pairs
  | query_pt :: rest, pairs =>
    match body query_pt with
    | .error e => .error e
    | .ok r => forEachQuery body rest (emplace pairs r)

/-- `Odometry::AssociateCornPoints` (lines 53-94): the loop over the query points. -/
def AssociateCornPoints (search : KdTree) (src tgt : List TPoint)
    (pairs : List PointLinePair) (dist_thresh : ℚ) : Except Fault (List PointLinePair) :=
  forEachQuery (cornBody search tgt dist_thresh) src pairs

/-! ## `AssociateSurfPoints` -/

/-- The local variables `pt2_idx`, `pt3_idx`, `min_dist_pt2_squre` and `min_dist_pt3_squre` of
`AssociateSurfPoints`. -/
structure SurfState where
  pt2_idx : Int
  pt3_idx : Int
  min_dist_pt2_squre : ℚ
  min_dist_pt3_squre : ℚ
deriving DecidableEq

/-- The assignment of lines 116-119 and 132-135: a point on the query's scan line that is
closer than the current `pt2`. -/
def updPt2 (query_pt : TPoint) (i : Nat) (pt : TPoint) (st : SurfState) : SurfState :=
  if GetScanId pt = GetScanId query_pt ∧ DistanceSqure query_pt pt < st.min_dist_pt2_squre then
    { st with pt2_idx := (i : Int), min_dist_pt2_squre := DistanceSqure query_pt pt }
  else st

/-- The assignment of lines 120-123: a point on a higher scan line that is closer than the
current `pt3`. -/
def updPt3Fwd (query_pt : TPoint) (i : Nat) (pt : TPoint) (st : SurfState) : SurfState :=
  if GetScanId pt > GetScanId query_pt ∧ DistanceSqure query_pt pt < st.min_dist_pt3_squre then
    { st with pt3_idx := (i : Int), min_dist_pt3_squre := DistanceSqure query_pt pt }
  else st

/-- The assignment of lines 136-139: a point on a lower scan line that is closer than the
current `pt3`. -/
def updPt3Bwd (query_pt : TPoint) (i : Nat) (pt : TPoint) (st : SurfState) : SurfState :=
  if GetScanId pt < GetScanId query_pt ∧ DistanceSqure query_pt pt < st.min_dist_pt3_squre then
    { st with pt3_idx := (i : Int), min_dist_pt3_squre := DistanceSqure query_pt pt }
  else st

/-- The forward loop of `AssociateSurfPoints` (lines 111-125). -/
def surfForward (query_pt : TPoint) : List (Nat × TPoint) → SurfState → SurfState
  | [], st => st
  | (i, pt) :: rest, st =>
    let scan_id := GetScanId pt
    if scan_id > GetScanId query_pt + kNearbyScanNum then st
    else
      let st2 := updPt3Fwd query_pt i pt (updPt2 query_pt i pt st)
      if st2.pt2_idx = -1 ∧ scan_id > GetScanId query_pt then st2
      else surfForward query_pt rest st2

/-- The backward loop of `AssociateSurfPoints` (lines 126-141). -/
def surfBackward (query_pt : TPoint) : List (Nat × TPoint) → SurfState → SurfState
  | [], st => st
  | (i, pt) :: rest, st =>
    let scan_id := GetScanId pt
    if scan_id ≥ GetScanId query_pt then surfBackward query_pt rest st
    else if scan_id < GetScanId query_pt - kNearbyScanNum then st
    else
      let st2 := updPt3Bwd query_pt i pt (updPt2 query_pt i pt st)
      if st2.pt2_idx = -1 ∧ scan_id < GetScanId query_pt then st2
      else surfBackward query_pt rest st2

/-- The values of the four local variables after both loops (lines 107-141). -/
def surfScan (tgt : List TPoint) (dist_thresh : ℚ) (query_pt : TPoint) (n : Nat) : SurfState :=
  surfBackward query_pt (backwardRange tgt n)
    (surfForward query_pt (forwardRange tgt n)
      ⟨-1, -1, dist_thresh * dist_thresh, dist_thresh * dist_thresh⟩)

/-- The windowed search of `AssociateSurfPoints` for a query that passed the threshold
(lines 106-145). -/
def surfWindow (tgt : List TPoint) (dist_thresh : ℚ) (query_pt : TPoint)
    (indices : List Nat) : Except Fault (Option PointPlanePair) := do
  let n ← vecAt indices 0
  let pt1 ← vecAt tgt n
  let st := surfScan tgt dist_thresh query_pt n
  if st.pt2_idx ≥ 0 ∧ st.pt3_idx ≥ 0 then
    let pt2 ← vecAt tgt st.pt2_idx.toNat
    let pt3 ← vecAt tgt st.pt3_idx.toNat
    pure (some ⟨query_pt, ⟨pt1, pt2, pt3⟩⟩)
  else pure none

/-- The body of the loop over `src` in `AssociateSurfPoints` (lines 102-145). -/
def surfBody (search : KdTree) (tgt : List TPoint) (dist_thresh : ℚ) (query_pt : TPoint) :
    Except Fault (Option PointPlanePair) := do
  let r := search tgt query_pt
  let d0 ← vecAt r.dists 0
  if d0 ≥ dist_thresh then pure none
  else surfWindow tgt dist_thresh query_pt r.indices

/-- `Odometry::AssociateSurfPoints` (lines 96-147): the loop over the query points. -/
def AssociateSurfPoints (search : KdTree) (src tgt : List TPoint)
    (pairs : List PointPlanePair) (dist_thresh : ℚ) : Except Fault (List PointPlanePair) :=
  forEachQuery (surfBody search tgt dist_thresh) src pairs

/-! ## Poses -/

/-- Modelled from the spec: the rotation part of a pose, a quaternion with coefficients
`w, x, y, z`. -/
structure Quat where
  w : ℚ
  x : ℚ
  y : ℚ
  z : ℚ
deriving DecidableEq

/-- Modelled from the spec: the translation part of a pose, a vector of three coordinates. -/
structure Vec3 where
  x : ℚ
  y : ℚ
  z : ℚ
deriving DecidableEq

/-- Modelled from the spec: the pose type `Pose3D` of `common/geometry/pose3d.h`, a rotation
quaternion `q` and a translation vector `p`. -/
structure Pose3D where
  q : Quat
  p : Vec3
deriving DecidableEq

/-- Modelled from the spec: the Hamilton product of two quaternions. -/
def Quat.mul (a b : Quat) : Quat :=
  ⟨a.w * b.w - a.x * b.x - a.y * b.y - a.z * b.z,
   a.w * b.x + a.x * b.w + a.y * b.z - a.z * b.y,
   a.w * b.y - a.x * b.z + a.y * b.w + a.z * b.x,
   a.w * b.z + a.x * b.y - a.y * b.x + a.z * b.w⟩

/-- Cross product of two vectors. -/
def Vec3.cross (a b : Vec3) : Vec3 :=
  ⟨a.y * b.z - a.z * b.y, a.z * b.x - a.x * b.z, a.x * b.y - a.y * b.x⟩

/-- Sum of two vectors. -/
def Vec3.add (a b : Vec3) : Vec3 := ⟨a.x + b.x, a.y + b.y, a.z + b.z⟩

/-- Product of a scalar and a vector. -/
def Vec3.smul (c : ℚ) (a : Vec3) : Vec3 := ⟨c * a.x, c * a.y, c * a.z⟩

/-- Modelled from the spec: the rotation of a vector by a unit quaternion,
`v + w * (2 u × v) + u × (2 u × v)` with `u` the vector part of the quaternion. -/
def Quat.rotate (a : Quat) (v : Vec3) : Vec3 :=
  let u : Vec3 := ⟨a.x, a.y, a.z⟩
  let uv := Vec3.smul 2 (Vec3.cross u v)
  Vec3.add (Vec3.add v (Vec3.smul a.w uv)) (Vec3.cross u uv)

/-- Modelled from the spec: the composition `lhs ∘ rhs` of two poses (`operator*` of
`Pose3D`): rotations are multiplied, the translation of `rhs` is rotated by `lhs` and added to
the translation of `lhs`. -/
def Pose3D.mul (lhs rhs : Pose3D) : Pose3D :=
  ⟨Quat.mul lhs.q rhs.q, Vec3.add (Quat.rotate lhs.q rhs.p) lhs.p⟩

/-- Modelled from the spec: the identity pose, the value of a default-constructed `Pose3D`. -/
def Pose3D.identity : Pose3D := ⟨⟨1, 0, 0, 0⟩, ⟨0, 0, 0⟩⟩

/-! ## The odometry engine: `Process` and `UpdatePre` -/

/-- Modelled from the spec: the feature set handed to `Process`, four point sequences. -/
structure FeaturePoints where
  sharp_corner_pts : List TPoint
  less_sharp_corner_pts : List TPoint
  flat_surf_pts : List TPoint
  less_flat_surf_pts : List TPoint
deriving DecidableEq

/-- A scalar of the configuration file: an integer, or text that is not an integer. -/
inductive YamlValue where
  | int (n : Int)
  | text (s : String)
deriving DecidableEq

/-- Modelled from the spec: the configuration node `YAML::Node`, a map from keys to scalars. -/
abbrev YamlNode := List (String × YamlValue)

/-- The lookup `config[key].as<int>()`: `none` when the key is missing or its value is not an
integer (yaml-cpp then throws). -/
def YamlNode.asInt (config : YamlNode) (key : String) : Option Int :=
  match config.lookup key with
  | some (.int n) => some n
  | _ => none

/-- The key read by the loop header of `Process` (line 26). -/
def icpIterNumKey : String := "icp_iter_num"

/-- The data members of `Odometry` that `Process` reads or writes. -/
structure Odometry where
  config_ : YamlNode
  is_initialized : Bool
  pose_curr2last_ : Pose3D
  pose_curr2world_ : Pose3D
  corn_pts_pre_ : List TPoint
  surf_pts_pre_ : List TPoint
deriving DecidableEq

/-- A freshly constructed engine: not initialised, both poses the identity, no buffers. -/
def Odometry.fresh (config : YamlNode) : Odometry :=
  ⟨config, false, Pose3D.identity, Pose3D.identity, [], []⟩

/-- The pose solver `PoseSolver` of `solver/solver.h` (not part of the embedded files), as a
function: from the current relative pose and the correspondences added with their capture-time
fractions to the relative pose read back after `Solve()`. -/
abbrev PoseSolver :=
  Pose3D → List (PointLinePair × ℚ) → List (PointPlanePair × ℚ) → Pose3D

/-- `Odometry::UpdatePre` (lines 149-152). -/
def UpdatePre (st : Odometry) (feature : FeaturePoints) : Odometry :=
  { st with surf_pts_pre_ := feature.less_flat_surf_pts,
            corn_pts_pre_ := feature.less_sharp_corner_pts }

/-- What one iteration of the loop of `Process` did: the arguments of the two association
calls, the correspondences they built, whether the warning of line 34 was logged, and the
relative pose before and after the solve. -/
structure IterRecord where
  corn_src : List TPoint
  corn_tgt : List TPoint
  surf_src : List TPoint
  surf_tgt : List TPoint
  pl_pairs : List PointLinePair
  pp_pairs : List PointPlanePair
  warned : Bool
  pose_in : Pose3D
  pose_out : Pose3D
deriving DecidableEq

/-- One iteration of the loop of `Process` (lines 27-46). -/
def iterate (search : KdTree) (solve : PoseSolver) (feature : FeaturePoints) (st : Odometry) :
    Except Fault (Odometry × IterRecord) :=
  match AssociateCornPoints search feature.sharp_corner_pts st.corn_pts_pre_ []
      kDistSquareThresh with
  | .error e => .error e
  | .ok pl_pairs =>
    match AssociateSurfPoints search feature.flat_surf_pts st.surf_pts_pre_ []
        kDistSquareThresh with
    | .error e => .error e
    | .ok pp_pairs =>
      let warned := decide (pl_pairs.length + pp_pairs.length < kMinMatchNum)
      let pose := solve st.pose_curr2last_
        (pl_pairs.map fun pair => (pair, GetTime pair.pt))
        (pp_pairs.map fun pair => (pair, GetTime pair.pt))
      .ok ({ st with pose_curr2last_ := pose },
        ⟨feature.sharp_corner_pts, st.corn_pts_pre_, feature.flat_surf_pts, st.surf_pts_pre_,
          pl_pairs, pp_pairs, warned, st.pose_curr2last_, pose⟩)

/-- The loop of `Process` (lines 26-47) run for `n` iterations, with the record of each. -/
def icpLoop (search : KdTree) (solve : PoseSolver) (feature : FeaturePoints) :
    Nat → Odometry → Except Fault (Odometry × List IterRecord)
  | 0, st => .ok (st, [])
  | n + 1, st =>
    match iterate search solve feature st with
    | .error e => .error e
    | .ok (st1, r) =>
      match icpLoop search solve feature n st1 with
      | .error e => .error e
      | .ok (st2, rs) => .ok (st2, r :: rs)

/-- The outcome of a `Process` call that returned: the engine afterwards, the pose written to
`*pose`, and the records of the iterations that ran. -/
structure ProcessResult where
  state : Odometry
  pose : Pose3D
  trace : List IterRecord
deriving DecidableEq

/-- `Odometry::Process` (lines 19-51). -/
def Process (search : KdTree) (solve : PoseSolver) (st : Odometry) (feature : FeaturePoints) :
    Except Fault ProcessResult :=
  if !st.is_initialized then
    let st1 := UpdatePre { st with is_initialized := true } feature
    .ok ⟨st1, st1.pose_curr2world_, []⟩
  else
    match st.config_.asInt icpIterNumKey with
    | none => .error .badConfig
    | some iter_num =>
      match icpLoop search solve feature iter_num.toNat st with
      | .error e => .error e
      | .ok (st1, trace) =>
        let st2 := { st1 with pose_curr2world_ := Pose3D.mul st1.pose_curr2world_ st1.pose_curr2last_ }
        .ok ⟨UpdatePre st2 feature, st2.pose_curr2world_, trace⟩

/-! ## `Odometry::Init` -/

/-- `Odometry::Init` (odometry.cc, lines 12-17): the configuration is stored, the two k-d trees
are allocated, and `true` is returned. The result is the return value and the engine
afterwards. -/
def Init (st : Odometry) (config : YamlNode) : Bool × Odometry :=
  (true, { st with config_ := config })

/-! ## Motion compensation: `TransformToStart` and `TransformToEnd` of `helper.cc` -/

/-- The conjugate of a quaternion, the inverse rotation of a unit quaternion. -/
def Quat.conj (a : Quat) : Quat := ⟨a.w, -a.x, -a.y, -a.z⟩

/-- The opposite of a vector. -/
def Vec3.neg (a : Vec3) : Vec3 := ⟨-a.x, -a.y, -a.z⟩

/-- The spherical interpolation of rotations, `slerp from to t`, a function that is not
rational-valued and is therefore a parameter of the embedding. -/
abbrev Slerp := Quat → Quat → ℚ → Quat

/-- Modelled from the spec: `Pose3d::Inv` of `common/geometry/pose3d.h`, the inverse rigid
transform: the inverse rotation, and the opposite of the translation rotated back. -/
def Pose3D.Inv (a : Pose3D) : Pose3D :=
  ⟨a.q.conj, Vec3.neg (Quat.rotate a.q.conj a.p)⟩

/-- Modelled from the spec: `Pose3d::Interpolate` of `common/geometry/pose3d.h`,
`self.Interpolate(pose_to, t)`: spherical interpolation on the rotation, linear interpolation
on the translation. -/
def Pose3D.Interpolate (slerp : Slerp) (self pose_to : Pose3D) (t : ℚ) : Pose3D :=
  ⟨slerp self.q pose_to.q t,
    Vec3.add self.p (Vec3.smul t (Vec3.add pose_to.p (Vec3.neg self.p)))⟩

/-- Modelled from the spec: `common::TransformPoint` of `common/pcl/pcl_utils.h`: the position
is rotated and translated by the pose, every other field of the point is copied. -/
def TransformPoint (pose : Pose3D) (pt_in : TPoint) : TPoint :=
  let p := Vec3.add (Quat.rotate pose.q ⟨pt_in.x, pt_in.y, pt_in.z⟩) pose.p
  { pt_in with x := p.x, y := p.y, z := p.z }

/-- `TransformToStart` (helper.cc, lines 7-11). -/
def TransformToStart (slerp : Slerp) (pose : Pose3D) (pt_in : TPoint) : TPoint :=
  let pose_interp := Pose3D.Interpolate slerp Pose3D.identity pose (GetTime pt_in)
  TransformPoint pose_interp pt_in

/-- `TransformToEnd` (helper.cc, lines 19-23). -/
def TransformToEnd (slerp : Slerp) (pose : Pose3D) (pt_in : TPoint) : TPoint :=
  let pt_out := TransformToStart slerp pose pt_in
  TransformPoint (Pose3D.Inv pose) pt_out

/-! ## `OhMyLoam::RemoveOutliers` of `oh_my_loam.cc` -/

/-- A `float` coordinate of a raw cloud: a finite value, or a value that is not finite (an
infinity or a NaN). -/
inductive Coord where
  | finite (v : ℚ)
  | nonFinite
deriving DecidableEq

/-- Modelled from the spec: the point type `common::Point` of a raw cloud, a 3D position. -/
structure Point where
  x : Coord
  y : Coord
  z : Coord
deriving DecidableEq

/-- Modelled from the spec: `common::IsFinite`, all three coordinates are finite. -/
def IsFinite (pt : Point) : Bool :=
  match pt.x, pt.y, pt.z with
  | .finite _, .finite _, .finite _ => true
  | _, _, _ => false

/-- Modelled from the spec: `common::DistanceSquare` of a point, the squared distance from the
origin; `none` stands for a value that is not finite. -/
def DistanceSquare (pt : Point) : Option ℚ :=
  match pt.x, pt.y, pt.z with
  | .finite x, .finite y, .finite z => some (x * x + y * y + z * z)
  | _, _, _ => none

/-- The comparison `d < bound` of a floating value with a finite bound: false when `d` is not
finite. -/
def floatLt (d : Option ℚ) (bound : ℚ) : Bool :=
  match d with
  | some v => decide (v < bound)
  | none => false

/-- Modelled from the spec: `common::RemovePoints` of `common/pcl/pcl_utils.h`: the output
cloud holds, in order, the input points for which `check` is false. -/
def RemovePoints (cloud_in : List Point) (check : Point → Bool) : List Point :=
  cloud_in.filter fun pt => !check pt

/-- Minimum distance of a point from the sensor (oh_my_loam.cc, line 11). -/
def kPointMinDist : ℚ := 1 / 2

/-- `OhMyLoam::RemoveOutliers` (oh_my_loam.cc, lines 89-96). -/
def RemoveOutliers (cloud_in : List Point) : List Point :=
  RemovePoints cloud_in fun pt =>
    !IsFinite pt || floatLt (DistanceSquare pt) (kPointMinDist * kPointMinDist)

/-! ## Predicates used in the statements -/

/-- A target sequence ordered by non-decreasing scan-line id. -/
def ScanSorted (tgt : List TPoint) : Prop :=
  tgt.Pairwise fun a b => GetScanId a ≤ GetScanId b

instance (tgt : List TPoint) : Decidable (ScanSorted tgt) := by
  unfold ScanSorted; infer_instance

/-- The target points that the two loops of `AssociateCornPoints` accept as a second point
(and those of `AssociateSurfPoints` as a third point) when the nearest neighbour sits at index
`n`: a point at a larger index on one of the `kNearbyScanNum` scan lines above the query's, or
a point at a smaller index on one of the `kNearbyScanNum` scan lines below it. -/
def WindowCandidate (query_pt : TPoint) (n j : Nat) (pt : TPoint) : Prop :=
  (n < j ∧ GetScanId query_pt < GetScanId pt ∧
    GetScanId pt ≤ GetScanId query_pt + kNearbyScanNum) ∨
  (j < n ∧ GetScanId query_pt - kNearbyScanNum ≤ GetScanId pt ∧
    GetScanId pt < GetScanId query_pt)

instance (query_pt : TPoint) (n j : Nat) (pt : TPoint) :
    Decidable (WindowCandidate query_pt n j pt) := by
  unfold WindowCandidate; infer_instance

/-- The `pt2` slot after a scan over `L` from state `st`: untouched, or a point of `L` on the
query's scan line that is closer than the slot was. -/
def Pt2Step (query_pt : TPoint) (L : List (Nat × TPoint)) (st r : SurfState) : Prop :=
  (r.pt2_idx = st.pt2_idx ∧ r.min_dist_pt2_squre = st.min_dist_pt2_squre) ∨
  ∃ c ∈ L, GetScanId c.2 = GetScanId query_pt ∧ r.pt2_idx = (c.1 : Int) ∧
    r.min_dist_pt2_squre = DistanceSqure query_pt c.2 ∧
    DistanceSqure query_pt c.2 < st.min_dist_pt2_squre

/-- The `pt3` slot after a scan over `L` from state `st`: untouched, or a point of `L` whose
scan-line id satisfies `W` and that is closer than the slot was. -/
def Pt3Step (query_pt : TPoint) (W : Int → Prop) (L : List (Nat × TPoint))
    (st r : SurfState) : Prop :=
  (r.pt3_idx = st.pt3_idx ∧ r.min_dist_pt3_squre = st.min_dist_pt3_squre) ∨
  ∃ c ∈ L, W (GetScanId c.2) ∧ r.pt3_idx = (c.1 : Int) ∧
    r.min_dist_pt3_squre = DistanceSqure query_pt c.2 ∧
    DistanceSqure query_pt c.2 < st.min_dist_pt3_squre

/-- The relative pose after the iterations recorded in a trace, starting from pose `p`: the
pose written by the last solve, or `p` when no iteration ran. -/
def lastPoseOut (p : Pose3D) : List IterRecord → Pose3D
  | [] => p
  | r :: rs => lastPoseOut r.pose_out rs

/-- The relative poses of a trace are linked: the first iteration starts from `p`, every
later one from the pose written by the solve before it. -/
def PosesLinked (p : Pose3D) : List IterRecord → Prop
  | [] => True
  | r :: rs => r.pose_in = p ∧ PosesLinked r.pose_out rs

/-- One record describes an iteration of `Process` on frame `feature` against the targets
`corn_pre` and `surf_pre`: the two association calls got the frame's sharp-corner and
flat-surface points as queries and the two targets, the warning was logged exactly when fewer
than `kMinMatchNum` correspondences were built, and the solver ran on all of them. -/
def IterOk (search : KdTree) (solve : PoseSolver) (feature : FeaturePoints)
    (corn_pre surf_pre : List TPoint) (r : IterRecord) : Prop :=
  r.corn_src = feature.sharp_corner_pts ∧ r.corn_tgt = corn_pre ∧
  r.surf_src = feature.flat_surf_pts ∧ r.surf_tgt = surf_pre ∧
  AssociateCornPoints search r.corn_src r.corn_tgt [] kDistSquareThresh = .ok r.pl_pairs ∧
  AssociateSurfPoints search r.surf_src r.surf_tgt [] kDistSquareThresh = .ok r.pp_pairs ∧
  (r.warned = true ↔ r.pl_pairs.length + r.pp_pairs.length < kMinMatchNum) ∧
  r.pose_out = solve r.pose_in (r.pl_pairs.map fun pair => (pair, GetTime pair.pt))
    (r.pp_pairs.map fun pair => (pair, GetTime pair.pt))

/-! ## Sample data for the worked instances -/

/-- A configuration asking for two iterations per frame. -/
def demoConfig : YamlNode := [("icp_iter_num", .int 2)]

/-- A stand-in solver: it moves the translation along `x` by one plus the number of
correspondences it was given. -/
def demoSolver : PoseSolver := fun pose pl pp =>
  ⟨pose.q, ⟨pose.p.x + 1 + pl.length + pp.length, pose.p.y, pose.p.z⟩⟩

/-- A frame with one sharp corner point, one flat surface point and three points in each of
the less strict categories. -/
def demoFrame : FeaturePoints :=
  ⟨[⟨0, 0, 0, 1⟩], [⟨1, 0, 0, 0⟩, ⟨2, 0, 0, 0⟩, ⟨3, 0, 0, 2⟩],
   [⟨0, 0, 0, 1⟩], [⟨1, 0, 0, 0⟩, ⟨2, 0, 0, 1⟩, ⟨3, 0, 0, 2⟩]⟩

/-- The engine after the first `Process` call on `demoFrame`. -/
def demoRunning : Odometry :=
  ⟨demoConfig, true, Pose3D.identity, Pose3D.identity,
    demoFrame.less_sharp_corner_pts, demoFrame.less_flat_surf_pts⟩

/-- The line correspondence built for `demoFrame` against its own less-sharp corner points. -/
def demoLine : PointLinePair := ⟨⟨0, 0, 0, 1⟩, ⟨⟨1, 0, 0, 0⟩, ⟨3, 0, 0, 2⟩⟩⟩

/-- The plane correspondence built for `demoFrame` against its own less-flat surface points. -/
def demoPlane : PointPlanePair := ⟨⟨0, 0, 0, 1⟩, ⟨⟨1, 0, 0, 0⟩, ⟨2, 0, 0, 1⟩, ⟨3, 0, 0, 2⟩⟩⟩

/-- The records of the two iterations of the second `Process` call on `demoFrame`. -/
def demoTrace : List IterRecord :=
  [⟨demoFrame.sharp_corner_pts, demoFrame.less_sharp_corner_pts, demoFrame.flat_surf_pts,
      demoFrame.less_flat_surf_pts, [demoLine], [demoPlane], true,
      Pose3D.identity, ⟨⟨1, 0, 0, 0⟩, ⟨3, 0, 0⟩⟩⟩,
   ⟨demoFrame.sharp_corner_pts, demoFrame.less_sharp_corner_pts, demoFrame.flat_surf_pts,
      demoFrame.less_flat_surf_pts, [demoLine], [demoPlane], true,
      ⟨⟨1, 0, 0, 0⟩, ⟨3, 0, 0⟩⟩, ⟨⟨1, 0, 0, 0⟩, ⟨6, 0, 0⟩⟩⟩]

/-- The outcome of the second `Process` call on `demoFrame`. -/
def demoSecond : ProcessResult :=
  ⟨⟨demoConfig, true, ⟨⟨1, 0, 0, 0⟩, ⟨6, 0, 0⟩⟩, ⟨⟨1, 0, 0, 0⟩, ⟨6, 0, 0⟩⟩,
      demoFrame.less_sharp_corner_pts, demoFrame.less_flat_surf_pts⟩,
    ⟨⟨1, 0, 0, 0⟩, ⟨6, 0, 0⟩⟩, demoTrace⟩

/-- A frame with five sharp corner points and five flat surface points (the same position
five times), enough for ten correspondences. -/
def denseFrame : FeaturePoints :=
  ⟨List.replicate 5 ⟨0, 0, 0, 1⟩, [⟨1, 0, 0, 0⟩, ⟨2, 0, 0, 0⟩, ⟨3, 0, 0, 2⟩],
   List.replicate 5 ⟨0, 0, 0, 1⟩, [⟨1, 0, 0, 0⟩, ⟨2, 0, 0, 1⟩, ⟨3, 0, 0, 2⟩]⟩

/-- An initialised engine whose previous-frame corner buffer is empty. -/
def emptyBufferEngine : Odometry :=
  ⟨demoConfig, true, Pose3D.identity, Pose3D.identity, [], demoFrame.less_flat_surf_pts⟩

/-- Three points lie on one line: the cross product of `b - a` and `c - a` vanishes. -/
def Collinear (a b c : TPoint) : Prop :=
  Vec3.cross ⟨b.x - a.x, b.y - a.y, b.z - a.z⟩ ⟨c.x - a.x, c.y - a.y, c.z - a.z⟩ = ⟨0, 0, 0⟩

instance (a b c : TPoint) : Decidable (Collinear a b c) := by
  unfold Collinear; infer_instance

/-- The points a raw cloud keeps according to the specification: finite, and at squared
distance at least `0.5² = 0.25` from the origin. -/
def keptBySpec (pt : Point) : Bool :=
  match pt.x, pt.y, pt.z with
  | .finite x, .finite y, .finite z => decide (1 / 4 ≤ x * x + y * y + z * z)
  | _, _, _ => false

/-- Reference for the two scans of `AssociateCornPoints`: the set `F` of the points after
index `n` whose scan-line id lies in `q+1 .. q+2`, in increasing index order, followed by the
set `B` of the points before index `n` whose id lies in `q-2 .. q-1`, in decreasing index
order. -/
def cornCandidates (tgt : List TPoint) (query_pt : TPoint) (n : Nat) : List (Nat × TPoint) :=
  (forwardRange tgt n).filter (fun c =>
      decide (GetScanId query_pt < GetScanId c.2 ∧
        GetScanId c.2 ≤ GetScanId query_pt + kNearbyScanNum)) ++
  (backwardRange tgt n).filter (fun c =>
      decide (GetScanId query_pt - kNearbyScanNum ≤ GetScanId c.2 ∧
        GetScanId c.2 < GetScanId query_pt))

/-- One step of a running minimum over candidates: a candidate strictly closer than the
recorded distance replaces the recorded index and distance. -/
def pickStep (query_pt : TPoint) (st : CornState) (c : Nat × TPoint) : CornState :=
  if DistanceSqure query_pt c.2 < st.min_dist_pt2_squre then
    ⟨(c.1 : Int), DistanceSqure query_pt c.2⟩
  else st

/-- A scan state `st` and a running first minimum `acc` over the candidates closer than
`bound` describe the same choice. -/
def PickRel (query_pt : TPoint) (bound : ℚ) (st : CornState) (acc : Option (Nat × TPoint)) :
    Prop :=
  (acc = none ∧ st = ⟨-1, bound⟩) ∨
  ∃ c, acc = some c ∧ st = ⟨(c.1 : Int), DistanceSqure query_pt c.2⟩ ∧
    DistanceSqure query_pt c.2 < bound

/-- Reference for `pt2`: among the candidates closer than the initial bound
`dist_thresh * dist_thresh`, the one of minimum squared distance to the query, the first in
visiting order among equals. -/
def cornPt2Ref (tgt : List TPoint) (dist_thresh : ℚ) (query_pt : TPoint) (n : Nat) :
    Option (Nat × TPoint) :=
  ((cornCandidates tgt query_pt n).filter fun c =>
      decide (DistanceSqure query_pt c.2 < dist_thresh * dist_thresh)).argmin
    fun c => DistanceSqure query_pt c.2

/-- A stand-in for the spherical interpolation: linear on the four coefficients. -/
def demoSlerp : Slerp := fun a b t =>
  ⟨(1 - t) * a.w + t * b.w, (1 - t) * a.x + t * b.x,
   (1 - t) * a.y + t * b.y, (1 - t) * a.z + t * b.z⟩

/-! # Theorems -/

/-! ## Loop ranges -/

theorem mem_forwardRange (tgt : List TPoint) (n j : Nat) (pt : TPoint) :
    (j, pt) ∈ forwardRange tgt n ↔ n < j ∧ tgt[j]? = some pt := by
  unfold forwardRange
  rw [List.mem_iff_getElem?]
  constructor
  · rintro ⟨m, hm⟩
    rw [List.getElem?_drop, List.getElem?_enum] at hm
    cases hq : tgt[n + 1 + m]? with
    | none => simp [hq] at hm
    | some a =>
      simp [hq] at hm
      obtain ⟨h1, h2⟩ := hm
      subst h1 h2
      exact ⟨by omega, hq⟩
  · rintro ⟨hlt, hj⟩
    refine ⟨j - (n + 1), ?_⟩
    rw [List.getElem?_drop, List.getElem?_enum]
    have : n + 1 + (j - (n + 1)) = j := by omega
    simp [this, hj]

theorem mem_backwardRange (tgt : List TPoint) (n j : Nat) (pt : TPoint) :
    (j, pt) ∈ backwardRange tgt n ↔ j < n ∧ tgt[j]? = some pt := by
  unfold backwardRange
  rw [List.mem_reverse, List.mem_iff_getElem?]
  constructor
  · rintro ⟨m, hm⟩
    rw [List.getElem?_take] at hm
    split at hm
    · rw [List.getElem?_enum] at hm
      cases hq : tgt[m]? with
      | none => simp [hq] at hm
      | some a =>
        simp [hq] at hm
        obtain ⟨h1, h2⟩ := hm
        subst h1 h2
        exact ⟨by assumption, hq⟩
    · simp at hm
  · rintro ⟨hlt, hj⟩
    refine ⟨j, ?_⟩
    rw [List.getElem?_take, if_pos hlt, List.getElem?_enum]
    simp [hj]

theorem enum_pairwise (tgt : List TPoint) (h : ScanSorted tgt) :
    tgt.enum.Pairwise fun a b => GetScanId a.2 ≤ GetScanId b.2 := by
  have h2 : (tgt.enum.map Prod.snd).Pairwise fun a b => GetScanId a ≤ GetScanId b := by
    rw [List.enum_map_snd]; exact h
  rw [List.pairwise_map] at h2
  exact h2

theorem forwardRange_pairwise (tgt : List TPoint) (n : Nat) (h : ScanSorted tgt) :
    (forwardRange tgt n).Pairwise fun a b => GetScanId a.2 ≤ GetScanId b.2 :=
  (enum_pairwise tgt h).sublist (List.drop_sublist _ _)

theorem backwardRange_pairwise (tgt : List TPoint) (n : Nat) (h : ScanSorted tgt) :
    (backwardRange tgt n).Pairwise fun a b => GetScanId b.2 ≤ GetScanId a.2 := by
  unfold backwardRange
  rw [List.pairwise_reverse]
  exact (enum_pairwise tgt h).sublist (List.take_sublist _ _)


/-! ## The loops of `AssociateCornPoints` -/

/-- What the forward loop of `AssociateCornPoints` leaves in its state. -/
theorem cornForward_inv (query_pt : TPoint) (L : List (Nat × TPoint)) :
    ∀ st : CornState,
      (cornForward query_pt L st = st ∨
        ∃ c ∈ L, GetScanId query_pt < GetScanId c.2 ∧
          GetScanId c.2 ≤ GetScanId query_pt + kNearbyScanNum ∧
          cornForward query_pt L st = ⟨(c.1 : Int), DistanceSqure query_pt c.2⟩ ∧
          DistanceSqure query_pt c.2 < st.min_dist_pt2_squre) ∧
      (cornForward query_pt L st).min_dist_pt2_squre ≤ st.min_dist_pt2_squre ∧
      ((L.Pairwise fun a b => GetScanId a.2 ≤ GetScanId b.2) →
        ∀ c ∈ L, GetScanId query_pt < GetScanId c.2 →
          GetScanId c.2 ≤ GetScanId query_pt + kNearbyScanNum →
          (cornForward query_pt L st).min_dist_pt2_squre ≤ DistanceSqure query_pt c.2) := by
  induction L with
  | nil => intro st; simp [cornForward]
  | cons hd rest ih =>
    intro st
    obtain ⟨i, pt⟩ := hd
    by_cases h1 : GetScanId pt ≤ GetScanId query_pt
    · have e : cornForward query_pt ((i, pt) :: rest) st = cornForward query_pt rest st := by
        simp [cornForward, h1]
      rw [e]
      obtain ⟨ha, hb, hc⟩ := ih st
      refine ⟨?_, hb, ?_⟩
      · rcases ha with ha | ⟨c, hc1, hc2⟩
        · exact Or.inl ha
        · exact Or.inr ⟨c, List.mem_cons_of_mem _ hc1, hc2⟩
      · intro hp c hc1 hc2 hc3
        rcases List.mem_cons.mp hc1 with rfl | hm
        · exact absurd h1 (not_le.mpr hc2)
        · exact hc (List.Pairwise.of_cons hp) c hm hc2 hc3
    · by_cases h2 : GetScanId pt > GetScanId query_pt + kNearbyScanNum
      · have e : cornForward query_pt ((i, pt) :: rest) st = st := by
          simp [cornForward, h1, h2]
        rw [e]
        refine ⟨Or.inl rfl, le_refl _, ?_⟩
        intro hp c hc1 hc2 hc3
        rcases List.mem_cons.mp hc1 with rfl | hm
        · exact absurd hc3 (not_le.mpr h2)
        · have := List.rel_of_pairwise_cons hp hm
          simp only at this
          omega
      · by_cases h3 : DistanceSqure query_pt pt < st.min_dist_pt2_squre
        · have e : cornForward query_pt ((i, pt) :: rest) st =
              cornForward query_pt rest ⟨(i : Int), DistanceSqure query_pt pt⟩ := by
            simp [cornForward, h1, h2, h3]
          rw [e]
          obtain ⟨ha, hb, hc⟩ := ih ⟨(i : Int), DistanceSqure query_pt pt⟩
          simp only at ha hb hc
          refine ⟨Or.inr ?_, le_trans hb (le_of_lt h3), ?_⟩
          · rcases ha with ha | ⟨c, hc1, hc2, hc3, hc4, hc5⟩
            · exact ⟨(i, pt), List.mem_cons_self _ _, not_le.mp h1, not_lt.mp h2, ha, h3⟩
            · exact ⟨c, List.mem_cons_of_mem _ hc1, hc2, hc3, hc4, lt_trans hc5 h3⟩
          · intro hp c hc1 hc2 hc3
            rcases List.mem_cons.mp hc1 with rfl | hm
            · exact hb
            · exact hc (List.Pairwise.of_cons hp) c hm hc2 hc3
        · have e : cornForward query_pt ((i, pt) :: rest) st = cornForward query_pt rest st := by
            simp [cornForward, h1, h2, h3]
          rw [e]
          obtain ⟨ha, hb, hc⟩ := ih st
          refine ⟨?_, hb, ?_⟩
          · rcases ha with ha | ⟨c, hc1, hc2⟩
            · exact Or.inl ha
            · exact Or.inr ⟨c, List.mem_cons_of_mem _ hc1, hc2⟩
          · intro hp c hc1 hc2 hc3
            rcases List.mem_cons.mp hc1 with rfl | hm
            · exact le_trans hb (not_lt.mp h3)
            · exact hc (List.Pairwise.of_cons hp) c hm hc2 hc3

/-- What the backward loop of `AssociateCornPoints` leaves in its state. -/
theorem cornBackward_inv (query_pt : TPoint) (L : List (Nat × TPoint)) :
    ∀ st : CornState,
      (cornBackward query_pt L st = st ∨
        ∃ c ∈ L, GetScanId query_pt - kNearbyScanNum ≤ GetScanId c.2 ∧
          GetScanId c.2 < GetScanId query_pt ∧
          cornBackward query_pt L st = ⟨(c.1 : Int), DistanceSqure query_pt c.2⟩ ∧
          DistanceSqure query_pt c.2 < st.min_dist_pt2_squre) ∧
      (cornBackward query_pt L st).min_dist_pt2_squre ≤ st.min_dist_pt2_squre ∧
      ((L.Pairwise fun a b => GetScanId b.2 ≤ GetScanId a.2) →
        ∀ c ∈ L, GetScanId query_pt - kNearbyScanNum ≤ GetScanId c.2 →
          GetScanId c.2 < GetScanId query_pt →
          (cornBackward query_pt L st).min_dist_pt2_squre ≤ DistanceSqure query_pt c.2) := by
  induction L with
  | nil => intro st; simp [cornBackward]
  | cons hd rest ih =>
    intro st
    obtain ⟨i, pt⟩ := hd
    by_cases h1 : GetScanId pt ≥ GetScanId query_pt
    · have e : cornBackward query_pt ((i, pt) :: rest) st = cornBackward query_pt rest st := by
        simp [cornBackward, h1]
      rw [e]
      obtain ⟨ha, hb, hc⟩ := ih st
      refine ⟨?_, hb, ?_⟩
      · rcases ha with ha | ⟨c, hc1, hc2⟩
        · exact Or.inl ha
        · exact Or.inr ⟨c, List.mem_cons_of_mem _ hc1, hc2⟩
      · intro hp c hc1 hc2 hc3
        rcases List.mem_cons.mp hc1 with rfl | hm
        · exact absurd h1 (not_le.mpr hc3)
        · exact hc (List.Pairwise.of_cons hp) c hm hc2 hc3
    · by_cases h2 : GetScanId pt < GetScanId query_pt - kNearbyScanNum
      · have e : cornBackward query_pt ((i, pt) :: rest) st = st := by
          simp [cornBackward, h1, h2]
        rw [e]
        refine ⟨Or.inl rfl, le_refl _, ?_⟩
        intro hp c hc1 hc2 hc3
        rcases List.mem_cons.mp hc1 with rfl | hm
        · exact absurd hc2 (not_le.mpr h2)
        · have := List.rel_of_pairwise_cons hp hm
          simp only at this
          omega
      · by_cases h3 : DistanceSqure query_pt pt < st.min_dist_pt2_squre
        · have e : cornBackward query_pt ((i, pt) :: rest) st =
              cornBackward query_pt rest ⟨(i : Int), DistanceSqure query_pt pt⟩ := by
            simp [cornBackward, h1, h2, h3]
          rw [e]
          obtain ⟨ha, hb, hc⟩ := ih ⟨(i : Int), DistanceSqure query_pt pt⟩
          simp only at ha hb hc
          refine ⟨Or.inr ?_, le_trans hb (le_of_lt h3), ?_⟩
          · rcases ha with ha | ⟨c, hc1, hc2, hc3, hc4, hc5⟩
            · exact ⟨(i, pt), List.mem_cons_self _ _, not_lt.mp h2, not_le.mp h1, ha, h3⟩
            · exact ⟨c, List.mem_cons_of_mem _ hc1, hc2, hc3, hc4, lt_trans hc5 h3⟩
          · intro hp c hc1 hc2 hc3
            rcases List.mem_cons.mp hc1 with rfl | hm
            · exact hb
            · exact hc (List.Pairwise.of_cons hp) c hm hc2 hc3
        · have e : cornBackward query_pt ((i, pt) :: rest) st = cornBackward query_pt rest st := by
            simp [cornBackward, h1, h2, h3]
          rw [e]
          obtain ⟨ha, hb, hc⟩ := ih st
          refine ⟨?_, hb, ?_⟩
          · rcases ha with ha | ⟨c, hc1, hc2⟩
            · exact Or.inl ha
            · exact Or.inr ⟨c, List.mem_cons_of_mem _ hc1, hc2⟩
          · intro hp c hc1 hc2 hc3
            rcases List.mem_cons.mp hc1 with rfl | hm
            · exact le_trans hb (not_lt.mp h3)
            · exact hc (List.Pairwise.of_cons hp) c hm hc2 hc3



theorem vecAt_eq_ok {α : Type} (v : List α) (i : Nat) (a : α) :
    vecAt v i = .ok a ↔ v[i]? = some a := by
  unfold vecAt
  cases v[i]? <;> simp

theorem vecAt_eq_error {α : Type} (v : List α) (i : Nat) (e : Fault) :
    vecAt v i = .error e ↔ v[i]? = none ∧ e = .outOfRange := by
  unfold vecAt
  cases v[i]? <;> simp [eq_comm]

/-- The state after both loops of `AssociateCornPoints`: either untouched, or the index and
squared distance of a candidate closer than `dist_thresh * dist_thresh`; on a sorted target
no candidate is closer than the recorded distance. -/
theorem cornScan_inv (tgt : List TPoint) (dist_thresh : ℚ) (query_pt : TPoint) (n : Nat) :
    (cornScan tgt dist_thresh query_pt n = ⟨-1, dist_thresh * dist_thresh⟩ ∨
      ∃ j pt, tgt[j]? = some pt ∧ WindowCandidate query_pt n j pt ∧
        cornScan tgt dist_thresh query_pt n = ⟨(j : Int), DistanceSqure query_pt pt⟩ ∧
        DistanceSqure query_pt pt < dist_thresh * dist_thresh) ∧
    (ScanSorted tgt → ∀ j pt, tgt[j]? = some pt → WindowCandidate query_pt n j pt →
      (cornScan tgt dist_thresh query_pt n).min_dist_pt2_squre ≤ DistanceSqure query_pt pt) := by
  obtain ⟨f1, f2, f3⟩ := cornForward_inv query_pt (forwardRange tgt n)
    ⟨-1, dist_thresh * dist_thresh⟩
  obtain ⟨b1, b2, b3⟩ := cornBackward_inv query_pt (backwardRange tgt n)
    (cornForward query_pt (forwardRange tgt n) ⟨-1, dist_thresh * dist_thresh⟩)
  unfold cornScan
  constructor
  · rcases b1 with b1 | ⟨c, hc1, hc2, hc3, hc4, hc5⟩
    · rw [b1]
      rcases f1 with f1 | ⟨c, hc1, hc2, hc3, hc4, hc5⟩
      · exact Or.inl f1
      · obtain ⟨j, pt⟩ := c
        obtain ⟨hj1, hj2⟩ := (mem_forwardRange tgt n j pt).mp hc1
        exact Or.inr ⟨j, pt, hj2, Or.inl ⟨hj1, hc2, hc3⟩, hc4, hc5⟩
    · obtain ⟨j, pt⟩ := c
      obtain ⟨hj1, hj2⟩ := (mem_backwardRange tgt n j pt).mp hc1
      exact Or.inr ⟨j, pt, hj2, Or.inr ⟨hj1, hc2, hc3⟩, hc4, lt_of_lt_of_le hc5 f2⟩
  · intro hs j pt hj hc
    rcases hc with ⟨h1, h2, h3⟩ | ⟨h1, h2, h3⟩
    · exact le_trans b2 (f3 (forwardRange_pairwise tgt n hs) (j, pt)
        ((mem_forwardRange tgt n j pt).mpr ⟨h1, hj⟩) h2 h3)
    · exact b3 (backwardRange_pairwise tgt n hs) (j, pt)
        ((mem_backwardRange tgt n j pt).mpr ⟨h1, hj⟩) h2 h3

/-- What an emitted line correspondence consists of. -/
theorem cornWindow_some (tgt : List TPoint) (dist_thresh : ℚ) (query_pt : TPoint)
    (indices : List Nat) (p : PointLinePair)
    (h : cornWindow tgt dist_thresh query_pt indices = .ok (some p)) :
    ∃ n k : Nat, indices[0]? = some n ∧ p.pt = query_pt ∧ tgt[n]? = some p.line.pt1 ∧
      tgt[k]? = some p.line.pt2 ∧
      cornScan tgt dist_thresh query_pt n = ⟨(k : Int), DistanceSqure query_pt p.line.pt2⟩ ∧
      WindowCandidate query_pt n k p.line.pt2 ∧
      DistanceSqure query_pt p.line.pt2 < dist_thresh * dist_thresh := by
  unfold cornWindow at h
  cases h0 : vecAt indices 0 with
  | error e => simp [h0, bind, Except.bind] at h
  | ok n =>
    cases h1 : vecAt tgt n with
    | error e => simp [h0, h1, bind, Except.bind] at h
    | ok pt1 =>
      simp only [h0, h1, bind, Except.bind] at h
      rcases (cornScan_inv tgt dist_thresh query_pt n).1 with hs | ⟨j, pt, hj, hc, hs, hd⟩
      · rw [hs] at h
        simp [pure, Except.pure] at h
      · rw [hs] at h
        simp only [Int.toNat_ofNat, ge_iff_le, Int.ofNat_nonneg, if_true,
          Int.natCast_nonneg] at h
        have h2 : vecAt tgt j = .ok pt := (vecAt_eq_ok tgt j pt).mpr hj
        simp only [h2, pure, Except.pure, Except.ok.injEq, Option.some.injEq] at h
        subst h
        exact ⟨n, j, (vecAt_eq_ok _ _ _).mp h0, rfl, (vecAt_eq_ok _ _ _).mp h1, hj, hs, hc, hd⟩



/-! ## The loop over the query points -/

theorem emplace_eq {α : Type} (pairs : List α) (r : Option α) :
    emplace pairs r = pairs ++ r.toList := by
  cases r <;> simp [emplace]

/-- The loop over the query points returns exactly when every body returns, and then appends
what the bodies emitted, in the order of the query sequence. -/
theorem forEachQuery_ok_iff {α : Type} (body : TPoint → Except Fault (Option α))
    (src : List TPoint) :
    ∀ (pairs out : List α), forEachQuery body src pairs = .ok out ↔
      ∃ rs, List.Forall₂ (fun q r => body q = .ok r) src rs ∧
        out = pairs ++ rs.reduceOption := by
  induction src with
  | nil =>
    intro pairs out
    simp [forEachQuery, eq_comm]
  | cons q rest ih =>
    intro pairs out
    cases hb : body q with
    | error e =>
      simp only [forEachQuery, hb]
      constructor
      · intro h; cases h
      · rintro ⟨rs, hf, -⟩
        cases hf with
        | cons h1 _ => simp [hb] at h1
    | ok r =>
      simp only [forEachQuery, hb]
      rw [ih, emplace_eq]
      constructor
      · rintro ⟨rs, hf, ho⟩
        refine ⟨r :: rs, List.Forall₂.cons hb hf, ?_⟩
        cases r <;> simp [ho, List.reduceOption_cons_of_some, List.reduceOption_cons_of_none]
      · rintro ⟨rs, hf, ho⟩
        cases hf with
        | cons h1 h2 =>
          rename_i r2 rs2
          rw [hb] at h1
          cases h1
          refine ⟨rs2, h2, ?_⟩
          cases r <;> simp [ho, List.reduceOption_cons_of_some, List.reduceOption_cons_of_none]

/-- Every correspondence appended by the loop was emitted by the body at some query point. -/
theorem forEachQuery_new {α : Type} (body : TPoint → Except Fault (Option α))
    (src : List TPoint) (pairs out : List α) (h : forEachQuery body src pairs = .ok out) :
    ∃ new, out = pairs ++ new ∧ ∀ p ∈ new, ∃ q ∈ src, body q = .ok (some p) := by
  obtain ⟨rs, hf, ho⟩ := (forEachQuery_ok_iff body src pairs out).mp h
  refine ⟨rs.reduceOption, ho, ?_⟩
  intro p hp
  rw [List.reduceOption_mem_iff] at hp
  clear ho h
  induction hf with
  | nil => simp at hp
  | cons h1 _ ih =>
    rcases List.mem_cons.mp hp with rfl | hm
    · exact ⟨_, List.mem_cons_self _ _, h1⟩
    · obtain ⟨q, hq1, hq2⟩ := ih hm
      exact ⟨q, List.mem_cons_of_mem _ hq1, hq2⟩

/-- The loop over the query points returns when every body returns. -/
theorem forEachQuery_total {α : Type} (body : TPoint → Except Fault (Option α))
    (src : List TPoint) (hb : ∀ q ∈ src, ∃ r, body q = .ok r) :
    ∀ pairs : List α, ∃ out, forEachQuery body src pairs = .ok out := by
  induction src with
  | nil => intro pairs; exact ⟨pairs, rfl⟩
  | cons q rest ih =>
    intro pairs
    obtain ⟨r, hr⟩ := hb q (List.mem_cons_self _ _)
    simp only [forEachQuery, hr]
    exact ih (fun q2 h2 => hb q2 (List.mem_cons_of_mem _ h2)) _


/-! ## The loops of `AssociateSurfPoints` -/

theorem pt2Step_trans {query_pt : TPoint} {c : Nat × TPoint} {rest : List (Nat × TPoint)}
    {st st2 r : SurfState} (h1 : Pt2Step query_pt [c] st st2) (h2 : Pt2Step query_pt rest st2 r) :
    Pt2Step query_pt (c :: rest) st r := by
  rcases h2 with ⟨a, b⟩ | ⟨d, hd, h3, h4, h5, h6⟩
  · rcases h1 with ⟨a1, b1⟩ | ⟨d, hd, h3, h4, h5, h6⟩
    · exact Or.inl ⟨a.trans a1, b.trans b1⟩
    · rw [List.mem_singleton] at hd
      subst hd
      exact Or.inr ⟨d, List.mem_cons_self _ _, h3, a.trans h4, b.trans h5, h6⟩
  · refine Or.inr ⟨d, List.mem_cons_of_mem _ hd, h3, h4, h5, ?_⟩
    rcases h1 with ⟨_, b1⟩ | ⟨e, _, _, _, h5e, h6e⟩
    · rw [← b1]; exact h6
    · exact lt_trans (h5e ▸ h6) h6e

theorem pt3Step_trans {query_pt : TPoint} {W : Int → Prop} {c : Nat × TPoint}
    {rest : List (Nat × TPoint)} {st st2 r : SurfState}
    (h1 : Pt3Step query_pt W [c] st st2) (h2 : Pt3Step query_pt W rest st2 r) :
    Pt3Step query_pt W (c :: rest) st r := by
  rcases h2 with ⟨a, b⟩ | ⟨d, hd, h3, h4, h5, h6⟩
  · rcases h1 with ⟨a1, b1⟩ | ⟨d, hd, h3, h4, h5, h6⟩
    · exact Or.inl ⟨a.trans a1, b.trans b1⟩
    · rw [List.mem_singleton] at hd
      subst hd
      exact Or.inr ⟨d, List.mem_cons_self _ _, h3, a.trans h4, b.trans h5, h6⟩
  · refine Or.inr ⟨d, List.mem_cons_of_mem _ hd, h3, h4, h5, ?_⟩
    rcases h1 with ⟨_, b1⟩ | ⟨e, _, _, _, h5e, h6e⟩
    · rw [← b1]; exact h6
    · exact lt_trans (h5e ▸ h6) h6e

theorem pt2Step_tail {query_pt : TPoint} {c : Nat × TPoint} {rest : List (Nat × TPoint)}
    {st r : SurfState} (h : Pt2Step query_pt rest st r) : Pt2Step query_pt (c :: rest) st r :=
  pt2Step_trans (Or.inl ⟨rfl, rfl⟩) h

theorem pt3Step_tail {query_pt : TPoint} {W : Int → Prop} {c : Nat × TPoint}
    {rest : List (Nat × TPoint)} {st r : SurfState} (h : Pt3Step query_pt W rest st r) :
    Pt3Step query_pt W (c :: rest) st r :=
  pt3Step_trans (Or.inl ⟨rfl, rfl⟩) h

theorem pt2Step_head {query_pt : TPoint} {c : Nat × TPoint} {rest : List (Nat × TPoint)}
    {st r : SurfState} (h : Pt2Step query_pt [c] st r) : Pt2Step query_pt (c :: rest) st r :=
  pt2Step_trans h (Or.inl ⟨rfl, rfl⟩)

theorem pt3Step_head {query_pt : TPoint} {W : Int → Prop} {c : Nat × TPoint}
    {rest : List (Nat × TPoint)} {st r : SurfState} (h : Pt3Step query_pt W [c] st r) :
    Pt3Step query_pt W (c :: rest) st r :=
  pt3Step_trans h (Or.inl ⟨rfl, rfl⟩)

/-- The two assignments of the forward loop body, as steps of the two slots. -/
theorem forward_body_step (query_pt : TPoint) (i : Nat) (pt : TPoint) (st : SurfState)
    (hw : GetScanId pt ≤ GetScanId query_pt + kNearbyScanNum) :
    Pt2Step query_pt [(i, pt)] st (updPt3Fwd query_pt i pt (updPt2 query_pt i pt st)) ∧
    Pt3Step query_pt
      (fun s => GetScanId query_pt < s ∧ s ≤ GetScanId query_pt + kNearbyScanNum)
      [(i, pt)] st (updPt3Fwd query_pt i pt (updPt2 query_pt i pt st)) := by
  unfold updPt3Fwd updPt2 Pt2Step Pt3Step
  split_ifs with h1 h2 h2
  · exact absurd h1.1 (ne_of_gt h2.1)
  · exact ⟨Or.inr ⟨(i, pt), List.mem_singleton.mpr rfl, h1.1, rfl, rfl, h1.2⟩, Or.inl ⟨rfl, rfl⟩⟩
  · exact ⟨Or.inl ⟨rfl, rfl⟩,
      Or.inr ⟨(i, pt), List.mem_singleton.mpr rfl, ⟨h2.1, hw⟩, rfl, rfl, h2.2⟩⟩
  · exact ⟨Or.inl ⟨rfl, rfl⟩, Or.inl ⟨rfl, rfl⟩⟩

/-- The two assignments of the backward loop body: the `pt2` slot is never written. -/
theorem backward_body_step (query_pt : TPoint) (i : Nat) (pt : TPoint) (st : SurfState)
    (h1 : GetScanId pt < GetScanId query_pt)
    (hw : GetScanId query_pt - kNearbyScanNum ≤ GetScanId pt) :
    ((updPt3Bwd query_pt i pt (updPt2 query_pt i pt st)).pt2_idx = st.pt2_idx ∧
      (updPt3Bwd query_pt i pt (updPt2 query_pt i pt st)).min_dist_pt2_squre =
        st.min_dist_pt2_squre) ∧
    Pt3Step query_pt
      (fun s => GetScanId query_pt - kNearbyScanNum ≤ s ∧ s < GetScanId query_pt)
      [(i, pt)] st (updPt3Bwd query_pt i pt (updPt2 query_pt i pt st)) := by
  have e : updPt2 query_pt i pt st = st := by
    unfold updPt2
    rw [if_neg]
    intro h
    exact absurd h.1 (ne_of_lt h1)
  rw [e]
  unfold updPt3Bwd Pt3Step
  split_ifs with h2
  · exact ⟨⟨rfl, rfl⟩, Or.inr ⟨(i, pt), List.mem_singleton.mpr rfl, ⟨hw, h1⟩, rfl, rfl, h2.2⟩⟩
  · exact ⟨⟨rfl, rfl⟩, Or.inl ⟨rfl, rfl⟩⟩

/-- What the forward loop of `AssociateSurfPoints` leaves in the two slots. -/
theorem surfForward_inv (query_pt : TPoint) (L : List (Nat × TPoint)) :
    ∀ st : SurfState,
      Pt2Step query_pt L st (surfForward query_pt L st) ∧
      Pt3Step query_pt
        (fun s => GetScanId query_pt < s ∧ s ≤ GetScanId query_pt + kNearbyScanNum)
        L st (surfForward query_pt L st) := by
  induction L with
  | nil => intro st; exact ⟨Or.inl ⟨rfl, rfl⟩, Or.inl ⟨rfl, rfl⟩⟩
  | cons hd rest ih =>
    intro st
    obtain ⟨i, pt⟩ := hd
    by_cases h1 : GetScanId pt > GetScanId query_pt + kNearbyScanNum
    · have e : surfForward query_pt ((i, pt) :: rest) st = st := by
        simp [surfForward, h1]
      rw [e]
      exact ⟨Or.inl ⟨rfl, rfl⟩, Or.inl ⟨rfl, rfl⟩⟩
    · obtain ⟨s2, s3⟩ := forward_body_step query_pt i pt st (not_lt.mp h1)
      by_cases h2 : (updPt3Fwd query_pt i pt (updPt2 query_pt i pt st)).pt2_idx = -1 ∧
          GetScanId pt > GetScanId query_pt
      · have e : surfForward query_pt ((i, pt) :: rest) st =
            updPt3Fwd query_pt i pt (updPt2 query_pt i pt st) := by
          simp only [surfForward, if_neg h1, if_pos h2]
        rw [e]
        exact ⟨pt2Step_head s2, pt3Step_head s3⟩
      · have e : surfForward query_pt ((i, pt) :: rest) st =
            surfForward query_pt rest (updPt3Fwd query_pt i pt (updPt2 query_pt i pt st)) := by
          simp only [surfForward, if_neg h1, if_neg h2]
        rw [e]
        obtain ⟨r2, r3⟩ := ih (updPt3Fwd query_pt i pt (updPt2 query_pt i pt st))
        exact ⟨pt2Step_trans s2 r2, pt3Step_trans s3 r3⟩

/-- What the backward loop of `AssociateSurfPoints` leaves in the two slots: the `pt2` slot
is the one it started with. -/
theorem surfBackward_inv (query_pt : TPoint) (L : List (Nat × TPoint)) :
    ∀ st : SurfState,
      ((surfBackward query_pt L st).pt2_idx = st.pt2_idx ∧
        (surfBackward query_pt L st).min_dist_pt2_squre = st.min_dist_pt2_squre) ∧
      Pt3Step query_pt
        (fun s => GetScanId query_pt - kNearbyScanNum ≤ s ∧ s < GetScanId query_pt)
        L st (surfBackward query_pt L st) := by
  induction L with
  | nil => intro st; exact ⟨⟨rfl, rfl⟩, Or.inl ⟨rfl, rfl⟩⟩
  | cons hd rest ih =>
    intro st
    obtain ⟨i, pt⟩ := hd
    by_cases h0 : GetScanId pt ≥ GetScanId query_pt
    · have e : surfBackward query_pt ((i, pt) :: rest) st = surfBackward query_pt rest st := by
        simp only [surfBackward, if_pos h0]
      rw [e]
      exact ⟨(ih st).1, pt3Step_tail (ih st).2⟩
    · by_cases h1 : GetScanId pt < GetScanId query_pt - kNearbyScanNum
      · have e : surfBackward query_pt ((i, pt) :: rest) st = st := by
          simp only [surfBackward, if_neg h0, if_pos h1]
        rw [e]
        exact ⟨⟨rfl, rfl⟩, Or.inl ⟨rfl, rfl⟩⟩
      · obtain ⟨s2, s3⟩ := backward_body_step query_pt i pt st (not_le.mp h0) (not_lt.mp h1)
        by_cases h2 : (updPt3Bwd query_pt i pt (updPt2 query_pt i pt st)).pt2_idx = -1 ∧
            GetScanId pt < GetScanId query_pt
        · have e : surfBackward query_pt ((i, pt) :: rest) st =
              updPt3Bwd query_pt i pt (updPt2 query_pt i pt st) := by
            simp only [surfBackward, if_neg h0, if_neg h1, if_pos h2]
          rw [e]
          exact ⟨s2, pt3Step_head s3⟩
        · have e : surfBackward query_pt ((i, pt) :: rest) st =
              surfBackward query_pt rest (updPt3Bwd query_pt i pt (updPt2 query_pt i pt st)) := by
            simp only [surfBackward, if_neg h0, if_neg h1, if_neg h2]
          rw [e]
          obtain ⟨r2, r3⟩ := ih (updPt3Bwd query_pt i pt (updPt2 query_pt i pt st))
          exact ⟨⟨r2.1.trans s2.1, r2.2.trans s2.2⟩, pt3Step_trans s3 r3⟩


/-- The state after both loops of `AssociateSurfPoints`: each slot is either empty or holds the
index of a target point closer than `dist_thresh * dist_thresh`; a `pt2` sits after the
nearest neighbour on the query's scan line, a `pt3` is a window candidate. -/
theorem surfScan_inv (tgt : List TPoint) (dist_thresh : ℚ) (query_pt : TPoint) (n : Nat) :
    ((surfScan tgt dist_thresh query_pt n).pt2_idx = -1 ∨
      ∃ (k : Nat) (pt : TPoint), tgt[k]? = some pt ∧ n < k ∧
        GetScanId pt = GetScanId query_pt ∧
        (surfScan tgt dist_thresh query_pt n).pt2_idx = (k : Int) ∧
        (surfScan tgt dist_thresh query_pt n).min_dist_pt2_squre = DistanceSqure query_pt pt ∧
        DistanceSqure query_pt pt < dist_thresh * dist_thresh) ∧
    ((surfScan tgt dist_thresh query_pt n).pt3_idx = -1 ∨
      ∃ (k : Nat) (pt : TPoint), tgt[k]? = some pt ∧ WindowCandidate query_pt n k pt ∧
        (surfScan tgt dist_thresh query_pt n).pt3_idx = (k : Int) ∧
        (surfScan tgt dist_thresh query_pt n).min_dist_pt3_squre = DistanceSqure query_pt pt ∧
        DistanceSqure query_pt pt < dist_thresh * dist_thresh) := by
  obtain ⟨f2, f3⟩ := surfForward_inv query_pt (forwardRange tgt n)
    ⟨-1, -1, dist_thresh * dist_thresh, dist_thresh * dist_thresh⟩
  obtain ⟨b2, b3⟩ := surfBackward_inv query_pt (backwardRange tgt n)
    (surfForward query_pt (forwardRange tgt n)
      ⟨-1, -1, dist_thresh * dist_thresh, dist_thresh * dist_thresh⟩)
  unfold surfScan
  constructor
  · rw [b2.1, b2.2]
    rcases f2 with ⟨a, _⟩ | ⟨c, hc, h3, h4, h5, h6⟩
    · exact Or.inl a
    · obtain ⟨j, pt⟩ := c
      obtain ⟨hj1, hj2⟩ := (mem_forwardRange tgt n j pt).mp hc
      exact Or.inr ⟨j, pt, hj2, hj1, h3, h4, h5, h6⟩
  · have hle : (surfForward query_pt (forwardRange tgt n)
        ⟨-1, -1, dist_thresh * dist_thresh, dist_thresh * dist_thresh⟩).min_dist_pt3_squre ≤
        dist_thresh * dist_thresh := by
      rcases f3 with ⟨_, b⟩ | ⟨c, _, _, _, h5, h6⟩
      · exact le_of_eq b
      · rw [h5]; exact le_of_lt h6
    rcases b3 with ⟨a, b⟩ | ⟨c, hc, h3, h4, h5, h6⟩
    · rw [a, b]
      rcases f3 with ⟨a, _⟩ | ⟨c, hc, h3, h4, h5, h6⟩
      · exact Or.inl a
      · obtain ⟨j, pt⟩ := c
        obtain ⟨hj1, hj2⟩ := (mem_forwardRange tgt n j pt).mp hc
        exact Or.inr ⟨j, pt, hj2, Or.inl ⟨hj1, h3.1, h3.2⟩, h4, h5, h6⟩
    · obtain ⟨j, pt⟩ := c
      obtain ⟨hj1, hj2⟩ := (mem_backwardRange tgt n j pt).mp hc
      exact Or.inr ⟨j, pt, hj2, Or.inr ⟨hj1, h3.1, h3.2⟩, h4, h5, lt_of_lt_of_le h6 hle⟩

/-- What an emitted plane correspondence consists of. -/
theorem surfWindow_some (tgt : List TPoint) (dist_thresh : ℚ) (query_pt : TPoint)
    (indices : List Nat) (p : PointPlanePair)
    (h : surfWindow tgt dist_thresh query_pt indices = .ok (some p)) :
    ∃ n k2 k3 : Nat, indices[0]? = some n ∧ p.pt = query_pt ∧ tgt[n]? = some p.plane.pt1 ∧
      tgt[k2]? = some p.plane.pt2 ∧ tgt[k3]? = some p.plane.pt3 ∧
      (surfScan tgt dist_thresh query_pt n).pt2_idx = (k2 : Int) ∧
      (surfScan tgt dist_thresh query_pt n).pt3_idx = (k3 : Int) ∧
      n < k2 ∧ GetScanId p.plane.pt2 = GetScanId query_pt ∧
      DistanceSqure query_pt p.plane.pt2 < dist_thresh * dist_thresh ∧
      WindowCandidate query_pt n k3 p.plane.pt3 ∧
      DistanceSqure query_pt p.plane.pt3 < dist_thresh * dist_thresh := by
  unfold surfWindow at h
  cases h0 : vecAt indices 0 with
  | error e => simp [h0, bind, Except.bind] at h
  | ok n =>
    cases h1 : vecAt tgt n with
    | error e => simp [h0, h1, bind, Except.bind] at h
    | ok pt1 =>
      simp only [h0, h1, bind, Except.bind] at h
      obtain ⟨i2, i3⟩ := surfScan_inv tgt dist_thresh query_pt n
      rcases i2 with i2 | ⟨k2, pt2, hk2, hn2, hid2, hi2, _, hd2⟩
      · rw [i2] at h
        simp [pure, Except.pure] at h
      · rcases i3 with i3 | ⟨k3, pt3, hk3, hw3, hi3, _, hd3⟩
        · rw [i3] at h
          simp [pure, Except.pure] at h
        · rw [hi2, hi3] at h
          have e2 : vecAt tgt k2 = .ok pt2 := (vecAt_eq_ok tgt k2 pt2).mpr hk2
          have e3 : vecAt tgt k3 = .ok pt3 := (vecAt_eq_ok tgt k3 pt3).mpr hk3
          simp only [ge_iff_le, Int.natCast_nonneg, and_self, if_true, Int.toNat_ofNat, e2, e3,
            pure, Except.pure, Except.ok.injEq, Option.some.injEq] at h
          subst h
          exact ⟨n, k2, k3, (vecAt_eq_ok _ _ _).mp h0, rfl, (vecAt_eq_ok _ _ _).mp h1, hk2, hk3,
            hi2, hi3, hn2, hid2, hd2, hw3, hd3⟩

/-- An emitted line correspondence passed the threshold test and came out of the windowed
search. -/
theorem cornBody_some (search : KdTree) (tgt : List TPoint) (dist_thresh : ℚ)
    (query_pt : TPoint) (p : PointLinePair)
    (h : cornBody search tgt dist_thresh query_pt = .ok (some p)) :
    ∃ d, (search tgt query_pt).dists[0]? = some d ∧ d < dist_thresh ∧
      cornWindow tgt dist_thresh query_pt (search tgt query_pt).indices = .ok (some p) := by
  unfold cornBody at h
  cases h0 : vecAt (search tgt query_pt).dists 0 with
  | error e => simp [h0, bind, Except.bind] at h
  | ok d =>
    simp only [h0, bind, Except.bind] at h
    by_cases hd : d ≥ dist_thresh
    · simp [hd, pure, Except.pure] at h
    · rw [if_neg hd] at h
      exact ⟨d, (vecAt_eq_ok _ _ _).mp h0, not_le.mp hd, h⟩

/-- An emitted plane correspondence passed the threshold test and came out of the windowed
search. -/
theorem surfBody_some (search : KdTree) (tgt : List TPoint) (dist_thresh : ℚ)
    (query_pt : TPoint) (p : PointPlanePair)
    (h : surfBody search tgt dist_thresh query_pt = .ok (some p)) :
    ∃ d, (search tgt query_pt).dists[0]? = some d ∧ d < dist_thresh ∧
      surfWindow tgt dist_thresh query_pt (search tgt query_pt).indices = .ok (some p) := by
  unfold surfBody at h
  cases h0 : vecAt (search tgt query_pt).dists 0 with
  | error e => simp [h0, bind, Except.bind] at h
  | ok d =>
    simp only [h0, bind, Except.bind] at h
    by_cases hd : d ≥ dist_thresh
    · simp [hd, pure, Except.pure] at h
    · rw [if_neg hd] at h
      exact ⟨d, (vecAt_eq_ok _ _ _).mp h0, not_le.mp hd, h⟩

/-- The loop bodies after the threshold test, given the distance the index reported. -/
theorem body_of_dist (search : KdTree) (tgt : List TPoint) (dist_thresh d : ℚ)
    (query_pt : TPoint) (hd : (search tgt query_pt).dists[0]? = some d) :
    (dist_thresh ≤ d → cornBody search tgt dist_thresh query_pt = .ok none ∧
      surfBody search tgt dist_thresh query_pt = .ok none) ∧
    (d < dist_thresh →
      cornBody search tgt dist_thresh query_pt =
        cornWindow tgt dist_thresh query_pt (search tgt query_pt).indices ∧
      surfBody search tgt dist_thresh query_pt =
        surfWindow tgt dist_thresh query_pt (search tgt query_pt).indices) := by
  have h0 : vecAt (search tgt query_pt).dists 0 = .ok d := (vecAt_eq_ok _ _ _).mpr hd
  constructor
  · intro h
    simp [cornBody, surfBody, h0, bind, Except.bind, h, pure, Except.pure]
  · intro h
    simp [cornBody, surfBody, h0, bind, Except.bind, not_le.mpr h]



/-! ## The reference nearest-neighbour index -/

theorem nearestScan_some (query_pt : TPoint) (L : List (Nat × TPoint)) :
    ∀ (j : Nat) (e : ℚ), ∃ i d, nearestScan query_pt L (some (j, e)) = some (i, d) ∧
      ((i, d) = (j, e) ∨ ∃ pt, (i, pt) ∈ L ∧ d = DistanceSqure query_pt pt) ∧
      (∀ c ∈ L, d ≤ DistanceSqure query_pt c.2) ∧ d ≤ e := by
  induction L with
  | nil => intro j e; exact ⟨j, e, rfl, Or.inl rfl, by simp, le_refl _⟩
  | cons hd rest ih =>
    intro j e
    obtain ⟨k, pt⟩ := hd
    by_cases h : DistanceSqure query_pt pt < e
    · obtain ⟨i, d, h1, h2, h3, h4⟩ := ih k (DistanceSqure query_pt pt)
      refine ⟨i, d, by simp [nearestScan, h, h1], Or.inr ?_, ?_, le_trans h4 (le_of_lt h)⟩
      · rcases h2 with h2 | ⟨pt2, hm, hd⟩
        · cases h2
          exact ⟨pt, List.mem_cons_self _ _, rfl⟩
        · exact ⟨pt2, List.mem_cons_of_mem _ hm, hd⟩
      · intro c hc
        rcases List.mem_cons.mp hc with rfl | hm
        · exact h4
        · exact h3 c hm
    · obtain ⟨i, d, h1, h2, h3, h4⟩ := ih j e
      refine ⟨i, d, by simp [nearestScan, h, h1], ?_, ?_, h4⟩
      · rcases h2 with h2 | ⟨pt2, hm, hd⟩
        · exact Or.inl h2
        · exact Or.inr ⟨pt2, List.mem_cons_of_mem _ hm, hd⟩
      · intro c hc
        rcases List.mem_cons.mp hc with rfl | hm
        · exact le_trans h4 (not_lt.mp h)
        · exact h3 c hm

/-- The linear-scan index satisfies the contract of a k = 1 nearest-neighbour index. -/
theorem nearestKSearch_contract : KdContract nearestKSearch := by
  intro tgt query_pt
  constructor
  · rintro rfl
    rfl
  · intro hne
    cases htgt : tgt with
    | nil => exact absurd htgt hne
    | cons a rest =>
      have he : (a :: rest).enum = (0, a) :: List.enumFrom 1 rest := rfl
      obtain ⟨i, d, h1, h2, h3, h4⟩ := nearestScan_some query_pt (List.enumFrom 1 rest) 0
        (DistanceSqure query_pt a)
      have hr : nearestKSearch (a :: rest) query_pt = ⟨[i], [d]⟩ := by
        simp [nearestKSearch, he, nearestScan, h1]
      have hall : ∀ pt ∈ a :: rest, d ≤ DistanceSqure query_pt pt := by
        intro pt hpt
        rcases List.mem_cons.mp hpt with rfl | hm
        · exact h4
        · obtain ⟨m, hm2⟩ := List.mem_iff_getElem?.mp hm
          have : (m + 1, pt) ∈ (a :: rest).enum := by
            rw [List.mk_mem_enum_iff_getElem?]
            simpa using hm2
          rw [he] at this
          rcases List.mem_cons.mp this with h | h
          · simp at h
          · exact h3 (m + 1, pt) h
      rcases h2 with h2 | ⟨pt, hm, hd⟩
      · cases h2
        exact ⟨0, a, by simp, hr, hall⟩
      · have hm2 : (i, pt) ∈ (a :: rest).enum := by
          rw [he]; exact List.mem_cons_of_mem _ hm
        rw [List.mk_mem_enum_iff_getElem?] at hm2
        subst hd
        exact ⟨i, pt, hm2, hr, hall⟩



/-! ## Claims on the correspondence search -/

/-- C1: in `AssociateCornPoints` and in `AssociateSurfPoints`, for a nearest-neighbour index
that meets its contract, a non-empty target and any threshold (25 as passed by `Process`): if
the squared distance to the nearest neighbour is at least the threshold (every target point is
at least that far), the loop body emits nothing for the query and no correspondence with that
query point is appended; if it is strictly below the threshold (some target point is closer),
the body is the windowed search started at the index the search returned. -/
theorem nearest_neighbour_threshold (search : KdTree) (hs : KdContract search)
    (tgt : List TPoint) (hne : tgt ≠ []) (dist_thresh : ℚ) (query_pt : TPoint) :
    ((∀ pt ∈ tgt, dist_thresh ≤ DistanceSqure query_pt pt) →
      cornBody search tgt dist_thresh query_pt = .ok none ∧
      surfBody search tgt dist_thresh query_pt = .ok none ∧
      (∀ src pairs out, AssociateCornPoints search src tgt pairs dist_thresh = .ok out →
        ∃ new, out = pairs ++ new ∧ ∀ p ∈ new, p.pt ≠ query_pt) ∧
      (∀ src pairs out, AssociateSurfPoints search src tgt pairs dist_thresh = .ok out →
        ∃ new, out = pairs ++ new ∧ ∀ p ∈ new, p.pt ≠ query_pt)) ∧
    ((∃ pt ∈ tgt, DistanceSqure query_pt pt < dist_thresh) →
      cornBody search tgt dist_thresh query_pt =
        cornWindow tgt dist_thresh query_pt (search tgt query_pt).indices ∧
      surfBody search tgt dist_thresh query_pt =
        surfWindow tgt dist_thresh query_pt (search tgt query_pt).indices) := by
  obtain ⟨i, pt1, h1, h2, h3⟩ := (hs tgt query_pt).2 hne
  have hd : (search tgt query_pt).dists[0]? = some (DistanceSqure query_pt pt1) := by
    rw [h2]; rfl
  have hmem : pt1 ∈ tgt := List.getElem?_mem h1
  obtain ⟨hrej, hacc⟩ := body_of_dist search tgt dist_thresh _ query_pt hd
  constructor
  · intro hall
    obtain ⟨hc, hsf⟩ := hrej (hall pt1 hmem)
    refine ⟨hc, hsf, ?_, ?_⟩
    · intro src pairs out ho
      obtain ⟨new, hn1, hn2⟩ := forEachQuery_new _ src pairs out ho
      refine ⟨new, hn1, ?_⟩
      intro p hp heq
      obtain ⟨q, _, hq⟩ := hn2 p hp
      obtain ⟨d, _, _, hw⟩ := cornBody_some search tgt dist_thresh q p hq
      obtain ⟨n, k, _, hpt, _⟩ := cornWindow_some tgt dist_thresh q _ p hw
      rw [← hpt, heq, hc] at hq
      simp at hq
    · intro src pairs out ho
      obtain ⟨new, hn1, hn2⟩ := forEachQuery_new _ src pairs out ho
      refine ⟨new, hn1, ?_⟩
      intro p hp heq
      obtain ⟨q, _, hq⟩ := hn2 p hp
      obtain ⟨d, _, _, hw⟩ := surfBody_some search tgt dist_thresh q p hq
      obtain ⟨n, k2, k3, _, hpt, _⟩ := surfWindow_some tgt dist_thresh q _ p hw
      rw [← hpt, heq, hsf] at hq
      simp at hq
  · rintro ⟨pt, hpt, hlt⟩
    exact hacc (lt_of_le_of_lt (h3 pt hpt) hlt)

/-- C1 at the boundary: a query whose only target point is at squared distance exactly 25 is
rejected by both functions, one whose target point is at squared distance 16 goes on to the
windowed search. -/
theorem nearest_neighbour_threshold_witness :
    DistanceSqure ⟨0, 0, 0, 0⟩ ⟨5, 0, 0, 0⟩ = kDistSquareThresh ∧
    (cornBody nearestKSearch [⟨5, 0, 0, 0⟩] kDistSquareThresh ⟨0, 0, 0, 0⟩ = .ok none ∧
      surfBody nearestKSearch [⟨5, 0, 0, 0⟩] kDistSquareThresh ⟨0, 0, 0, 0⟩ = .ok none) ∧
    (cornBody nearestKSearch [⟨4, 0, 0, 0⟩] kDistSquareThresh ⟨0, 0, 0, 0⟩ =
        cornWindow [⟨4, 0, 0, 0⟩] kDistSquareThresh ⟨0, 0, 0, 0⟩
          (nearestKSearch [⟨4, 0, 0, 0⟩] ⟨0, 0, 0, 0⟩).indices ∧
      surfBody nearestKSearch [⟨4, 0, 0, 0⟩] kDistSquareThresh ⟨0, 0, 0, 0⟩ =
        surfWindow [⟨4, 0, 0, 0⟩] kDistSquareThresh ⟨0, 0, 0, 0⟩
          (nearestKSearch [⟨4, 0, 0, 0⟩] ⟨0, 0, 0, 0⟩).indices) :=
  ⟨by decide!,
    ⟨((nearest_neighbour_threshold nearestKSearch nearestKSearch_contract [⟨5, 0, 0, 0⟩]
        (by simp) kDistSquareThresh ⟨0, 0, 0, 0⟩).1 (by decide!)).1,
     ((nearest_neighbour_threshold nearestKSearch nearestKSearch_contract [⟨5, 0, 0, 0⟩]
        (by simp) kDistSquareThresh ⟨0, 0, 0, 0⟩).1 (by decide!)).2.1⟩,
    (nearest_neighbour_threshold nearestKSearch nearestKSearch_contract [⟨4, 0, 0, 0⟩]
        (by simp) kDistSquareThresh ⟨0, 0, 0, 0⟩).2 (by decide!)⟩

/-- C2 (as stated, refuted): on the sorted target `[(1,0,0) id 0, (2,0,0) id 0, (3,0,0) id 2]`
and the query `(0,0,0)` with id 1 the emitted `pt2` is `(3,0,0)` at squared distance 9, while
`(2,0,0)`, on scan line 0 inside the window and not the nearest neighbour, is at squared
distance 4: the forward scan skips points whose id is not above the query's. The refuted
statement even leaves the nearest neighbour `pt1` out of the comparison. -/
theorem corner_pt2_not_closest_in_window :
    ¬ (∀ (tgt : List TPoint) (query_pt : TPoint) (p : PointLinePair), ScanSorted tgt →
        AssociateCornPoints nearestKSearch [query_pt] tgt [] kDistSquareThresh = .ok [p] →
        ∀ pt ∈ tgt, pt ≠ p.line.pt1 → GetScanId pt ≠ GetScanId query_pt →
          GetScanId query_pt - kNearbyScanNum ≤ GetScanId pt →
          GetScanId pt ≤ GetScanId query_pt + kNearbyScanNum →
          DistanceSqure query_pt p.line.pt2 ≤ DistanceSqure query_pt pt) := by
  intro h
  have h2 := h [⟨1, 0, 0, 0⟩, ⟨2, 0, 0, 0⟩, ⟨3, 0, 0, 2⟩] ⟨0, 0, 0, 1⟩
    ⟨⟨0, 0, 0, 1⟩, ⟨⟨1, 0, 0, 0⟩, ⟨3, 0, 0, 2⟩⟩⟩ (by decide!) (by decide!)
    ⟨2, 0, 0, 0⟩ (by decide!) (by decide!) (by decide!) (by decide!) (by decide!)
  revert h2
  decide!

/-- C2 (amended): for every target sequence ordered by non-decreasing scan-line id and every
line correspondence appended by `AssociateCornPoints`, with `n` the index of the nearest
neighbour `pt1`: `pt2` is a window candidate (a target point after index `n` with scan-line id
in `q+1 .. q+2`, or before index `n` with id in `q-2 .. q-1`, `q` the query's id) and no window
candidate is strictly closer to the query than `pt2`. -/
theorem corner_pt2_closest_candidate (search : KdTree) (src tgt : List TPoint)
    (hsorted : ScanSorted tgt) (pairs out : List PointLinePair) (dist_thresh : ℚ)
    (h : AssociateCornPoints search src tgt pairs dist_thresh = .ok out) :
    ∃ new, out = pairs ++ new ∧ ∀ p ∈ new, ∃ n k : Nat,
      (search tgt p.pt).indices[0]? = some n ∧ tgt[n]? = some p.line.pt1 ∧
      tgt[k]? = some p.line.pt2 ∧ WindowCandidate p.pt n k p.line.pt2 ∧
      ∀ j pt, tgt[j]? = some pt → WindowCandidate p.pt n j pt →
        DistanceSqure p.pt p.line.pt2 ≤ DistanceSqure p.pt pt := by
  obtain ⟨new, hn1, hn2⟩ := forEachQuery_new _ src pairs out h
  refine ⟨new, hn1, ?_⟩
  intro p hp
  obtain ⟨q, _, hq⟩ := hn2 p hp
  obtain ⟨d, _, _, hw⟩ := cornBody_some search tgt dist_thresh q p hq
  obtain ⟨n, k, hi, hpt, ht1, ht2, hsc, hcand, _⟩ := cornWindow_some tgt dist_thresh q _ p hw
  subst hpt
  refine ⟨n, k, hi, ht1, ht2, hcand, ?_⟩
  intro j pt hj hc
  have := (cornScan_inv tgt dist_thresh p.pt n).2 hsorted j pt hj hc
  rw [hsc] at this
  exact this

/-- The amended C2 on the target of the counterexample: the emitted `pt2` is `(3,0,0)`. -/
theorem corner_pt2_closest_candidate_witness :
    ScanSorted [⟨1, 0, 0, 0⟩, ⟨2, 0, 0, 0⟩, ⟨3, 0, 0, 2⟩] ∧
    AssociateCornPoints nearestKSearch [⟨0, 0, 0, 1⟩]
      [⟨1, 0, 0, 0⟩, ⟨2, 0, 0, 0⟩, ⟨3, 0, 0, 2⟩] [] kDistSquareThresh =
        .ok [⟨⟨0, 0, 0, 1⟩, ⟨⟨1, 0, 0, 0⟩, ⟨3, 0, 0, 2⟩⟩⟩] ∧
    ∃ new, [(⟨⟨0, 0, 0, 1⟩, ⟨⟨1, 0, 0, 0⟩, ⟨3, 0, 0, 2⟩⟩⟩ : PointLinePair)] = [] ++ new ∧
      ∀ p ∈ new, ∃ n k : Nat,
        (nearestKSearch [⟨1, 0, 0, 0⟩, ⟨2, 0, 0, 0⟩, ⟨3, 0, 0, 2⟩] p.pt).indices[0]? = some n ∧
        [(⟨1, 0, 0, 0⟩ : TPoint), ⟨2, 0, 0, 0⟩, ⟨3, 0, 0, 2⟩][n]? = some p.line.pt1 ∧
        [(⟨1, 0, 0, 0⟩ : TPoint), ⟨2, 0, 0, 0⟩, ⟨3, 0, 0, 2⟩][k]? = some p.line.pt2 ∧
        WindowCandidate p.pt n k p.line.pt2 ∧
        ∀ j pt, [(⟨1, 0, 0, 0⟩ : TPoint), ⟨2, 0, 0, 0⟩, ⟨3, 0, 0, 2⟩][j]? = some pt →
          WindowCandidate p.pt n j pt →
          DistanceSqure p.pt p.line.pt2 ≤ DistanceSqure p.pt pt :=
  ⟨by decide!, by decide!,
    corner_pt2_closest_candidate nearestKSearch [⟨0, 0, 0, 1⟩]
      [⟨1, 0, 0, 0⟩, ⟨2, 0, 0, 0⟩, ⟨3, 0, 0, 2⟩] (by decide!) [] _ kDistSquareThresh
      (by decide!)⟩

/-- C3 (as stated, refuted): on the target `[(1,0,0) id 0, (2,0,0) id 1, (3,0,0) id 2]` and
the query `(0,0,0)` with id 1 the emitted plane has `pt1 = (1,0,0)` on scan line 0 and
`pt2 = (2,0,0)` on scan line 1. -/
theorem plane_pt2_not_on_neighbour_line :
    ¬ (∀ (tgt : List TPoint) (query_pt : TPoint) (p : PointPlanePair),
        AssociateSurfPoints nearestKSearch [query_pt] tgt [] kDistSquareThresh = .ok [p] →
        GetScanId p.plane.pt2 = GetScanId p.plane.pt1) := by
  intro h
  have h2 := h [⟨1, 0, 0, 0⟩, ⟨2, 0, 0, 1⟩, ⟨3, 0, 0, 2⟩] ⟨0, 0, 0, 1⟩
    ⟨⟨0, 0, 0, 1⟩, ⟨⟨1, 0, 0, 0⟩, ⟨2, 0, 0, 1⟩, ⟨3, 0, 0, 2⟩⟩⟩ (by decide!)
  revert h2
  decide!

/-- C3 (amended): for every plane correspondence appended by `AssociateSurfPoints`, the second
reference point `pt2` has the same scan-line id as the query point
(`GetScanId(pt2) = GetScanId(query_pt)`). -/
theorem plane_pt2_on_query_line (search : KdTree) (src tgt : List TPoint)
    (pairs out : List PointPlanePair) (dist_thresh : ℚ)
    (h : AssociateSurfPoints search src tgt pairs dist_thresh = .ok out) :
    ∃ new, out = pairs ++ new ∧ ∀ p ∈ new, GetScanId p.plane.pt2 = GetScanId p.pt := by
  obtain ⟨new, hn1, hn2⟩ := forEachQuery_new _ src pairs out h
  refine ⟨new, hn1, ?_⟩
  intro p hp
  obtain ⟨q, _, hq⟩ := hn2 p hp
  obtain ⟨d, _, _, hw⟩ := surfBody_some search tgt dist_thresh q p hq
  obtain ⟨n, k2, k3, _, hpt, _, _, _, _, _, _, hid, _⟩ :=
    surfWindow_some tgt dist_thresh q _ p hw
  rw [hpt]
  exact hid

/-- The amended C3 on the target of the counterexample. -/
theorem plane_pt2_on_query_line_witness :
    AssociateSurfPoints nearestKSearch [⟨0, 0, 0, 1⟩]
      [⟨1, 0, 0, 0⟩, ⟨2, 0, 0, 1⟩, ⟨3, 0, 0, 2⟩] [] kDistSquareThresh =
        .ok [⟨⟨0, 0, 0, 1⟩, ⟨⟨1, 0, 0, 0⟩, ⟨2, 0, 0, 1⟩, ⟨3, 0, 0, 2⟩⟩⟩] ∧
    ∃ new, [(⟨⟨0, 0, 0, 1⟩, ⟨⟨1, 0, 0, 0⟩, ⟨2, 0, 0, 1⟩, ⟨3, 0, 0, 2⟩⟩⟩ : PointPlanePair)] =
        [] ++ new ∧ ∀ p ∈ new, GetScanId p.plane.pt2 = GetScanId p.pt :=
  ⟨by decide!,
    plane_pt2_on_query_line nearestKSearch [⟨0, 0, 0, 1⟩]
      [⟨1, 0, 0, 0⟩, ⟨2, 0, 0, 1⟩, ⟨3, 0, 0, 2⟩] [] _ kDistSquareThresh (by decide!)⟩



/-! ## The early exit of the plane search -/

/-- Forward loop: once a point above the query's scan line has been visited while the `pt2`
slot is empty, the loop is over and the points behind it are not looked at. -/
theorem surfForward_stop (query_pt : TPoint) (c : Nat × TPoint) (L2 : List (Nat × TPoint))
    (hc : GetScanId query_pt < GetScanId c.2) (L1 : List (Nat × TPoint)) :
    ∀ st : SurfState, (surfForward query_pt (L1 ++ [c]) st).pt2_idx = -1 →
      surfForward query_pt (L1 ++ c :: L2) st = surfForward query_pt (L1 ++ [c]) st := by
  induction L1 with
  | nil =>
    intro st h
    obtain ⟨i, pt⟩ := c
    simp only [List.nil_append, surfForward] at h ⊢
    split_ifs at h ⊢ with h1 h2
    · rfl
    · rfl
    · exact absurd ⟨h, hc⟩ h2
  | cons a rest ih =>
    intro st h
    obtain ⟨i, pt⟩ := a
    simp only [List.cons_append, surfForward] at h ⊢
    split_ifs at h ⊢ with h1 h2
    · rfl
    · rfl
    · exact ih _ h

/-- Backward loop: once a point below the query's scan line has been visited while the `pt2`
slot is empty, the loop is over and the points behind it are not looked at. -/
theorem surfBackward_stop (query_pt : TPoint) (c : Nat × TPoint) (L2 : List (Nat × TPoint))
    (hc : GetScanId c.2 < GetScanId query_pt) (L1 : List (Nat × TPoint)) :
    ∀ st : SurfState, st.pt2_idx = -1 →
      surfBackward query_pt (L1 ++ c :: L2) st = surfBackward query_pt (L1 ++ [c]) st := by
  induction L1 with
  | nil =>
    intro st h
    obtain ⟨i, pt⟩ := c
    have hp : (updPt3Bwd query_pt i pt (updPt2 query_pt i pt st)).pt2_idx = -1 := by
      by_cases hw : GetScanId query_pt - kNearbyScanNum ≤ GetScanId pt
      · rw [(backward_body_step query_pt i pt st hc hw).1.1]; exact h
      · unfold updPt3Bwd updPt2
        split_ifs <;> simp_all
    simp only [List.nil_append, surfBackward]
    split_ifs with h0 h1 h2
    · exact absurd h0 (not_le.mpr hc)
    · rfl
    · rfl
    · exact absurd ⟨hp, hc⟩ h2
  | cons a rest ih =>
    intro st h
    obtain ⟨i, pt⟩ := a
    simp only [List.cons_append, surfBackward]
    split_ifs with h0 h1 h2
    · exact ih st h
    · rfl
    · rfl
    · have hlt : GetScanId pt < GetScanId query_pt := not_le.mp h0
      have hp := (backward_body_step query_pt i pt st hlt (not_lt.mp h1)).1.1
      exact absurd ⟨hp.trans h, hlt⟩ h2

/-- C4 (as stated, refuted): on the target `[(2,0,0) id 0, (3,0,0) id 0, (1,0,0) id 1,
(0,2,0) id 1]`, the query `(0,0,0)` with id 1 and the nearest neighbour at index 2, the
backward scan visits index 1 (id 0, below the query's) and has found no `pt2` in the backward
direction, the `pt2` being at index 3; it nevertheless goes on to index 0, which becomes
`pt3`. -/
theorem backward_scan_continues_past_lower_line :
    ¬ (∀ (tgt : List TPoint) (query_pt : TPoint) (n : Nat) (L1 L2 : List (Nat × TPoint))
        (c : Nat × TPoint), backwardRange tgt n = L1 ++ c :: L2 →
        GetScanId c.2 < GetScanId query_pt →
        (∀ j : Nat, j < n → (surfScan tgt kDistSquareThresh query_pt n).pt2_idx ≠ (j : Int)) →
        surfScan tgt kDistSquareThresh query_pt n =
          surfBackward query_pt (L1 ++ [c])
            (surfForward query_pt (forwardRange tgt n)
              ⟨-1, -1, kDistSquareThresh * kDistSquareThresh,
                kDistSquareThresh * kDistSquareThresh⟩)) := by
  intro h
  have h2 := h [⟨2, 0, 0, 0⟩, ⟨3, 0, 0, 0⟩, ⟨1, 0, 0, 1⟩, ⟨0, 2, 0, 1⟩] ⟨0, 0, 0, 1⟩ 2
    [] [(0, ⟨2, 0, 0, 0⟩)] (1, ⟨3, 0, 0, 0⟩) (by decide!) (by decide!)
    (by
      intro j hj
      have e : (surfScan [⟨2, 0, 0, 0⟩, ⟨3, 0, 0, 0⟩, ⟨1, 0, 0, 1⟩, ⟨0, 2, 0, 1⟩]
          kDistSquareThresh ⟨0, 0, 0, 1⟩ 2).pt2_idx = 3 := by decide!
      rw [e]
      omega)
  revert h2
  decide!

/-- C4 (amended): the early exit of `AssociateSurfPoints` tests the one `pt2` slot shared by
both scans. Forward scan: once it has visited a target point whose scan-line id is greater
than the query's and the `pt2` slot is still empty, no further target point is examined.
Backward scan: once it has visited a target point whose scan-line id is smaller than the
query's, no further target point is examined provided the forward scan left the `pt2` slot
empty (the backward scan itself never fills it). -/
theorem surf_early_exit (tgt : List TPoint) (dist_thresh : ℚ) (query_pt : TPoint) (n : Nat)
    (L1 L2 : List (Nat × TPoint)) (c : Nat × TPoint) :
    (forwardRange tgt n = L1 ++ c :: L2 → GetScanId query_pt < GetScanId c.2 →
      (surfForward query_pt (L1 ++ [c])
        ⟨-1, -1, dist_thresh * dist_thresh, dist_thresh * dist_thresh⟩).pt2_idx = -1 →
      surfForward query_pt (forwardRange tgt n)
          ⟨-1, -1, dist_thresh * dist_thresh, dist_thresh * dist_thresh⟩ =
        surfForward query_pt (L1 ++ [c])
          ⟨-1, -1, dist_thresh * dist_thresh, dist_thresh * dist_thresh⟩) ∧
    (backwardRange tgt n = L1 ++ c :: L2 → GetScanId c.2 < GetScanId query_pt →
      (surfForward query_pt (forwardRange tgt n)
        ⟨-1, -1, dist_thresh * dist_thresh, dist_thresh * dist_thresh⟩).pt2_idx = -1 →
      surfScan tgt dist_thresh query_pt n =
        surfBackward query_pt (L1 ++ [c])
          (surfForward query_pt (forwardRange tgt n)
            ⟨-1, -1, dist_thresh * dist_thresh, dist_thresh * dist_thresh⟩)) := by
  constructor
  · intro hr hc hp
    rw [hr]
    exact surfForward_stop query_pt c L2 hc L1 _ hp
  · intro hr hc hp
    unfold surfScan
    rw [hr]
    exact surfBackward_stop query_pt c L2 hc L1 _ hp

/-- The amended C4 on two targets. Forward: `[(1,0,0) id 1, (2,0,0) id 2, (3,0,0) id 1]`, query
id 1, nearest neighbour at index 0: index 1 is above the query's line with `pt2` empty, index 2
is never examined. Backward: `[(2,0,0) id 0, (3,0,0) id 0, (1,0,0) id 1]`, nearest neighbour
at index 2: the scan stops at index 1. -/
theorem surf_early_exit_witness :
    (surfForward ⟨0, 0, 0, 1⟩ (forwardRange [⟨1, 0, 0, 1⟩, ⟨2, 0, 0, 2⟩, ⟨3, 0, 0, 1⟩] 0)
        ⟨-1, -1, kDistSquareThresh * kDistSquareThresh,
          kDistSquareThresh * kDistSquareThresh⟩ =
      surfForward ⟨0, 0, 0, 1⟩ ([] ++ [(1, ⟨2, 0, 0, 2⟩)])
        ⟨-1, -1, kDistSquareThresh * kDistSquareThresh,
          kDistSquareThresh * kDistSquareThresh⟩) ∧
    (surfScan [⟨2, 0, 0, 0⟩, ⟨3, 0, 0, 0⟩, ⟨1, 0, 0, 1⟩] kDistSquareThresh ⟨0, 0, 0, 1⟩ 2 =
      surfBackward ⟨0, 0, 0, 1⟩ ([] ++ [(1, ⟨3, 0, 0, 0⟩)])
        (surfForward ⟨0, 0, 0, 1⟩ (forwardRange [⟨2, 0, 0, 0⟩, ⟨3, 0, 0, 0⟩, ⟨1, 0, 0, 1⟩] 2)
          ⟨-1, -1, kDistSquareThresh * kDistSquareThresh,
            kDistSquareThresh * kDistSquareThresh⟩)) :=
  ⟨(surf_early_exit [⟨1, 0, 0, 1⟩, ⟨2, 0, 0, 2⟩, ⟨3, 0, 0, 1⟩] kDistSquareThresh ⟨0, 0, 0, 1⟩ 0
      [] [(2, ⟨3, 0, 0, 1⟩)] (1, ⟨2, 0, 0, 2⟩)).1 (by decide!) (by decide!) (by decide!),
    (surf_early_exit [⟨2, 0, 0, 0⟩, ⟨3, 0, 0, 0⟩, ⟨1, 0, 0, 1⟩] kDistSquareThresh ⟨0, 0, 0, 1⟩ 2
      [] [(0, ⟨2, 0, 0, 0⟩)] (1, ⟨3, 0, 0, 0⟩)).2 (by decide!) (by decide!) (by decide!)⟩



/-! ## The loop of `Process` -/

/-- One iteration only writes the relative pose, and its record describes it. -/
theorem iterate_spec (search : KdTree) (solve : PoseSolver) (feature : FeaturePoints)
    (st st1 : Odometry) (r : IterRecord)
    (h : iterate search solve feature st = .ok (st1, r)) :
    st1 = { st with pose_curr2last_ := r.pose_out } ∧ r.pose_in = st.pose_curr2last_ ∧
    IterOk search solve feature st.corn_pts_pre_ st.surf_pts_pre_ r := by
  unfold iterate at h
  cases hc : AssociateCornPoints search feature.sharp_corner_pts st.corn_pts_pre_ []
      kDistSquareThresh with
  | error e => simp [hc] at h
  | ok pl =>
    cases hs : AssociateSurfPoints search feature.flat_surf_pts st.surf_pts_pre_ []
        kDistSquareThresh with
    | error e => simp [hc, hs] at h
    | ok pp =>
      simp only [hc, hs, Except.ok.injEq, Prod.mk.injEq] at h
      obtain ⟨h1, h2⟩ := h
      subst h1 h2
      refine ⟨rfl, rfl, rfl, rfl, rfl, rfl, hc, hs, ?_, rfl⟩
      simp

/-- The loop of `Process`: it runs the requested number of iterations, touches nothing but
the relative pose, and every record describes an iteration against the buffers the loop
started with. -/
theorem icpLoop_spec (search : KdTree) (solve : PoseSolver) (feature : FeaturePoints)
    (n : Nat) : ∀ (st st1 : Odometry) (trace : List IterRecord),
      icpLoop search solve feature n st = .ok (st1, trace) →
      trace.length = n ∧
      st1 = { st with pose_curr2last_ := lastPoseOut st.pose_curr2last_ trace } ∧
      PosesLinked st.pose_curr2last_ trace ∧
      ∀ r ∈ trace, IterOk search solve feature st.corn_pts_pre_ st.surf_pts_pre_ r := by
  induction n with
  | zero =>
    intro st st1 trace h
    simp only [icpLoop, Except.ok.injEq, Prod.mk.injEq] at h
    obtain ⟨h1, h2⟩ := h
    subst h1 h2
    exact ⟨rfl, rfl, trivial, by simp⟩
  | succ n ih =>
    intro st st1 trace h
    unfold icpLoop at h
    cases hi : iterate search solve feature st with
    | error e => simp [hi] at h
    | ok v =>
      obtain ⟨sa, r⟩ := v
      cases hl : icpLoop search solve feature n sa with
      | error e => simp [hi, hl] at h
      | ok w =>
        obtain ⟨sb, rs⟩ := w
        simp only [hi, hl, Except.ok.injEq, Prod.mk.injEq] at h
        obtain ⟨h1, h2⟩ := h
        subst h1 h2
        obtain ⟨i1, i2, i3⟩ := iterate_spec search solve feature st sa r hi
        obtain ⟨l1, l2, l3, l4⟩ := ih sa sb rs hl
        subst i1
        refine ⟨by simp [l1], ?_, ⟨i2, l3⟩, ?_⟩
        · rw [l2]; rfl
        · intro r2 hr2
          rcases List.mem_cons.mp hr2 with rfl | hm
          · exact i3
          · exact l4 r2 hm

/-- A `Process` call on an initialised engine that returns: the configuration held the
iteration count, the loop ran, the accumulated pose was composed with the final relative pose
and written out, and the buffers were replaced. -/
theorem process_running_spec (search : KdTree) (solve : PoseSolver) (st : Odometry)
    (feature : FeaturePoints) (r : ProcessResult) (hinit : st.is_initialized = true)
    (h : Process search solve st feature = .ok r) :
    ∃ iter_num : Int, st.config_.asInt icpIterNumKey = some iter_num ∧
      r.trace.length = iter_num.toNat ∧
      PosesLinked st.pose_curr2last_ r.trace ∧
      (∀ rec ∈ r.trace, IterOk search solve feature st.corn_pts_pre_ st.surf_pts_pre_ rec) ∧
      r.state = { st with
        pose_curr2last_ := lastPoseOut st.pose_curr2last_ r.trace,
        pose_curr2world_ :=
          Pose3D.mul st.pose_curr2world_ (lastPoseOut st.pose_curr2last_ r.trace),
        corn_pts_pre_ := feature.less_sharp_corner_pts,
        surf_pts_pre_ := feature.less_flat_surf_pts } ∧
      r.pose = Pose3D.mul st.pose_curr2world_ (lastPoseOut st.pose_curr2last_ r.trace) := by
  unfold Process at h
  simp only [hinit, Bool.not_true, Bool.false_eq_true, if_false] at h
  cases hc : st.config_.asInt icpIterNumKey with
  | none => simp [hc] at h
  | some iter_num =>
    cases hl : icpLoop search solve feature iter_num.toNat st with
    | error e => simp [hc, hl] at h
    | ok w =>
      obtain ⟨sb, rs⟩ := w
      simp only [hc, hl, Except.ok.injEq] at h
      obtain ⟨l1, l2, l3, l4⟩ := icpLoop_spec search solve feature _ st sb rs hl
      subst h
      subst l2
      exact ⟨iter_num, rfl, l1, l3, l4, rfl, rfl⟩

/-- A `Process` call on an engine that is not initialised. -/
theorem process_first_spec (search : KdTree) (solve : PoseSolver) (st : Odometry)
    (feature : FeaturePoints) (hinit : st.is_initialized = false) :
    Process search solve st feature =
      .ok ⟨{ st with is_initialized := true,
                     corn_pts_pre_ := feature.less_sharp_corner_pts,
                     surf_pts_pre_ := feature.less_flat_surf_pts },
        st.pose_curr2world_, []⟩ := by
  unfold Process
  simp [hinit, UpdatePre]

/-- Composing with the identity pose on the right changes nothing. -/
theorem Pose3D.mul_identity (a : Pose3D) : Pose3D.mul a Pose3D.identity = a := by
  obtain ⟨⟨w, x, y, z⟩, ⟨px, py, pz⟩⟩ := a
  simp [Pose3D.mul, Pose3D.identity, Quat.mul, Quat.rotate, Vec3.add, Vec3.smul, Vec3.cross]



/-! ## Returning and faulting -/

/-- One iteration returns as soon as both association calls return, whatever the number of
correspondences. -/
theorem iterate_of_assoc (search : KdTree) (solve : PoseSolver) (feature : FeaturePoints)
    (st : Odometry) (pl : List PointLinePair) (pp : List PointPlanePair)
    (hc : AssociateCornPoints search feature.sharp_corner_pts st.corn_pts_pre_ []
      kDistSquareThresh = .ok pl)
    (hs : AssociateSurfPoints search feature.flat_surf_pts st.surf_pts_pre_ []
      kDistSquareThresh = .ok pp) :
    ∃ st1 rec, iterate search solve feature st = .ok (st1, rec) ∧
      rec.pl_pairs = pl ∧ rec.pp_pairs = pp ∧
      (rec.warned = true ↔ pl.length + pp.length < kMinMatchNum) ∧
      rec.pose_out = solve st.pose_curr2last_ (pl.map fun pair => (pair, GetTime pair.pt))
        (pp.map fun pair => (pair, GetTime pair.pt)) ∧
      st1 = { st with pose_curr2last_ := rec.pose_out } := by
  unfold iterate
  simp only [hc, hs]
  exact ⟨_, _, rfl, rfl, rfl, by simp, rfl, rfl⟩

/-- The loop returns for every iteration count as soon as both association calls return on
the buffers it starts with. -/
theorem icpLoop_of_assoc (search : KdTree) (solve : PoseSolver) (feature : FeaturePoints)
    (corn_pre surf_pre : List TPoint) (pl : List PointLinePair) (pp : List PointPlanePair)
    (hc : AssociateCornPoints search feature.sharp_corner_pts corn_pre []
      kDistSquareThresh = .ok pl)
    (hs : AssociateSurfPoints search feature.flat_surf_pts surf_pre []
      kDistSquareThresh = .ok pp) (n : Nat) :
    ∀ st : Odometry, st.corn_pts_pre_ = corn_pre → st.surf_pts_pre_ = surf_pre →
      ∃ w, icpLoop search solve feature n st = .ok w := by
  induction n with
  | zero => intro st _ _; exact ⟨_, rfl⟩
  | succ n ih =>
    intro st h1 h2
    subst h1 h2
    obtain ⟨st1, rec, hi, _, _, _, _, hst⟩ := iterate_of_assoc search solve feature st pl pp hc hs
    obtain ⟨w, hw⟩ := ih st1 (by rw [hst]) (by rw [hst])
    obtain ⟨sb, rs⟩ := w
    exact ⟨(sb, rec :: rs), by simp only [icpLoop, hi, hw]⟩

/-- The only fault of the body of `AssociateCornPoints` is an access outside a vector. -/
theorem cornBody_error (search : KdTree) (tgt : List TPoint) (dist_thresh : ℚ)
    (query_pt : TPoint) (e : Fault)
    (h : cornBody search tgt dist_thresh query_pt = .error e) : e = .outOfRange := by
  cases e with
  | outOfRange => rfl
  | badConfig =>
    exfalso
    unfold cornBody cornWindow at h
    cases h0 : vecAt (search tgt query_pt).dists 0 with
    | error e0 =>
      obtain ⟨_, he⟩ := (vecAt_eq_error _ _ _).mp h0
      subst he
      simp [h0, bind, Except.bind] at h
    | ok d =>
      simp only [h0, bind, Except.bind] at h
      split_ifs at h
      · simp [pure, Except.pure] at h
      · cases h1 : vecAt (search tgt query_pt).indices 0 with
        | error e1 =>
          obtain ⟨_, he⟩ := (vecAt_eq_error _ _ _).mp h1
          subst he
          simp [h1] at h
        | ok n =>
          cases h2 : vecAt tgt n with
          | error e2 =>
            obtain ⟨_, he⟩ := (vecAt_eq_error _ _ _).mp h2
            subst he
            simp [h1, h2] at h
          | ok pt1 =>
            simp only [h1, h2] at h
            split_ifs at h
            · cases h3 : vecAt tgt (cornScan tgt dist_thresh query_pt n).pt2_idx.toNat with
              | error e3 =>
                obtain ⟨_, he⟩ := (vecAt_eq_error _ _ _).mp h3
                subst he
                simp [h3] at h
              | ok pt2 => simp [h3, pure, Except.pure] at h
            · simp [pure, Except.pure] at h

/-- A fault of the loop over the query points is a fault of the body at some query point. -/
theorem forEachQuery_error {α : Type} (body : TPoint → Except Fault (Option α))
    (src : List TPoint) : ∀ (pairs : List α) (e : Fault),
      forEachQuery body src pairs = .error e → ∃ q ∈ src, body q = .error e := by
  induction src with
  | nil => intro pairs e h; simp [forEachQuery] at h
  | cons q rest ih =>
    intro pairs e h
    cases hb : body q with
    | error e2 =>
      simp only [forEachQuery, hb, Except.error.injEq] at h
      subst h
      exact ⟨q, List.mem_cons_self _ _, hb⟩
    | ok r =>
      simp only [forEachQuery, hb] at h
      obtain ⟨q2, hq1, hq2⟩ := ih _ e h
      exact ⟨q2, List.mem_cons_of_mem _ hq1, hq2⟩

/-- On an empty target the body of either association function reads `dists[0]` of an empty
vector. -/
theorem body_empty_target (search : KdTree) (hs : KdContract search) (dist_thresh : ℚ)
    (query_pt : TPoint) :
    cornBody search [] dist_thresh query_pt = .error .outOfRange ∧
    surfBody search [] dist_thresh query_pt = .error .outOfRange := by
  have h := (hs [] query_pt).1 rfl
  constructor
  · unfold cornBody
    rw [h]
    rfl
  · unfold surfBody
    rw [h]
    rfl

/-- On a non-empty target the body of `AssociateCornPoints` stays inside its vectors. -/
theorem cornBody_total (search : KdTree) (hs : KdContract search) (tgt : List TPoint)
    (hne : tgt ≠ []) (dist_thresh : ℚ) (query_pt : TPoint) :
    ∃ r, cornBody search tgt dist_thresh query_pt = .ok r := by
  obtain ⟨i, pt1, h1, h2, _⟩ := (hs tgt query_pt).2 hne
  have hd : (search tgt query_pt).dists[0]? = some (DistanceSqure query_pt pt1) := by
    rw [h2]; rfl
  obtain ⟨hrej, hacc⟩ := body_of_dist search tgt dist_thresh _ query_pt hd
  by_cases hlt : DistanceSqure query_pt pt1 < dist_thresh
  · rw [(hacc hlt).1, h2]
    have e1 : vecAt tgt i = .ok pt1 := (vecAt_eq_ok _ _ _).mpr h1
    have e0 : vecAt [i] 0 = .ok i := rfl
    unfold cornWindow
    simp only [e0, e1, bind, Except.bind]
    rcases (cornScan_inv tgt dist_thresh query_pt i).1 with hsc | ⟨j, pt, hj, _, hsc, _⟩
    · rw [hsc]
      exact ⟨none, by simp [pure, Except.pure]⟩
    · rw [hsc]
      refine ⟨some ⟨query_pt, ⟨pt1, pt⟩⟩, ?_⟩
      simp [(vecAt_eq_ok tgt j pt).mpr hj, pure, Except.pure]
  · exact ⟨none, (hrej (not_lt.mp hlt)).1⟩

/-- On a non-empty target the body of `AssociateSurfPoints` stays inside its vectors. -/
theorem surfBody_total (search : KdTree) (hs : KdContract search) (tgt : List TPoint)
    (hne : tgt ≠ []) (dist_thresh : ℚ) (query_pt : TPoint) :
    ∃ r, surfBody search tgt dist_thresh query_pt = .ok r := by
  obtain ⟨i, pt1, h1, h2, _⟩ := (hs tgt query_pt).2 hne
  have hd : (search tgt query_pt).dists[0]? = some (DistanceSqure query_pt pt1) := by
    rw [h2]; rfl
  obtain ⟨hrej, hacc⟩ := body_of_dist search tgt dist_thresh _ query_pt hd
  by_cases hlt : DistanceSqure query_pt pt1 < dist_thresh
  · rw [(hacc hlt).2, h2]
    have e1 : vecAt tgt i = .ok pt1 := (vecAt_eq_ok _ _ _).mpr h1
    have e0 : vecAt [i] 0 = .ok i := rfl
    unfold surfWindow
    simp only [e0, e1, bind, Except.bind]
    obtain ⟨i2, i3⟩ := surfScan_inv tgt dist_thresh query_pt i
    rcases i2 with i2 | ⟨k2, pt2, hk2, _, _, hi2, _, _⟩
    · rw [i2]
      exact ⟨none, by simp [pure, Except.pure]⟩
    · rcases i3 with i3 | ⟨k3, pt3, hk3, _, hi3, _, _⟩
      · rw [i3]
        exact ⟨none, by simp [pure, Except.pure]⟩
      · rw [hi2, hi3]
        refine ⟨some ⟨query_pt, ⟨pt1, pt2, pt3⟩⟩, ?_⟩
        simp [(vecAt_eq_ok tgt k2 pt2).mpr hk2, (vecAt_eq_ok tgt k3 pt3).mpr hk3, pure,
          Except.pure]
  · exact ⟨none, (hrej (not_lt.mp hlt)).2⟩

/-- With an index that meets its contract, the iteration count in the configuration and
buffers that are not empty (or nothing to look up in them), `Process` returns: no access
leaves a vector. -/
theorem process_returns (search : KdTree) (hs : KdContract search) (solve : PoseSolver)
    (st : Odometry) (feature : FeaturePoints) (iter_num : Int)
    (hcfg : st.config_.asInt icpIterNumKey = some iter_num)
    (hcorn : st.corn_pts_pre_ ≠ [] ∨ feature.sharp_corner_pts = [])
    (hsurf : st.surf_pts_pre_ ≠ [] ∨ feature.flat_surf_pts = []) :
    ∃ r, Process search solve st feature = .ok r := by
  cases hi : st.is_initialized with
  | false => exact ⟨_, process_first_spec search solve st feature hi⟩
  | true =>
    have hc : ∃ pl, AssociateCornPoints search feature.sharp_corner_pts st.corn_pts_pre_ []
        kDistSquareThresh = .ok pl := by
      rcases hcorn with h | h
      · exact forEachQuery_total _ _
          (fun q _ => cornBody_total search hs _ h kDistSquareThresh q) []
      · rw [h]; exact ⟨[], rfl⟩
    have hsf : ∃ pp, AssociateSurfPoints search feature.flat_surf_pts st.surf_pts_pre_ []
        kDistSquareThresh = .ok pp := by
      rcases hsurf with h | h
      · exact forEachQuery_total _ _
          (fun q _ => surfBody_total search hs _ h kDistSquareThresh q) []
      · rw [h]; exact ⟨[], rfl⟩
    obtain ⟨pl, hpl⟩ := hc
    obtain ⟨pp, hpp⟩ := hsf
    obtain ⟨w, hw⟩ := icpLoop_of_assoc search solve feature _ _ pl pp hpl hpp iter_num.toNat
      st rfl rfl
    obtain ⟨sb, rs⟩ := w
    unfold Process
    simp only [hi, Bool.not_true, Bool.false_eq_true, if_false, hcfg, hw]
    exact ⟨_, rfl⟩



/-! ## Claims on `Process` -/

/-- C5: the first `Process` call on an engine that is not initialised returns; it runs no
iteration (no association, no solve: the outcome is the same for every index and solver),
leaves the relative and the accumulated pose as they were (the identity for a freshly
constructed engine), stores the frame's less-sharp corner and less-flat surface points as the
previous-frame buffers, sets the initialised flag and returns the accumulated pose. -/
theorem process_first_call (search : KdTree) (solve : PoseSolver) (st : Odometry)
    (feature : FeaturePoints) (hinit : st.is_initialized = false) :
    ∃ r, Process search solve st feature = .ok r ∧
      r.trace = [] ∧
      (∀ (search2 : KdTree) (solve2 : PoseSolver),
        Process search2 solve2 st feature = .ok r) ∧
      r.state.pose_curr2last_ = st.pose_curr2last_ ∧
      r.state.pose_curr2world_ = st.pose_curr2world_ ∧
      r.state.corn_pts_pre_ = feature.less_sharp_corner_pts ∧
      r.state.surf_pts_pre_ = feature.less_flat_surf_pts ∧
      r.state.is_initialized = true ∧
      r.pose = st.pose_curr2world_ ∧
      (∀ config, st = Odometry.fresh config →
        r.pose = Pose3D.identity ∧ r.state.pose_curr2last_ = Pose3D.identity ∧
        r.state.pose_curr2world_ = Pose3D.identity) := by
  refine ⟨_, process_first_spec search solve st feature hinit, rfl,
    fun s2 v2 => process_first_spec s2 v2 st feature hinit, rfl, rfl, rfl, rfl, rfl, rfl, ?_⟩
  intro config hc
  subst hc
  exact ⟨rfl, rfl, rfl⟩

/-- C5 on a freshly constructed engine and the sample frame. -/
theorem process_first_call_witness :
    (Odometry.fresh demoConfig).is_initialized = false ∧
    ∃ r, Process nearestKSearch demoSolver (Odometry.fresh demoConfig) demoFrame = .ok r ∧
      r.trace = [] ∧
      (∀ (search2 : KdTree) (solve2 : PoseSolver),
        Process search2 solve2 (Odometry.fresh demoConfig) demoFrame = .ok r) ∧
      r.state.pose_curr2last_ = (Odometry.fresh demoConfig).pose_curr2last_ ∧
      r.state.pose_curr2world_ = (Odometry.fresh demoConfig).pose_curr2world_ ∧
      r.state.corn_pts_pre_ = demoFrame.less_sharp_corner_pts ∧
      r.state.surf_pts_pre_ = demoFrame.less_flat_surf_pts ∧
      r.state.is_initialized = true ∧
      r.pose = (Odometry.fresh demoConfig).pose_curr2world_ ∧
      (∀ config, Odometry.fresh demoConfig = Odometry.fresh config →
        r.pose = Pose3D.identity ∧ r.state.pose_curr2last_ = Pose3D.identity ∧
        r.state.pose_curr2world_ = Pose3D.identity) :=
  ⟨rfl, process_first_call nearestKSearch demoSolver (Odometry.fresh demoConfig) demoFrame rfl⟩

/-- C6: for every initialised engine and every frame, when `Process` returns the relative
pose afterwards is the one written by the last solve, the accumulated pose afterwards is the
accumulated pose before the call composed with that relative pose, in this order, and it is
the pose returned; when the final relative pose is the identity the accumulated pose is
unchanged. `Process` does return when the index meets its contract, the configuration holds
the iteration count and no query meets an empty buffer. -/
theorem process_accumulates_pose (search : KdTree) (solve : PoseSolver) (st : Odometry)
    (feature : FeaturePoints) (hinit : st.is_initialized = true) :
    (∀ r, Process search solve st feature = .ok r →
      r.state.pose_curr2last_ = lastPoseOut st.pose_curr2last_ r.trace ∧
      r.state.pose_curr2world_ = Pose3D.mul st.pose_curr2world_ r.state.pose_curr2last_ ∧
      r.pose = r.state.pose_curr2world_ ∧
      (r.state.pose_curr2last_ = Pose3D.identity →
        r.state.pose_curr2world_ = st.pose_curr2world_ ∧ r.pose = st.pose_curr2world_)) ∧
    (KdContract search → (∃ iter_num, st.config_.asInt icpIterNumKey = some iter_num) →
      (st.corn_pts_pre_ ≠ [] ∨ feature.sharp_corner_pts = []) →
      (st.surf_pts_pre_ ≠ [] ∨ feature.flat_surf_pts = []) →
      ∃ r, Process search solve st feature = .ok r) := by
  constructor
  · intro r h
    obtain ⟨n, _, _, _, _, hs, hp⟩ := process_running_spec search solve st feature r hinit h
    have h1 : r.state.pose_curr2last_ = lastPoseOut st.pose_curr2last_ r.trace := by rw [hs]
    have h2 : r.state.pose_curr2world_ =
        Pose3D.mul st.pose_curr2world_ r.state.pose_curr2last_ := by rw [hs]
    have h3 : r.pose = r.state.pose_curr2world_ := by rw [hp, h2, h1]
    refine ⟨h1, h2, h3, ?_⟩
    intro hid
    have h4 : r.state.pose_curr2world_ = st.pose_curr2world_ := by
      rw [h2, hid, Pose3D.mul_identity]
    exact ⟨h4, h3.trans h4⟩
  · rintro hs ⟨iter_num, hcfg⟩ hcorn hsurf
    exact process_returns search hs solve st feature iter_num hcfg hcorn hsurf

/-- C6 on the second call of the sample run: two solves move the relative pose to `x = 6`,
and the accumulated pose, the identity before, is the composition. -/
theorem process_accumulates_pose_witness :
    demoRunning.is_initialized = true ∧
    Process nearestKSearch demoSolver demoRunning demoFrame = .ok demoSecond ∧
    demoSecond.state.pose_curr2last_ = lastPoseOut demoRunning.pose_curr2last_ demoSecond.trace ∧
    demoSecond.state.pose_curr2world_ =
      Pose3D.mul demoRunning.pose_curr2world_ demoSecond.state.pose_curr2last_ ∧
    demoSecond.pose = demoSecond.state.pose_curr2world_ ∧
    ∃ r, Process nearestKSearch demoSolver demoRunning demoFrame = .ok r :=
  ⟨rfl, by decide!,
    ((process_accumulates_pose nearestKSearch demoSolver demoRunning demoFrame rfl).1
      demoSecond (by decide!)).1,
    ((process_accumulates_pose nearestKSearch demoSolver demoRunning demoFrame rfl).1
      demoSecond (by decide!)).2.1,
    ((process_accumulates_pose nearestKSearch demoSolver demoRunning demoFrame rfl).1
      demoSecond (by decide!)).2.2.1,
    (process_accumulates_pose nearestKSearch demoSolver demoRunning demoFrame rfl).2
      nearestKSearch_contract ⟨2, by decide!⟩ (Or.inl (by decide!)) (Or.inl (by decide!))⟩

/-- C7: after every `Process` call that returns, first or later, the previous-frame corner
buffer is the frame's less-sharp corner points and the previous-frame surface buffer is the
frame's less-flat surface points; in every iteration of the call the two association calls
get the buffers the engine held when the call started as targets and the frame's sharp-corner
and flat-surface points as queries; so in every iteration of the next call the targets are
the less strict categories of this call's frame. `Process` does return when the index meets
its contract, the configuration holds the iteration count and no query meets an empty
buffer. -/
theorem process_buffers (search : KdTree) (solve : PoseSolver) (st : Odometry)
    (f1 : FeaturePoints) :
    (∀ r1, Process search solve st f1 = .ok r1 →
      r1.state.corn_pts_pre_ = f1.less_sharp_corner_pts ∧
      r1.state.surf_pts_pre_ = f1.less_flat_surf_pts ∧
      r1.state.is_initialized = true ∧
      (∀ rec ∈ r1.trace, IterOk search solve f1 st.corn_pts_pre_ st.surf_pts_pre_ rec) ∧
      (∀ (f2 : FeaturePoints) (r2 : ProcessResult),
        Process search solve r1.state f2 = .ok r2 →
        r2.state.corn_pts_pre_ = f2.less_sharp_corner_pts ∧
        r2.state.surf_pts_pre_ = f2.less_flat_surf_pts ∧
        ∀ rec ∈ r2.trace,
          IterOk search solve f2 f1.less_sharp_corner_pts f1.less_flat_surf_pts rec)) ∧
    (KdContract search → (∃ iter_num, st.config_.asInt icpIterNumKey = some iter_num) →
      (st.corn_pts_pre_ ≠ [] ∨ f1.sharp_corner_pts = []) →
      (st.surf_pts_pre_ ≠ [] ∨ f1.flat_surf_pts = []) →
      ∃ r1, Process search solve st f1 = .ok r1) := by
  have key : ∀ (s : Odometry) (f : FeaturePoints) (r : ProcessResult),
      Process search solve s f = .ok r →
      r.state.corn_pts_pre_ = f.less_sharp_corner_pts ∧
      r.state.surf_pts_pre_ = f.less_flat_surf_pts ∧
      r.state.is_initialized = true ∧
      (∀ rec ∈ r.trace, IterOk search solve f s.corn_pts_pre_ s.surf_pts_pre_ rec) := by
    intro s f r h
    cases hi : s.is_initialized with
    | false =>
      rw [process_first_spec search solve s f hi] at h
      cases h
      exact ⟨rfl, rfl, rfl, by simp⟩
    | true =>
      obtain ⟨n, _, _, _, hall, hs, _⟩ := process_running_spec search solve s f r hi h
      rw [hs]
      exact ⟨rfl, rfl, hi, hall⟩
  constructor
  · intro r1 h1
    obtain ⟨a1, a2, a3, a4⟩ := key st f1 r1 h1
    refine ⟨a1, a2, a3, a4, ?_⟩
    intro f2 r2 h2
    obtain ⟨b1, b2, _, b4⟩ := key r1.state f2 r2 h2
    rw [a1, a2] at b4
    exact ⟨b1, b2, b4⟩
  · rintro hs ⟨iter_num, hcfg⟩ hcorn hsurf
    exact process_returns search hs solve st f1 iter_num hcfg hcorn hsurf

/-- C7 on the sample run: a first call on a fresh engine, then a second call on the same
frame, whose two iterations search the less strict categories of the first frame. -/
theorem process_buffers_witness :
    Process nearestKSearch demoSolver (Odometry.fresh demoConfig) demoFrame =
      .ok ⟨demoRunning, Pose3D.identity, []⟩ ∧
    Process nearestKSearch demoSolver demoRunning demoFrame = .ok demoSecond ∧
    demoRunning.corn_pts_pre_ = demoFrame.less_sharp_corner_pts ∧
    demoRunning.surf_pts_pre_ = demoFrame.less_flat_surf_pts ∧
    demoSecond.state.corn_pts_pre_ = demoFrame.less_sharp_corner_pts ∧
    demoSecond.state.surf_pts_pre_ = demoFrame.less_flat_surf_pts ∧
    (∀ rec ∈ demoSecond.trace,
      IterOk nearestKSearch demoSolver demoFrame demoFrame.less_sharp_corner_pts
        demoFrame.less_flat_surf_pts rec) ∧
    ∃ r1, Process nearestKSearch demoSolver demoRunning demoFrame = .ok r1 :=
  ⟨by decide!, by decide!,
    ((process_buffers nearestKSearch demoSolver (Odometry.fresh demoConfig) demoFrame).1
      ⟨demoRunning, Pose3D.identity, []⟩ (by decide!)).1,
    ((process_buffers nearestKSearch demoSolver (Odometry.fresh demoConfig) demoFrame).1
      ⟨demoRunning, Pose3D.identity, []⟩ (by decide!)).2.1,
    (((process_buffers nearestKSearch demoSolver (Odometry.fresh demoConfig) demoFrame).1
      ⟨demoRunning, Pose3D.identity, []⟩ (by decide!)).2.2.2.2 demoFrame demoSecond
        (by decide!)).1,
    (((process_buffers nearestKSearch demoSolver (Odometry.fresh demoConfig) demoFrame).1
      ⟨demoRunning, Pose3D.identity, []⟩ (by decide!)).2.2.2.2 demoFrame demoSecond
        (by decide!)).2.1,
    (((process_buffers nearestKSearch demoSolver (Odometry.fresh demoConfig) demoFrame).1
      ⟨demoRunning, Pose3D.identity, []⟩ (by decide!)).2.2.2.2 demoFrame demoSecond
        (by decide!)).2.2,
    (process_buffers nearestKSearch demoSolver demoRunning demoFrame).2
      nearestKSearch_contract ⟨2, by decide!⟩ (Or.inl (by decide!)) (Or.inl (by decide!))⟩

/-- C8: in every iteration of a `Process` call on an initialised engine the warning is logged
exactly when the line and plane correspondences together are fewer than `kMinMatchNum = 10`;
with or without it the solver runs on the correspondences that were built and its result
becomes the relative pose, which the next iteration starts from; the warning does not end the
frame: once both association calls return, the iteration returns, `Process` returns, and it
has run as many iterations as the configuration asks for. -/
theorem low_match_warning (search : KdTree) (solve : PoseSolver) (st : Odometry)
    (feature : FeaturePoints) (hinit : st.is_initialized = true) :
    (∀ pl pp,
      AssociateCornPoints search feature.sharp_corner_pts st.corn_pts_pre_ []
        kDistSquareThresh = .ok pl →
      AssociateSurfPoints search feature.flat_surf_pts st.surf_pts_pre_ []
        kDistSquareThresh = .ok pp →
      (∃ st1 rec, iterate search solve feature st = .ok (st1, rec) ∧
        rec.pl_pairs = pl ∧ rec.pp_pairs = pp ∧
        (rec.warned = true ↔ pl.length + pp.length < kMinMatchNum) ∧
        rec.pose_out = solve st.pose_curr2last_ (pl.map fun pair => (pair, GetTime pair.pt))
          (pp.map fun pair => (pair, GetTime pair.pt)) ∧
        st1 = { st with pose_curr2last_ := rec.pose_out }) ∧
      (∀ iter_num, st.config_.asInt icpIterNumKey = some iter_num →
        ∃ r, Process search solve st feature = .ok r)) ∧
    (∀ r, Process search solve st feature = .ok r →
      ∃ iter_num : Int, st.config_.asInt icpIterNumKey = some iter_num ∧
        r.trace.length = iter_num.toNat ∧
        PosesLinked st.pose_curr2last_ r.trace ∧
        r.state.pose_curr2last_ = lastPoseOut st.pose_curr2last_ r.trace ∧
        ∀ rec ∈ r.trace,
          AssociateCornPoints search feature.sharp_corner_pts st.corn_pts_pre_ []
            kDistSquareThresh = .ok rec.pl_pairs ∧
          AssociateSurfPoints search feature.flat_surf_pts st.surf_pts_pre_ []
            kDistSquareThresh = .ok rec.pp_pairs ∧
          (rec.warned = true ↔ rec.pl_pairs.length + rec.pp_pairs.length < kMinMatchNum) ∧
          rec.pose_out = solve rec.pose_in
            (rec.pl_pairs.map fun pair => (pair, GetTime pair.pt))
            (rec.pp_pairs.map fun pair => (pair, GetTime pair.pt))) := by
  constructor
  · intro pl pp hc hs
    refine ⟨iterate_of_assoc search solve feature st pl pp hc hs, ?_⟩
    intro iter_num hcfg
    obtain ⟨w, hw⟩ := icpLoop_of_assoc search solve feature _ _ pl pp hc hs iter_num.toNat
      st rfl rfl
    obtain ⟨sb, rs⟩ := w
    unfold Process
    simp only [hinit, Bool.not_true, Bool.false_eq_true, if_false, hcfg, hw]
    exact ⟨_, rfl⟩
  · intro r h
    obtain ⟨n, h1, h2, h3, h4, h5, _⟩ := process_running_spec search solve st feature r hinit h
    refine ⟨n, h1, h2, h3, by rw [h5], ?_⟩
    intro rec hrec
    obtain ⟨a1, a2, a3, a4, a5, a6, a7, a8⟩ := h4 rec hrec
    rw [a1, a2] at a5
    rw [a3, a4] at a6
    exact ⟨a5, a6, a7, a8⟩

/-- C8 on two frames. On the dense frame ten correspondences are built and an iteration logs
no warning; on the sample frame each of the two iterations builds two correspondences, logs
the warning and still solves. -/
theorem low_match_warning_witness :
    demoRunning.is_initialized = true ∧
    AssociateCornPoints nearestKSearch denseFrame.sharp_corner_pts demoRunning.corn_pts_pre_ []
      kDistSquareThresh = .ok (List.replicate 5 demoLine) ∧
    AssociateSurfPoints nearestKSearch denseFrame.flat_surf_pts demoRunning.surf_pts_pre_ []
      kDistSquareThresh = .ok (List.replicate 5 demoPlane) ∧
    (∃ st1 rec, iterate nearestKSearch demoSolver denseFrame demoRunning = .ok (st1, rec) ∧
      rec.pl_pairs = List.replicate 5 demoLine ∧ rec.pp_pairs = List.replicate 5 demoPlane ∧
      (rec.warned = true ↔
        (List.replicate 5 demoLine).length + (List.replicate 5 demoPlane).length <
          kMinMatchNum) ∧
      rec.pose_out = demoSolver demoRunning.pose_curr2last_
        ((List.replicate 5 demoLine).map fun pair => (pair, GetTime pair.pt))
        ((List.replicate 5 demoPlane).map fun pair => (pair, GetTime pair.pt)) ∧
      st1 = { demoRunning with pose_curr2last_ := rec.pose_out }) ∧
    Process nearestKSearch demoSolver demoRunning demoFrame = .ok demoSecond ∧
    (∃ iter_num : Int, demoRunning.config_.asInt icpIterNumKey = some iter_num ∧
      demoSecond.trace.length = iter_num.toNat ∧
      PosesLinked demoRunning.pose_curr2last_ demoSecond.trace ∧
      demoSecond.state.pose_curr2last_ =
        lastPoseOut demoRunning.pose_curr2last_ demoSecond.trace ∧
      ∀ rec ∈ demoSecond.trace,
        AssociateCornPoints nearestKSearch demoFrame.sharp_corner_pts
          demoRunning.corn_pts_pre_ [] kDistSquareThresh = .ok rec.pl_pairs ∧
        AssociateSurfPoints nearestKSearch demoFrame.flat_surf_pts
          demoRunning.surf_pts_pre_ [] kDistSquareThresh = .ok rec.pp_pairs ∧
        (rec.warned = true ↔ rec.pl_pairs.length + rec.pp_pairs.length < kMinMatchNum) ∧
        rec.pose_out = demoSolver rec.pose_in
          (rec.pl_pairs.map fun pair => (pair, GetTime pair.pt))
          (rec.pp_pairs.map fun pair => (pair, GetTime pair.pt))) :=
  ⟨rfl, by decide!, by decide!,
    ((low_match_warning nearestKSearch demoSolver demoRunning denseFrame rfl).1
      (List.replicate 5 demoLine) (List.replicate 5 demoPlane) (by decide!) (by decide!)).1,
    by decide!,
    (low_match_warning nearestKSearch demoSolver demoRunning demoFrame rfl).2 demoSecond
      (by decide!)⟩

/-- C9 (the code at the failing input): with an index that meets its contract, an initialised
engine whose previous-frame corner buffer is empty while the frame has a sharp corner point
(or whose surface buffer is empty while the frame has a flat surface point), and at least one
iteration configured, `Process` does not return: the first association call reads `dists[0]`
of an empty vector. -/
theorem process_faults_on_empty_buffer (search : KdTree) (hs : KdContract search)
    (solve : PoseSolver) (st : Odometry) (feature : FeaturePoints) (iter_num : Int)
    (hinit : st.is_initialized = true)
    (hcfg : st.config_.asInt icpIterNumKey = some iter_num) (hpos : 0 < iter_num)
    (hempty : (st.corn_pts_pre_ = [] ∧ feature.sharp_corner_pts ≠ []) ∨
      (st.surf_pts_pre_ = [] ∧ feature.flat_surf_pts ≠ [])) :
    Process search solve st feature = .error .outOfRange := by
  obtain ⟨k, hk⟩ : ∃ k, iter_num.toNat = k + 1 := ⟨iter_num.toNat - 1, by omega⟩
  have hiter : iterate search solve feature st = .error .outOfRange := by
    unfold iterate
    have faults : ∀ {α : Type} (body : TPoint → Except Fault (Option α)) (src : List TPoint),
        src ≠ [] → (∀ q, body q = .error .outOfRange) →
        forEachQuery body src [] = .error .outOfRange := by
      intro α body src hne hb
      cases src with
      | nil => exact absurd rfl hne
      | cons q rest => simp only [forEachQuery, hb q]
    rcases hempty with ⟨he, hq⟩ | ⟨he, hq⟩
    · have : AssociateCornPoints search feature.sharp_corner_pts st.corn_pts_pre_ []
          kDistSquareThresh = .error .outOfRange := by
        rw [he]
        exact faults _ _ hq (fun q => (body_empty_target search hs kDistSquareThresh q).1)
      simp only [this]
    · cases hc : AssociateCornPoints search feature.sharp_corner_pts st.corn_pts_pre_ []
          kDistSquareThresh with
      | error e =>
        obtain ⟨q, _, hq2⟩ := forEachQuery_error _ _ _ _ hc
        rw [cornBody_error search _ _ q e hq2]
      | ok pl =>
        have : AssociateSurfPoints search feature.flat_surf_pts st.surf_pts_pre_ []
            kDistSquareThresh = .error .outOfRange := by
          rw [he]
          exact faults _ _ hq (fun q => (body_empty_target search hs kDistSquareThresh q).2)
        simp only [this]
  unfold Process
  simp only [hinit, Bool.not_true, Bool.false_eq_true, if_false, hcfg, hk, icpLoop, hiter]

/-- C9 at the failing input: the linear-scan index, an initialised engine with an empty
previous-frame corner buffer, two iterations configured, and the sample frame. -/
theorem process_faults_on_empty_buffer_witness :
    emptyBufferEngine.is_initialized = true ∧
    emptyBufferEngine.config_.asInt icpIterNumKey = some 2 ∧
    emptyBufferEngine.corn_pts_pre_ = [] ∧ demoFrame.sharp_corner_pts ≠ [] ∧
    Process nearestKSearch demoSolver emptyBufferEngine demoFrame = .error .outOfRange :=
  ⟨rfl, by decide!, rfl, by decide!,
    process_faults_on_empty_buffer nearestKSearch nearestKSearch_contract demoSolver
      emptyBufferEngine demoFrame 2 rfl (by decide!) (by decide!)
      (Or.inl ⟨rfl, by decide!⟩)⟩

/-! ## Scan-line id and capture-time fraction -/

/-- For a non-negative value the cast to `int` is the floor. -/
theorem castToInt_of_nonneg (t : ℚ) (h : 0 ≤ t) : castToInt t = ⌊t⌋ := by
  unfold castToInt
  rw [Rat.floor_def]
  exact Int.tdiv_eq_ediv (Rat.num_nonneg.mpr h) (Int.ofNat_nonneg _)

/-- Scan-line id and capture-time fraction always add up to the time field. -/
theorem getScanId_add_getTime (pt : TPoint) : (GetScanId pt : ℚ) + GetTime pt = pt.time := by
  unfold GetTime
  ring

/-- C10: for every TimedPoint, that is every point whose time field is non-negative, as the
invariant of the data model requires (a non-negative scan-line id plus a fraction in
`[0,1)`): `GetScanId pt` is the floor of the time field and is non-negative, `GetTime pt`,
which is `pt.time - GetScanId pt`, lies in `[0,1)`, and `GetScanId pt + GetTime pt = pt.time`
(the sum holds for every value of the time field). -/
theorem timed_point_decoding (pt : TPoint) :
    (GetScanId pt : ℚ) + GetTime pt = pt.time ∧
    (0 ≤ pt.time →
      GetScanId pt = ⌊pt.time⌋ ∧ 0 ≤ GetScanId pt ∧ 0 ≤ GetTime pt ∧ GetTime pt < 1) := by
  refine ⟨getScanId_add_getTime pt, fun h => ?_⟩
  have hf : GetScanId pt = ⌊pt.time⌋ := castToInt_of_nonneg pt.time h
  refine ⟨hf, ?_, ?_, ?_⟩
  · rw [hf]; exact Int.floor_nonneg.mpr h
  · unfold GetTime; rw [hf]; exact sub_nonneg.mpr (Int.floor_le _)
  · unfold GetTime; rw [hf]; have := Int.lt_floor_add_one pt.time; linarith

/-- C10 at the point with time field `5/2`: scan-line id 2, fraction `1/2`. -/
theorem timed_point_decoding_witness :
    (0 : ℚ) ≤ (⟨1, 2, 3, 5 / 2⟩ : TPoint).time ∧
    (GetScanId ⟨1, 2, 3, 5 / 2⟩ = ⌊(⟨1, 2, 3, 5 / 2⟩ : TPoint).time⌋ ∧
      0 ≤ GetScanId ⟨1, 2, 3, 5 / 2⟩ ∧ 0 ≤ GetTime ⟨1, 2, 3, 5 / 2⟩ ∧
      GetTime ⟨1, 2, 3, 5 / 2⟩ < 1) :=
  ⟨by decide!, (timed_point_decoding ⟨1, 2, 3, 5 / 2⟩).2 (by decide!)⟩


/-! ## Motion compensation -/

/-- Transforming by the identity pose leaves a point as it is. -/
theorem transformPoint_identity (pt : TPoint) : TransformPoint Pose3D.identity pt = pt := by
  obtain ⟨x, y, z, t⟩ := pt
  simp [TransformPoint, Pose3D.identity, Quat.rotate, Vec3.add, Vec3.smul, Vec3.cross]

/-- The inverse of the identity pose is the identity pose. -/
theorem inv_identity : Pose3D.Inv Pose3D.identity = Pose3D.identity := by
  simp [Pose3D.Inv, Pose3D.identity, Quat.conj, Quat.rotate, Vec3.add, Vec3.smul, Vec3.cross,
    Vec3.neg]

/-- Interpolating from the identity towards the identity gives the identity, for an
interpolation of rotations that is constant between equal rotations. -/
theorem interpolate_identity (slerp : Slerp)
    (hs : ∀ t, slerp ⟨1, 0, 0, 0⟩ ⟨1, 0, 0, 0⟩ t = ⟨1, 0, 0, 0⟩) (t : ℚ) :
    Pose3D.Interpolate slerp Pose3D.identity Pose3D.identity t = Pose3D.identity := by
  simp [Pose3D.Interpolate, Pose3D.identity, hs, Vec3.add, Vec3.smul, Vec3.neg]

/-- C11: for a spherical interpolation that is constant between equal rotations, the identity
pose and every point (whatever its time field), `TransformToStart` and `TransformToEnd` return
a point with the same position; for every pose, `TransformToEnd(pose, pt)` is the inverse of
the full pose applied to `TransformToStart(pose, pt)`, and `TransformToStart(pose, pt)` applies
the pose interpolated from the identity towards `pose` at ratio `GetTime(pt)`. -/
theorem transform_to_start_end (slerp : Slerp)
    (hs : ∀ t, slerp ⟨1, 0, 0, 0⟩ ⟨1, 0, 0, 0⟩ t = ⟨1, 0, 0, 0⟩) (pt : TPoint) :
    ((TransformToStart slerp Pose3D.identity pt).x = pt.x ∧
      (TransformToStart slerp Pose3D.identity pt).y = pt.y ∧
      (TransformToStart slerp Pose3D.identity pt).z = pt.z) ∧
    ((TransformToEnd slerp Pose3D.identity pt).x = pt.x ∧
      (TransformToEnd slerp Pose3D.identity pt).y = pt.y ∧
      (TransformToEnd slerp Pose3D.identity pt).z = pt.z) ∧
    (∀ pose : Pose3D,
      TransformToEnd slerp pose pt =
        TransformPoint (Pose3D.Inv pose) (TransformToStart slerp pose pt) ∧
      TransformToStart slerp pose pt =
        TransformPoint (Pose3D.Interpolate slerp Pose3D.identity pose (GetTime pt)) pt) := by
  have h1 : TransformToStart slerp Pose3D.identity pt = pt := by
    unfold TransformToStart
    simp only [interpolate_identity slerp hs, transformPoint_identity]
  have h2 : TransformToEnd slerp Pose3D.identity pt = pt := by
    unfold TransformToEnd
    simp only [h1, inv_identity, transformPoint_identity]
  refine ⟨?_, ?_, fun pose => ⟨rfl, rfl⟩⟩
  · rw [h1]; exact ⟨rfl, rfl, rfl⟩
  · rw [h2]; exact ⟨rfl, rfl, rfl⟩

/-- C11 with the coefficient-wise interpolation and the point `(1, 2, 3)` with time `5/2`. -/
theorem transform_to_start_end_witness :
    (∀ t, demoSlerp ⟨1, 0, 0, 0⟩ ⟨1, 0, 0, 0⟩ t = ⟨1, 0, 0, 0⟩) ∧
    ((TransformToStart demoSlerp Pose3D.identity ⟨1, 2, 3, 5 / 2⟩).x = 1 ∧
      (TransformToStart demoSlerp Pose3D.identity ⟨1, 2, 3, 5 / 2⟩).y = 2 ∧
      (TransformToStart demoSlerp Pose3D.identity ⟨1, 2, 3, 5 / 2⟩).z = 3) ∧
    ((TransformToEnd demoSlerp Pose3D.identity ⟨1, 2, 3, 5 / 2⟩).x = 1 ∧
      (TransformToEnd demoSlerp Pose3D.identity ⟨1, 2, 3, 5 / 2⟩).y = 2 ∧
      (TransformToEnd demoSlerp Pose3D.identity ⟨1, 2, 3, 5 / 2⟩).z = 3) :=
  ⟨fun t => by simp [demoSlerp],
    (transform_to_start_end demoSlerp (fun t => by simp [demoSlerp]) ⟨1, 2, 3, 5 / 2⟩).1,
    (transform_to_start_end demoSlerp (fun t => by simp [demoSlerp]) ⟨1, 2, 3, 5 / 2⟩).2.1⟩

/-! ## Initialisation and the configuration -/

/-- C12 (as stated, refuted): with the empty configuration, in which `icp_iter_num` is
missing, `Init` returns `true`. -/
theorem init_accepts_missing_key :
    ¬ (∀ (st : Odometry) (config : YamlNode),
        config.asInt icpIterNumKey = none → (Init st config).1 ≠ true) := by
  intro h
  exact h (Odometry.fresh []) [] (by decide!) rfl

/-- C12 (amended): `Init` stores the configuration and returns `true` for every
configuration, also when `icp_iter_num` is missing or not an integer. The error then surfaces
in `Process`: a call on an engine that is not initialised returns without reading the key,
and every call on an initialised engine fails on the lookup. -/
theorem init_accepts_every_config (st : Odometry) (config : YamlNode) :
    (Init st config).1 = true ∧
    (Init st config).2 = { st with config_ := config } ∧
    (config.asInt icpIterNumKey = none →
      ∀ (search : KdTree) (solve : PoseSolver) (feature : FeaturePoints),
        ((Init st config).2.is_initialized = true →
          Process search solve (Init st config).2 feature = .error .badConfig) ∧
        ((Init st config).2.is_initialized = false →
          ∃ r, Process search solve (Init st config).2 feature = .ok r ∧
            ∀ f2 : FeaturePoints, Process search solve r.state f2 = .error .badConfig)) := by
  refine ⟨rfl, rfl, ?_⟩
  intro hcfg search solve feature
  have bad : ∀ (s : Odometry) (f : FeaturePoints), s.is_initialized = true →
      s.config_ = config → Process search solve s f = .error .badConfig := by
    intro s f hi hc
    unfold Process
    simp only [hi, Bool.not_true, Bool.false_eq_true, if_false, hc, hcfg]
  constructor
  · intro hi
    exact bad _ feature hi rfl
  · intro hi
    refine ⟨_, process_first_spec search solve _ feature hi, ?_⟩
    intro f2
    exact bad _ f2 rfl rfl

/-- The amended C12 on a fresh engine and a configuration whose `icp_iter_num` is text: `Init`
returns `true`, the first frame is processed, the second fails on the lookup. -/
theorem init_accepts_every_config_witness :
    YamlNode.asInt [("icp_iter_num", .text "five")] icpIterNumKey = none ∧
    (Init (Odometry.fresh []) [("icp_iter_num", .text "five")]).1 = true ∧
    (∃ r, Process nearestKSearch demoSolver
        (Init (Odometry.fresh []) [("icp_iter_num", .text "five")]).2 demoFrame = .ok r ∧
      ∀ f2 : FeaturePoints, Process nearestKSearch demoSolver r.state f2 = .error .badConfig) :=
  ⟨by decide!,
    (init_accepts_every_config (Odometry.fresh []) [("icp_iter_num", .text "five")]).1,
    ((init_accepts_every_config (Odometry.fresh []) [("icp_iter_num", .text "five")]).2.2
      (by decide!) nearestKSearch demoSolver demoFrame).2 rfl⟩

/-! ## Outlier removal -/

/-- The check of `RemoveOutliers` is false exactly on the points the specification keeps. -/
theorem check_eq_keptBySpec (pt : Point) :
    (!(!IsFinite pt || floatLt (DistanceSquare pt) (kPointMinDist * kPointMinDist))) =
      keptBySpec pt := by
  obtain ⟨x, y, z⟩ := pt
  have hk : kPointMinDist * kPointMinDist = 1 / 4 := by norm_num [kPointMinDist]
  cases x <;> cases y <;> cases z <;>
    simp [IsFinite, DistanceSquare, floatLt, keptBySpec, hk]
  simp only [← not_le, decide_not]

/-- C13: for every input cloud, `RemoveOutliers` outputs, in the input order and with their
multiplicity, exactly the input points that are finite and whose squared distance from the
origin is at least `0.25`: every point that is not finite and every point at squared distance
below `0.25` is absent from the output, a finite point at squared distance at least `0.25`
(the point at distance exactly `0.5` included) is in the output iff it is in the input, and
nothing is added. -/
theorem remove_outliers_keeps_exactly (cloud_in : List Point) :
    RemoveOutliers cloud_in = cloud_in.filter keptBySpec ∧
    List.Sublist (RemoveOutliers cloud_in) cloud_in ∧
    (∀ pt, IsFinite pt = false → pt ∉ RemoveOutliers cloud_in) ∧
    (∀ x y z : ℚ, x * x + y * y + z * z < 1 / 4 →
      (⟨.finite x, .finite y, .finite z⟩ : Point) ∉ RemoveOutliers cloud_in) ∧
    (∀ x y z : ℚ, 1 / 4 ≤ x * x + y * y + z * z →
      ((⟨.finite x, .finite y, .finite z⟩ : Point) ∈ RemoveOutliers cloud_in ↔
        (⟨.finite x, .finite y, .finite z⟩ : Point) ∈ cloud_in)) ∧
    ((⟨.finite (1 / 2), .finite 0, .finite 0⟩ : Point) ∈ RemoveOutliers cloud_in ↔
      (⟨.finite (1 / 2), .finite 0, .finite 0⟩ : Point) ∈ cloud_in) := by
  have heq : RemoveOutliers cloud_in = cloud_in.filter keptBySpec := by
    unfold RemoveOutliers RemovePoints
    congr 1
    funext pt
    exact check_eq_keptBySpec pt
  have hfin : ∀ x y z : ℚ, 1 / 4 ≤ x * x + y * y + z * z →
      ((⟨.finite x, .finite y, .finite z⟩ : Point) ∈ RemoveOutliers cloud_in ↔
        (⟨.finite x, .finite y, .finite z⟩ : Point) ∈ cloud_in) := by
    intro x y z h
    rw [heq, List.mem_filter]
    constructor
    · intro hm; exact hm.1
    · intro hm
      refine ⟨hm, ?_⟩
      simp only [keptBySpec]
      exact decide_eq_true h
  refine ⟨heq, ?_, ?_, ?_, hfin, ?_⟩
  · rw [heq]; exact List.filter_sublist _
  · intro pt hpt hin
    rw [heq, List.mem_filter] at hin
    obtain ⟨x, y, z⟩ := pt
    cases x <;> cases y <;> cases z <;> simp [keptBySpec, IsFinite] at hin hpt
  · intro x y z hlt hin
    rw [heq, List.mem_filter] at hin
    simp only [keptBySpec, decide_eq_true_eq] at hin
    exact absurd hlt (not_lt.mpr hin.2)
  · exact hfin (1 / 2) 0 0 (by norm_num)

/-- C13 on a cloud of four points: the point at distance exactly `0.5` and a far point are
kept, the point at distance `0.25` and the point with a coordinate that is not finite are
removed. -/
theorem remove_outliers_keeps_exactly_witness :
    RemoveOutliers [⟨.finite (1 / 2), .finite 0, .finite 0⟩,
        ⟨.finite (1 / 4), .finite 0, .finite 0⟩, ⟨.nonFinite, .finite 3, .finite 0⟩,
        ⟨.finite 3, .finite 4, .finite 0⟩] =
      [⟨.finite (1 / 2), .finite 0, .finite 0⟩, ⟨.finite 3, .finite 4, .finite 0⟩] ∧
    IsFinite ⟨.nonFinite, .finite 3, .finite 0⟩ = false ∧
    (⟨.nonFinite, .finite 3, .finite 0⟩ : Point) ∉
      RemoveOutliers [⟨.finite (1 / 2), .finite 0, .finite 0⟩,
        ⟨.finite (1 / 4), .finite 0, .finite 0⟩, ⟨.nonFinite, .finite 3, .finite 0⟩,
        ⟨.finite 3, .finite 4, .finite 0⟩] :=
  ⟨by decide!, rfl,
    (remove_outliers_keeps_exactly [⟨.finite (1 / 2), .finite 0, .finite 0⟩,
        ⟨.finite (1 / 4), .finite 0, .finite 0⟩, ⟨.nonFinite, .finite 3, .finite 0⟩,
        ⟨.finite 3, .finite 4, .finite 0⟩]).2.2.1 ⟨.nonFinite, .finite 3, .finite 0⟩ rfl⟩



/-! ## What the association calls append -/

/-- The loop over the query points appends at most one correspondence per query point, in
the order of the query sequence, each emitted by the body at its own query point. -/
theorem forEachQuery_sublist {α : Type} (body : TPoint → Except Fault (Option α))
    (key : α → TPoint) (hkey : ∀ q p, body q = .ok (some p) → key p = q)
    (src : List TPoint) (pairs out : List α) (h : forEachQuery body src pairs = .ok out) :
    ∃ new, out = pairs ++ new ∧ List.Sublist (new.map key) src ∧
      ∀ p ∈ new, body (key p) = .ok (some p) := by
  obtain ⟨rs, hf, ho⟩ := (forEachQuery_ok_iff body src pairs out).mp h
  refine ⟨rs.reduceOption, ho, ?_, ?_⟩
  · clear ho h
    induction hf with
    | nil => simp
    | cons h1 h2 ih =>
      rename_i q r qs rs2
      cases r with
      | none =>
        rw [List.reduceOption_cons_of_none]
        exact List.Sublist.cons _ ih
      | some p =>
        rw [List.reduceOption_cons_of_some, List.map_cons, hkey q p h1]
        exact List.Sublist.cons₂ _ ih
  · intro p hp
    obtain ⟨new, hn1, hn2⟩ := forEachQuery_new body src pairs out h
    have hnew : new = rs.reduceOption := List.append_cancel_left (hn1.symm.trans ho)
    obtain ⟨q, _, hq⟩ := hn2 p (hnew ▸ hp)
    rw [hkey q p hq]
    exact hq

/-- The query point of an emitted line correspondence is the query point of the body. -/
theorem cornBody_key (search : KdTree) (tgt : List TPoint) (dist_thresh : ℚ)
    (q : TPoint) (p : PointLinePair)
    (h : cornBody search tgt dist_thresh q = .ok (some p)) : p.pt = q := by
  obtain ⟨d, _, _, hw⟩ := cornBody_some search tgt dist_thresh q p h
  obtain ⟨n, k, _, hpt, _⟩ := cornWindow_some tgt dist_thresh q _ p hw
  exact hpt

/-- The query point of an emitted plane correspondence is the query point of the body. -/
theorem surfBody_key (search : KdTree) (tgt : List TPoint) (dist_thresh : ℚ)
    (q : TPoint) (p : PointPlanePair)
    (h : surfBody search tgt dist_thresh q = .ok (some p)) : p.pt = q := by
  obtain ⟨d, _, _, hw⟩ := surfBody_some search tgt dist_thresh q p h
  obtain ⟨n, k2, k3, _, hpt, _⟩ := surfWindow_some tgt dist_thresh q _ p hw
  exact hpt

/-- Everything `AssociateCornPoints` appends: one correspondence for some of the query
points, in order, each with the nearest neighbour at the index `n` the search returned and a
window candidate at index `k`, closer than `dist_thresh * dist_thresh`, left by the two
scans. -/
theorem corn_emitted (search : KdTree) (src tgt : List TPoint)
    (pairs out : List PointLinePair) (dist_thresh : ℚ)
    (h : AssociateCornPoints search src tgt pairs dist_thresh = .ok out) :
    ∃ new, out = pairs ++ new ∧ List.Sublist (new.map fun p => p.pt) src ∧
      ∀ p ∈ new, ∃ (d : ℚ) (n k : Nat),
        (search tgt p.pt).dists[0]? = some d ∧ d < dist_thresh ∧
        (search tgt p.pt).indices[0]? = some n ∧
        tgt[n]? = some p.line.pt1 ∧ tgt[k]? = some p.line.pt2 ∧
        cornScan tgt dist_thresh p.pt n =
          ⟨(k : Int), DistanceSqure p.pt p.line.pt2⟩ ∧
        WindowCandidate p.pt n k p.line.pt2 ∧
        DistanceSqure p.pt p.line.pt2 < dist_thresh * dist_thresh := by
  obtain ⟨new, h1, h2, h3⟩ := forEachQuery_sublist _ (fun p : PointLinePair => p.pt)
    (cornBody_key search tgt dist_thresh) src pairs out h
  refine ⟨new, h1, h2, ?_⟩
  intro p hp
  obtain ⟨d, hd1, hd2, hw⟩ := cornBody_some search tgt dist_thresh p.pt p (h3 p hp)
  obtain ⟨n, k, a1, _, a3, a4, a5, a6, a7⟩ := cornWindow_some tgt dist_thresh p.pt _ p hw
  exact ⟨d, n, k, hd1, hd2, a1, a3, a4, a5, a6, a7⟩

/-- Everything `AssociateSurfPoints` appends: one correspondence for some of the query
points, in order, each with the nearest neighbour at the index `n` the search returned, a
`pt2` at an index `k2` after `n` on the query's scan line and a `pt3` at a window candidate
`k3`, both closer than `dist_thresh * dist_thresh`. -/
theorem surf_emitted (search : KdTree) (src tgt : List TPoint)
    (pairs out : List PointPlanePair) (dist_thresh : ℚ)
    (h : AssociateSurfPoints search src tgt pairs dist_thresh = .ok out) :
    ∃ new, out = pairs ++ new ∧ List.Sublist (new.map fun p => p.pt) src ∧
      ∀ p ∈ new, ∃ (d : ℚ) (n k2 k3 : Nat),
        (search tgt p.pt).dists[0]? = some d ∧ d < dist_thresh ∧
        (search tgt p.pt).indices[0]? = some n ∧
        tgt[n]? = some p.plane.pt1 ∧ tgt[k2]? = some p.plane.pt2 ∧
        tgt[k3]? = some p.plane.pt3 ∧
        (surfScan tgt dist_thresh p.pt n).pt2_idx = (k2 : Int) ∧
        (surfScan tgt dist_thresh p.pt n).pt3_idx = (k3 : Int) ∧
        n < k2 ∧ GetScanId p.plane.pt2 = GetScanId p.pt ∧
        DistanceSqure p.pt p.plane.pt2 < dist_thresh * dist_thresh ∧
        WindowCandidate p.pt n k3 p.plane.pt3 ∧
        DistanceSqure p.pt p.plane.pt3 < dist_thresh * dist_thresh := by
  obtain ⟨new, h1, h2, h3⟩ := forEachQuery_sublist _ (fun p : PointPlanePair => p.pt)
    (surfBody_key search tgt dist_thresh) src pairs out h
  refine ⟨new, h1, h2, ?_⟩
  intro p hp
  obtain ⟨d, hd1, hd2, hw⟩ := surfBody_some search tgt dist_thresh p.pt p (h3 p hp)
  obtain ⟨n, k2, k3, a1, _, a3, a4, a5, a6, a7, a8, a9, a10, a11, a12⟩ :=
    surfWindow_some tgt dist_thresh p.pt _ p hw
  exact ⟨d, n, k2, k3, hd1, hd2, a1, a3, a4, a5, a6, a7, a8, a9, a10, a11, a12⟩



/-! ## Claims on the emitted correspondences -/

/-- C14 (as stated, refuted): for the query `(0,0,0)` with id 1 and the target
`[(1,0,0) id 0, (2,0,0) id 1, (3,0,0) id 2]`, `AssociateSurfPoints` emits the plane through
`(1,0,0)`, `(2,0,0)` and `(3,0,0)`, three points of one line. -/
theorem plane_points_may_be_collinear :
    ¬ (∀ (src tgt : List TPoint) (out : List PointPlanePair),
        AssociateSurfPoints nearestKSearch src tgt [] kDistSquareThresh = .ok out →
        ∀ p ∈ out, ¬ Collinear p.plane.pt1 p.plane.pt2 p.plane.pt3) := by
  intro h
  exact h demoFrame.flat_surf_pts demoFrame.less_flat_surf_pts [demoPlane] (by decide!)
    demoPlane (by decide!) (by decide!)

/-- C14 (amended): for every query set and target sequence, every plane correspondence
emitted by `AssociateSurfPoints` has its `pt2` on the query's scan line and its `pt3` on
another scan line, at most `kNearbyScanNum` lines away; so `pt2` and `pt3` are on different
scan lines. This separation by scan line is all the windowed search constructs. -/
theorem plane_points_on_two_lines (search : KdTree) (src tgt : List TPoint)
    (pairs out : List PointPlanePair) (dist_thresh : ℚ)
    (h : AssociateSurfPoints search src tgt pairs dist_thresh = .ok out) :
    ∃ new, out = pairs ++ new ∧ ∀ p ∈ new,
      GetScanId p.plane.pt2 = GetScanId p.pt ∧
      GetScanId p.plane.pt3 ≠ GetScanId p.pt ∧
      GetScanId p.pt - kNearbyScanNum ≤ GetScanId p.plane.pt3 ∧
      GetScanId p.plane.pt3 ≤ GetScanId p.pt + kNearbyScanNum ∧
      GetScanId p.plane.pt3 ≠ GetScanId p.plane.pt2 := by
  obtain ⟨new, h1, _, h3⟩ := surf_emitted search src tgt pairs out dist_thresh h
  refine ⟨new, h1, ?_⟩
  intro p hp
  obtain ⟨d, n, k2, k3, _, _, _, _, _, _, _, _, _, hid, _, hw, _⟩ := h3 p hp
  unfold WindowCandidate at hw
  simp only [kNearbyScanNum] at hw ⊢
  refine ⟨hid, ?_, ?_, ?_, ?_⟩ <;> omega

/-- The amended C14 on the sample frame. -/
theorem plane_points_on_two_lines_witness :
    AssociateSurfPoints nearestKSearch demoFrame.flat_surf_pts demoFrame.less_flat_surf_pts []
      kDistSquareThresh = .ok [demoPlane] ∧
    ∃ new, [demoPlane] = [] ++ new ∧ ∀ p ∈ new,
      GetScanId p.plane.pt2 = GetScanId p.pt ∧
      GetScanId p.plane.pt3 ≠ GetScanId p.pt ∧
      GetScanId p.pt - kNearbyScanNum ≤ GetScanId p.plane.pt3 ∧
      GetScanId p.plane.pt3 ≤ GetScanId p.pt + kNearbyScanNum ∧
      GetScanId p.plane.pt3 ≠ GetScanId p.plane.pt2 :=
  ⟨by decide!,
    plane_points_on_two_lines nearestKSearch demoFrame.flat_surf_pts
      demoFrame.less_flat_surf_pts [] [demoPlane] kDistSquareThresh (by decide!)⟩

/-- C15: for every query and every target sequence, sorted or not, the `pt2` of every emitted
line correspondence and the `pt3` of every emitted plane correspondence sits at a target index
`k` other than the nearest neighbour's index `n` and has a scan-line id `s` with `s ≠ q` and
`q - 2 ≤ s ≤ q + 2`, `q` the query's id; when `k` is larger than `n` then `s > q`, when it is
smaller then `s < q`. -/
theorem window_respected (search : KdTree) (src tgt : List TPoint) (dist_thresh : ℚ) :
    (∀ pairs out, AssociateCornPoints search src tgt pairs dist_thresh = .ok out →
      ∃ new, out = pairs ++ new ∧ ∀ p ∈ new, ∃ n k : Nat,
        (search tgt p.pt).indices[0]? = some n ∧ tgt[k]? = some p.line.pt2 ∧
        (cornScan tgt dist_thresh p.pt n).pt2_idx = (k : Int) ∧
        GetScanId p.line.pt2 ≠ GetScanId p.pt ∧
        GetScanId p.pt - 2 ≤ GetScanId p.line.pt2 ∧
        GetScanId p.line.pt2 ≤ GetScanId p.pt + 2 ∧
        (n < k → GetScanId p.pt < GetScanId p.line.pt2) ∧
        (k < n → GetScanId p.line.pt2 < GetScanId p.pt) ∧ k ≠ n) ∧
    (∀ pairs out, AssociateSurfPoints search src tgt pairs dist_thresh = .ok out →
      ∃ new, out = pairs ++ new ∧ ∀ p ∈ new, ∃ n k : Nat,
        (search tgt p.pt).indices[0]? = some n ∧ tgt[k]? = some p.plane.pt3 ∧
        (surfScan tgt dist_thresh p.pt n).pt3_idx = (k : Int) ∧
        GetScanId p.plane.pt3 ≠ GetScanId p.pt ∧
        GetScanId p.pt - 2 ≤ GetScanId p.plane.pt3 ∧
        GetScanId p.plane.pt3 ≤ GetScanId p.pt + 2 ∧
        (n < k → GetScanId p.pt < GetScanId p.plane.pt3) ∧
        (k < n → GetScanId p.plane.pt3 < GetScanId p.pt) ∧ k ≠ n) := by
  constructor
  · intro pairs out h
    obtain ⟨new, h1, _, h3⟩ := corn_emitted search src tgt pairs out dist_thresh h
    refine ⟨new, h1, ?_⟩
    intro p hp
    obtain ⟨d, n, k, _, _, hi, _, hk, hsc, hw, _⟩ := h3 p hp
    unfold WindowCandidate at hw
    simp only [kNearbyScanNum] at hw
    refine ⟨n, k, hi, hk, by rw [hsc], ?_, ?_, ?_, ?_, ?_, ?_⟩ <;> omega
  · intro pairs out h
    obtain ⟨new, h1, _, h3⟩ := surf_emitted search src tgt pairs out dist_thresh h
    refine ⟨new, h1, ?_⟩
    intro p hp
    obtain ⟨d, n, k2, k3, _, _, hi, _, _, hk, _, hsc, _, _, _, hw, _⟩ := h3 p hp
    unfold WindowCandidate at hw
    simp only [kNearbyScanNum] at hw
    refine ⟨n, k3, hi, hk, hsc, ?_, ?_, ?_, ?_, ?_, ?_⟩ <;> omega

/-- C15 on the sample frame: the line's `pt2` and the plane's `pt3` are `(3,0,0)` on scan
line 2, one above the query's, at index 2 after the nearest neighbour at index 0. -/
theorem window_respected_witness :
    AssociateCornPoints nearestKSearch demoFrame.sharp_corner_pts
      demoFrame.less_sharp_corner_pts [] kDistSquareThresh = .ok [demoLine] ∧
    (∃ new, [demoLine] = [] ++ new ∧ ∀ p ∈ new, ∃ n k : Nat,
      (nearestKSearch demoFrame.less_sharp_corner_pts p.pt).indices[0]? = some n ∧
      demoFrame.less_sharp_corner_pts[k]? = some p.line.pt2 ∧
      (cornScan demoFrame.less_sharp_corner_pts kDistSquareThresh p.pt n).pt2_idx = (k : Int) ∧
      GetScanId p.line.pt2 ≠ GetScanId p.pt ∧
      GetScanId p.pt - 2 ≤ GetScanId p.line.pt2 ∧
      GetScanId p.line.pt2 ≤ GetScanId p.pt + 2 ∧
      (n < k → GetScanId p.pt < GetScanId p.line.pt2) ∧
      (k < n → GetScanId p.line.pt2 < GetScanId p.pt) ∧ k ≠ n) :=
  ⟨by decide!,
    (window_respected nearestKSearch demoFrame.sharp_corner_pts
      demoFrame.less_sharp_corner_pts kDistSquareThresh).1 [] [demoLine] (by decide!)⟩



/-- C17: in `AssociateSurfPoints` the backward scan never assigns `pt2` (it leaves the slot as
it finds it); every emitted plane correspondence has its `pt2` at a target index strictly
greater than the nearest neighbour's index, on the query's scan line; so a query for which no
target point after the nearest neighbour's index has the query's scan-line id gets no plane
correspondence. -/
theorem plane_pt2_only_forward (search : KdTree) (tgt : List TPoint) (dist_thresh : ℚ) :
    (∀ (query_pt : TPoint) (L : List (Nat × TPoint)) (st : SurfState),
      (surfBackward query_pt L st).pt2_idx = st.pt2_idx) ∧
    (∀ src pairs out, AssociateSurfPoints search src tgt pairs dist_thresh = .ok out →
      ∃ new, out = pairs ++ new ∧ ∀ p ∈ new,
        (∃ n k2 : Nat, (search tgt p.pt).indices[0]? = some n ∧
          tgt[k2]? = some p.plane.pt2 ∧
          (surfScan tgt dist_thresh p.pt n).pt2_idx = (k2 : Int) ∧ n < k2 ∧
          GetScanId p.plane.pt2 = GetScanId p.pt) ∧
        ∀ (query_pt : TPoint) (n : Nat), (search tgt query_pt).indices[0]? = some n →
          (∀ c ∈ forwardRange tgt n, GetScanId c.2 ≠ GetScanId query_pt) →
          p.pt ≠ query_pt) ∧
    (∀ (query_pt : TPoint) (n : Nat), (search tgt query_pt).indices[0]? = some n →
      (∀ c ∈ forwardRange tgt n, GetScanId c.2 ≠ GetScanId query_pt) →
      ∀ p, surfBody search tgt dist_thresh query_pt ≠ .ok (some p)) := by
  have none_emitted : ∀ (query_pt : TPoint) (n : Nat),
      (search tgt query_pt).indices[0]? = some n →
      (∀ c ∈ forwardRange tgt n, GetScanId c.2 ≠ GetScanId query_pt) →
      ∀ p, surfBody search tgt dist_thresh query_pt ≠ .ok (some p) := by
    intro query_pt n hi hall p hb
    obtain ⟨d, _, _, hw⟩ := surfBody_some search tgt dist_thresh query_pt p hb
    obtain ⟨n2, k2, k3, a1, _, _, a4, _, _, _, a8, a9, _⟩ :=
      surfWindow_some tgt dist_thresh query_pt _ p hw
    rw [hi] at a1
    cases a1
    exact hall (k2, p.plane.pt2) ((mem_forwardRange tgt n k2 _).mpr ⟨a8, a4⟩) a9
  refine ⟨fun q L st => (surfBackward_inv q L st).1.1, ?_, none_emitted⟩
  intro src pairs out h
  obtain ⟨new, h1, _, h3⟩ := forEachQuery_sublist _ (fun p : PointPlanePair => p.pt)
    (surfBody_key search tgt dist_thresh) src pairs out h
  refine ⟨new, h1, ?_⟩
  intro p hp
  have hb := h3 p hp
  simp only at hb
  obtain ⟨d, _, _, hw⟩ := surfBody_some search tgt dist_thresh p.pt p hb
  obtain ⟨n, k2, k3, a1, _, _, a4, _, a6, _, a8, a9, _⟩ :=
    surfWindow_some tgt dist_thresh p.pt _ p hw
  refine ⟨⟨n, k2, a1, a4, a6, a8, a9⟩, ?_⟩
  intro query_pt n2 hi hall heq
  rw [heq] at hb
  exact none_emitted query_pt n2 hi hall p hb

/-- C17 on the target `[(2,0,0) id 1, (3,0,0) id 0, (1,0,0) id 1]` and the query `(0,0,0)`
with id 1: the nearest neighbour is the last point, the only other point on the query's scan
line lies before it, and no plane correspondence is emitted. -/
theorem plane_pt2_only_forward_witness :
    (nearestKSearch [⟨2, 0, 0, 1⟩, ⟨3, 0, 0, 0⟩, ⟨1, 0, 0, 1⟩] ⟨0, 0, 0, 1⟩).indices[0]? =
      some 2 ∧
    (∀ c ∈ forwardRange [⟨2, 0, 0, 1⟩, ⟨3, 0, 0, 0⟩, ⟨1, 0, 0, 1⟩] 2,
      GetScanId c.2 ≠ GetScanId ⟨0, 0, 0, 1⟩) ∧
    (∀ p, surfBody nearestKSearch [⟨2, 0, 0, 1⟩, ⟨3, 0, 0, 0⟩, ⟨1, 0, 0, 1⟩] kDistSquareThresh
      ⟨0, 0, 0, 1⟩ ≠ .ok (some p)) ∧
    surfBody nearestKSearch [⟨2, 0, 0, 1⟩, ⟨3, 0, 0, 0⟩, ⟨1, 0, 0, 1⟩] kDistSquareThresh
      ⟨0, 0, 0, 1⟩ = .ok none :=
  ⟨by decide!, by decide!,
    (plane_pt2_only_forward nearestKSearch [⟨2, 0, 0, 1⟩, ⟨3, 0, 0, 0⟩, ⟨1, 0, 0, 1⟩]
      kDistSquareThresh).2.2 ⟨0, 0, 0, 1⟩ 2 (by decide!) (by decide!),
    by decide!⟩

/-- C18: every windowed reference point chosen (the `pt2` of a line correspondence, the `pt2`
and the `pt3` of a plane correspondence) has squared distance to the query strictly below
`dist_thresh * dist_thresh` (625 for the threshold 25); a query all of whose window candidates
are at squared distance `dist_thresh * dist_thresh` or more gets no line and no plane
correspondence, even when there are such candidates. -/
theorem windowed_points_below_bound (search : KdTree) (tgt : List TPoint) (dist_thresh : ℚ) :
    (∀ src pairs out, AssociateCornPoints search src tgt pairs dist_thresh = .ok out →
      ∃ new, out = pairs ++ new ∧ ∀ p ∈ new,
        DistanceSqure p.pt p.line.pt2 < dist_thresh * dist_thresh) ∧
    (∀ src pairs out, AssociateSurfPoints search src tgt pairs dist_thresh = .ok out →
      ∃ new, out = pairs ++ new ∧ ∀ p ∈ new,
        DistanceSqure p.pt p.plane.pt2 < dist_thresh * dist_thresh ∧
        DistanceSqure p.pt p.plane.pt3 < dist_thresh * dist_thresh) ∧
    (∀ (query_pt : TPoint) (n : Nat), (search tgt query_pt).indices[0]? = some n →
      (∀ c ∈ tgt.enum, WindowCandidate query_pt n c.1 c.2 →
        dist_thresh * dist_thresh ≤ DistanceSqure query_pt c.2) →
      (∀ p, cornBody search tgt dist_thresh query_pt ≠ .ok (some p)) ∧
      (∀ p, surfBody search tgt dist_thresh query_pt ≠ .ok (some p))) := by
  refine ⟨?_, ?_, ?_⟩
  · intro src pairs out h
    obtain ⟨new, h1, _, h3⟩ := corn_emitted search src tgt pairs out dist_thresh h
    refine ⟨new, h1, ?_⟩
    intro p hp
    obtain ⟨d, n, k, _, _, _, _, _, _, _, hlt⟩ := h3 p hp
    exact hlt
  · intro src pairs out h
    obtain ⟨new, h1, _, h3⟩ := surf_emitted search src tgt pairs out dist_thresh h
    refine ⟨new, h1, ?_⟩
    intro p hp
    obtain ⟨d, n, k2, k3, _, _, _, _, _, _, _, _, _, _, hlt2, _, hlt3⟩ := h3 p hp
    exact ⟨hlt2, hlt3⟩
  · intro query_pt n hi hall
    constructor
    · intro p hb
      obtain ⟨d, _, _, hw⟩ := cornBody_some search tgt dist_thresh query_pt p hb
      obtain ⟨n2, k, a1, _, _, a4, _, a6, a7⟩ := cornWindow_some tgt dist_thresh query_pt _ p hw
      rw [hi] at a1
      cases a1
      exact absurd a7 (not_lt.mpr (hall (k, p.line.pt2)
        (List.mk_mem_enum_iff_getElem?.mpr a4) a6))
    · intro p hb
      obtain ⟨d, _, _, hw⟩ := surfBody_some search tgt dist_thresh query_pt p hb
      obtain ⟨n2, k2, k3, a1, _, _, _, a5, _, _, _, _, _, a11, a12⟩ :=
        surfWindow_some tgt dist_thresh query_pt _ p hw
      rw [hi] at a1
      cases a1
      exact absurd a12 (not_lt.mpr (hall (k3, p.plane.pt3)
        (List.mk_mem_enum_iff_getElem?.mpr a5) a11))

/-- C18 on the target `[(1,0,0) id 1, (0,2,0) id 1, (30,0,0) id 2]` and the query `(0,0,0)`
with id 1: the only window candidate, `(30,0,0)`, is at squared distance 900, and neither a
line nor a plane correspondence is emitted. -/
theorem windowed_points_below_bound_witness :
    (nearestKSearch [⟨1, 0, 0, 1⟩, ⟨0, 2, 0, 1⟩, ⟨30, 0, 0, 2⟩] ⟨0, 0, 0, 1⟩).indices[0]? =
      some 0 ∧
    WindowCandidate ⟨0, 0, 0, 1⟩ 0 2 ⟨30, 0, 0, 2⟩ ∧
    (∀ c ∈ List.enum [(⟨1, 0, 0, 1⟩ : TPoint), ⟨0, 2, 0, 1⟩, ⟨30, 0, 0, 2⟩],
      WindowCandidate ⟨0, 0, 0, 1⟩ 0 c.1 c.2 →
        kDistSquareThresh * kDistSquareThresh ≤ DistanceSqure ⟨0, 0, 0, 1⟩ c.2) ∧
    ((∀ p, cornBody nearestKSearch [⟨1, 0, 0, 1⟩, ⟨0, 2, 0, 1⟩, ⟨30, 0, 0, 2⟩]
        kDistSquareThresh ⟨0, 0, 0, 1⟩ ≠ .ok (some p)) ∧
      (∀ p, surfBody nearestKSearch [⟨1, 0, 0, 1⟩, ⟨0, 2, 0, 1⟩, ⟨30, 0, 0, 2⟩]
        kDistSquareThresh ⟨0, 0, 0, 1⟩ ≠ .ok (some p))) :=
  ⟨by decide!, by decide!, by decide!,
    (windowed_points_below_bound nearestKSearch
      [⟨1, 0, 0, 1⟩, ⟨0, 2, 0, 1⟩, ⟨30, 0, 0, 2⟩] kDistSquareThresh).2.2 ⟨0, 0, 0, 1⟩ 0
      (by decide!) (by decide!)⟩



/-- C20: for every query set and target, an association call appends at most one
correspondence per query point, in the order of the query sequence; `pt1` is the target point
at the index the nearest-neighbour search returned (a nearest target point when the index
meets its contract); the reference points sit at pairwise different target indices: `n ≠ k`
for a line, and `n`, `k2`, `k3` pairwise different for a plane. -/
theorem emitted_structure (search : KdTree) (src tgt : List TPoint) (dist_thresh : ℚ) :
    (∀ pairs out, AssociateCornPoints search src tgt pairs dist_thresh = .ok out →
      ∃ new, out = pairs ++ new ∧ List.Sublist (new.map fun p => p.pt) src ∧
        new.length ≤ src.length ∧
        ∀ p ∈ new, ∃ n k : Nat,
          (search tgt p.pt).indices[0]? = some n ∧ tgt[n]? = some p.line.pt1 ∧
          tgt[k]? = some p.line.pt2 ∧
          (cornScan tgt dist_thresh p.pt n).pt2_idx = (k : Int) ∧ n ≠ k ∧
          (KdContract search → ∀ pt ∈ tgt,
            DistanceSqure p.pt p.line.pt1 ≤ DistanceSqure p.pt pt)) ∧
    (∀ pairs out, AssociateSurfPoints search src tgt pairs dist_thresh = .ok out →
      ∃ new, out = pairs ++ new ∧ List.Sublist (new.map fun p => p.pt) src ∧
        new.length ≤ src.length ∧
        ∀ p ∈ new, ∃ n k2 k3 : Nat,
          (search tgt p.pt).indices[0]? = some n ∧ tgt[n]? = some p.plane.pt1 ∧
          tgt[k2]? = some p.plane.pt2 ∧ tgt[k3]? = some p.plane.pt3 ∧
          (surfScan tgt dist_thresh p.pt n).pt2_idx = (k2 : Int) ∧
          (surfScan tgt dist_thresh p.pt n).pt3_idx = (k3 : Int) ∧
          n ≠ k2 ∧ n ≠ k3 ∧ k2 ≠ k3 ∧
          (KdContract search → ∀ pt ∈ tgt,
            DistanceSqure p.pt p.plane.pt1 ≤ DistanceSqure p.pt pt)) := by
  have nearest : ∀ (q pt1 : TPoint) (n : Nat), (search tgt q).indices[0]? = some n →
      tgt[n]? = some pt1 → KdContract search →
      ∀ pt ∈ tgt, DistanceSqure q pt1 ≤ DistanceSqure q pt := by
    intro q pt1 n hi hn hs pt hpt
    have hne : tgt ≠ [] := List.ne_nil_of_mem hpt
    obtain ⟨i, pt0, h1, h2, h3⟩ := (hs tgt q).2 hne
    rw [h2] at hi
    simp only [List.getElem?_cons_zero, Option.some.injEq] at hi
    subst hi
    rw [h1] at hn
    cases hn
    exact h3 pt hpt
  constructor
  · intro pairs out h
    obtain ⟨new, h1, h2, h3⟩ := corn_emitted search src tgt pairs out dist_thresh h
    refine ⟨new, h1, h2, ?_, ?_⟩
    · have := h2.length_le
      simpa using this
    · intro p hp
      obtain ⟨d, n, k, _, _, hi, hn, hk, hsc, hw, _⟩ := h3 p hp
      refine ⟨n, k, hi, hn, hk, by rw [hsc], ?_, nearest p.pt _ n hi hn⟩
      unfold WindowCandidate at hw
      omega
  · intro pairs out h
    obtain ⟨new, h1, h2, h3⟩ := surf_emitted search src tgt pairs out dist_thresh h
    refine ⟨new, h1, h2, ?_, ?_⟩
    · have := h2.length_le
      simpa using this
    · intro p hp
      obtain ⟨d, n, k2, k3, _, _, hi, hn, hk2, hk3, hs2, hs3, hlt, hid, _, hw, _⟩ := h3 p hp
      refine ⟨n, k2, k3, hi, hn, hk2, hk3, hs2, hs3, by omega, ?_, ?_,
        nearest p.pt _ n hi hn⟩
      · unfold WindowCandidate at hw
        omega
      · intro heq
        subst heq
        have e : p.plane.pt2 = p.plane.pt3 := Option.some.inj (hk2.symm.trans hk3)
        rw [e] at hid
        unfold WindowCandidate at hw
        omega

/-- C20 on the sample frame: one line correspondence with reference points at the indices 0
and 2 of the target. -/
theorem emitted_structure_witness :
    AssociateCornPoints nearestKSearch demoFrame.sharp_corner_pts
      demoFrame.less_sharp_corner_pts [] kDistSquareThresh = .ok [demoLine] ∧
    ∃ new, [demoLine] = [] ++ new ∧
      List.Sublist (new.map fun p => p.pt) demoFrame.sharp_corner_pts ∧
      new.length ≤ demoFrame.sharp_corner_pts.length ∧
      ∀ p ∈ new, ∃ n k : Nat,
        (nearestKSearch demoFrame.less_sharp_corner_pts p.pt).indices[0]? = some n ∧
        demoFrame.less_sharp_corner_pts[n]? = some p.line.pt1 ∧
        demoFrame.less_sharp_corner_pts[k]? = some p.line.pt2 ∧
        (cornScan demoFrame.less_sharp_corner_pts kDistSquareThresh p.pt n).pt2_idx =
          (k : Int) ∧ n ≠ k ∧
        (KdContract nearestKSearch → ∀ pt ∈ demoFrame.less_sharp_corner_pts,
          DistanceSqure p.pt p.line.pt1 ≤ DistanceSqure p.pt pt) :=
  ⟨by decide!,
    (emitted_structure nearestKSearch demoFrame.sharp_corner_pts
      demoFrame.less_sharp_corner_pts kDistSquareThresh).1 [] [demoLine] (by decide!)⟩

/-! ## Correspondences and the pose estimate -/

/-- The correspondences recorded in a trace. -/
theorem trace_pairs_of_iterOk (search : KdTree) (solve : PoseSolver) (feature : FeaturePoints)
    (corn_pre surf_pre : List TPoint) (r : IterRecord)
    (h : IterOk search solve feature corn_pre surf_pre r) :
    AssociateCornPoints search feature.sharp_corner_pts corn_pre [] kDistSquareThresh =
      .ok r.pl_pairs ∧
    AssociateSurfPoints search feature.flat_surf_pts surf_pre [] kDistSquareThresh =
      .ok r.pp_pairs := by
  obtain ⟨a1, a2, a3, a4, a5, a6, _⟩ := h
  rw [a1, a2] at a5
  rw [a3, a4] at a6
  exact ⟨a5, a6⟩

/-- On an initialised engine `Process` returns as soon as the loop returns. -/
theorem process_of_loop (search : KdTree) (solve : PoseSolver) (st : Odometry)
    (feature : FeaturePoints) (iter_num : Int) (w : Odometry × List IterRecord)
    (hinit : st.is_initialized = true)
    (hcfg : st.config_.asInt icpIterNumKey = some iter_num)
    (hw : icpLoop search solve feature iter_num.toNat st = .ok w) :
    ∃ r, Process search solve st feature = .ok r := by
  obtain ⟨sb, rs⟩ := w
  unfold Process
  simp only [hinit, Bool.not_true, Bool.false_eq_true, if_false, hcfg, hw]
  exact ⟨_, rfl⟩

/-- C19: correspondence building does not depend on the pose estimate. For every initialised
engine and frame on which `Process` returns, every iteration builds the correspondences that
`AssociateCornPoints` and `AssociateSurfPoints` build from the frame's query points and the
stored buffers alone, so any two iterations (the first one included) build the same lists; and
an engine that differs only in its relative and accumulated poses also returns, after as many
iterations and with the same correspondence lists in each. -/
theorem correspondences_ignore_pose (search : KdTree) (solve : PoseSolver) (st : Odometry)
    (feature : FeaturePoints) (r : ProcessResult) (hinit : st.is_initialized = true)
    (h : Process search solve st feature = .ok r) :
    (∀ rec ∈ r.trace,
      AssociateCornPoints search feature.sharp_corner_pts st.corn_pts_pre_ []
        kDistSquareThresh = .ok rec.pl_pairs ∧
      AssociateSurfPoints search feature.flat_surf_pts st.surf_pts_pre_ []
        kDistSquareThresh = .ok rec.pp_pairs) ∧
    (∀ rec1 ∈ r.trace, ∀ rec2 ∈ r.trace,
      rec1.pl_pairs = rec2.pl_pairs ∧ rec1.pp_pairs = rec2.pp_pairs) ∧
    (∀ rel acc : Pose3D, ∃ r2,
      Process search solve { st with pose_curr2last_ := rel, pose_curr2world_ := acc }
        feature = .ok r2 ∧
      r2.trace.map (fun rec => (rec.pl_pairs, rec.pp_pairs)) =
        r.trace.map (fun rec => (rec.pl_pairs, rec.pp_pairs))) := by
  obtain ⟨iter_num, hcfg, hlen, _, hall, _, _⟩ :=
    process_running_spec search solve st feature r hinit h
  have hpairs : ∀ rec ∈ r.trace,
      AssociateCornPoints search feature.sharp_corner_pts st.corn_pts_pre_ []
        kDistSquareThresh = .ok rec.pl_pairs ∧
      AssociateSurfPoints search feature.flat_surf_pts st.surf_pts_pre_ []
        kDistSquareThresh = .ok rec.pp_pairs :=
    fun rec hrec => trace_pairs_of_iterOk search solve feature _ _ rec (hall rec hrec)
  have same : ∀ (l1 l2 : List IterRecord) (pl : List PointLinePair) (pp : List PointPlanePair),
      l1.length = l2.length →
      (∀ rec ∈ l1, rec.pl_pairs = pl ∧ rec.pp_pairs = pp) →
      (∀ rec ∈ l2, rec.pl_pairs = pl ∧ rec.pp_pairs = pp) →
      l1.map (fun rec => (rec.pl_pairs, rec.pp_pairs)) =
        l2.map (fun rec => (rec.pl_pairs, rec.pp_pairs)) := by
    intro l1
    induction l1 with
    | nil =>
      intro l2 pl pp hl _ _
      cases l2 with
      | nil => rfl
      | cons _ _ => simp at hl
    | cons a l1 ih =>
      intro l2 pl pp hl h1 h2
      cases l2 with
      | nil => simp at hl
      | cons b l2 =>
        have ha := h1 a (List.mem_cons_self _ _)
        have hb := h2 b (List.mem_cons_self _ _)
        simp only [List.map_cons, ha.1, ha.2, hb.1, hb.2, List.cons.injEq, true_and]
        exact ih l2 pl pp (by simpa using hl)
          (fun rec hr => h1 rec (List.mem_cons_of_mem _ hr))
          (fun rec hr => h2 rec (List.mem_cons_of_mem _ hr))
  refine ⟨hpairs, ?_, ?_⟩
  · intro rec1 h1 rec2 h2
    obtain ⟨a1, a2⟩ := hpairs rec1 h1
    obtain ⟨b1, b2⟩ := hpairs rec2 h2
    exact ⟨Except.ok.inj (a1.symm.trans b1), Except.ok.inj (a2.symm.trans b2)⟩
  · intro rel acc
    have hinit2 : ({ st with pose_curr2last_ := rel, pose_curr2world_ := acc } :
        Odometry).is_initialized = true := hinit
    have hret : ∃ r2, Process search solve
        { st with pose_curr2last_ := rel, pose_curr2world_ := acc } feature = .ok r2 := by
      cases htr : r.trace with
      | nil =>
        have h0 : iter_num.toNat = 0 := by rw [← hlen, htr]; rfl
        exact process_of_loop search solve _ feature iter_num (_, []) hinit2 hcfg
          (by rw [h0]; rfl)
      | cons rec0 rest =>
        obtain ⟨a1, a2⟩ := hpairs rec0 (by rw [htr]; exact List.mem_cons_self _ _)
        obtain ⟨w, hw⟩ := icpLoop_of_assoc search solve feature _ _ _ _ a1 a2 iter_num.toNat
          { st with pose_curr2last_ := rel, pose_curr2world_ := acc } rfl rfl
        exact process_of_loop search solve _ feature iter_num w hinit2 hcfg hw
    obtain ⟨r2, hr2⟩ := hret
    refine ⟨r2, hr2, ?_⟩
    obtain ⟨iter2, hcfg2, hlen2, _, hall2, _, _⟩ :=
      process_running_spec search solve _ feature r2 hinit2 hr2
    have hcfg2' : st.config_.asInt icpIterNumKey = some iter2 := hcfg2
    rw [hcfg] at hcfg2'
    cases hcfg2'
    have hpairs2 : ∀ rec ∈ r2.trace,
        AssociateCornPoints search feature.sharp_corner_pts st.corn_pts_pre_ []
          kDistSquareThresh = .ok rec.pl_pairs ∧
        AssociateSurfPoints search feature.flat_surf_pts st.surf_pts_pre_ []
          kDistSquareThresh = .ok rec.pp_pairs :=
      fun rec hrec => trace_pairs_of_iterOk search solve feature _ _ rec (hall2 rec hrec)
    cases htr : r.trace with
    | nil =>
      have : r2.trace = [] := List.eq_nil_of_length_eq_zero (by rw [hlen2, ← hlen, htr]; rfl)
      rw [this]
    | cons rec0 rest =>
      obtain ⟨a1, a2⟩ := hpairs rec0 (by rw [htr]; exact List.mem_cons_self _ _)
      rw [← htr]
      apply same r2.trace r.trace rec0.pl_pairs rec0.pp_pairs (by rw [hlen2, hlen])
      · intro rec hrec
        obtain ⟨b1, b2⟩ := hpairs2 rec hrec
        exact ⟨Except.ok.inj (b1.symm.trans a1), Except.ok.inj (b2.symm.trans a2)⟩
      · intro rec hrec
        obtain ⟨b1, b2⟩ := hpairs rec hrec
        exact ⟨Except.ok.inj (b1.symm.trans a1), Except.ok.inj (b2.symm.trans a2)⟩

/-- C19 on the sample run: both iterations of the second call build the same line and the
same plane correspondence although the relative pose moved in between, and an engine started
from other poses builds them too. -/
theorem correspondences_ignore_pose_witness :
    demoRunning.is_initialized = true ∧
    Process nearestKSearch demoSolver demoRunning demoFrame = .ok demoSecond ∧
    (∀ rec1 ∈ demoSecond.trace, ∀ rec2 ∈ demoSecond.trace,
      rec1.pl_pairs = rec2.pl_pairs ∧ rec1.pp_pairs = rec2.pp_pairs) ∧
    (∀ rel acc : Pose3D, ∃ r2,
      Process nearestKSearch demoSolver
        { demoRunning with pose_curr2last_ := rel, pose_curr2world_ := acc } demoFrame =
          .ok r2 ∧
      r2.trace.map (fun rec => (rec.pl_pairs, rec.pp_pairs)) =
        demoSecond.trace.map (fun rec => (rec.pl_pairs, rec.pp_pairs))) :=
  ⟨rfl, by decide!,
    (correspondences_ignore_pose nearestKSearch demoSolver demoRunning demoFrame demoSecond
      rfl (by decide!)).2.1,
    (correspondences_ignore_pose nearestKSearch demoSolver demoRunning demoFrame demoSecond
      rfl (by decide!)).2.2⟩



/-! ## The scans of `AssociateCornPoints` against the filter-based reference -/

/-- On a list ordered by non-decreasing scan-line id the forward loop with its `break` is a
running minimum over the points of the upper window. -/
theorem cornForward_eq_fold (query_pt : TPoint) (L : List (Nat × TPoint)) :
    (L.Pairwise fun a b => GetScanId a.2 ≤ GetScanId b.2) →
    ∀ st : CornState, cornForward query_pt L st =
      (L.filter fun c => decide (GetScanId query_pt < GetScanId c.2 ∧
        GetScanId c.2 ≤ GetScanId query_pt + kNearbyScanNum)).foldl (pickStep query_pt) st := by
  induction L with
  | nil => intro _ st; rfl
  | cons hd rest ih =>
    intro hp st
    obtain ⟨i, pt⟩ := hd
    have ih2 := ih (List.Pairwise.of_cons hp)
    by_cases h1 : GetScanId pt ≤ GetScanId query_pt
    · have hf : ¬ (GetScanId query_pt < GetScanId pt ∧
          GetScanId pt ≤ GetScanId query_pt + kNearbyScanNum) := fun h => absurd h1 (not_le.mpr h.1)
      simp only [cornForward, if_pos h1, List.filter_cons, hf, decide_False,
        Bool.false_eq_true, if_false]
      exact ih2 st
    · by_cases h2 : GetScanId pt > GetScanId query_pt + kNearbyScanNum
      · have hf : ¬ (GetScanId query_pt < GetScanId pt ∧
            GetScanId pt ≤ GetScanId query_pt + kNearbyScanNum) :=
          fun h => absurd h.2 (not_le.mpr h2)
        have hnil : (rest.filter fun c => decide (GetScanId query_pt < GetScanId c.2 ∧
            GetScanId c.2 ≤ GetScanId query_pt + kNearbyScanNum)) = [] := by
          rw [List.filter_eq_nil_iff]
          intro c hc
          have := List.rel_of_pairwise_cons hp hc
          simp only at this
          simp only [decide_eq_true_eq, not_and, not_le]
          intro _
          omega
        simp only [cornForward, if_neg h1, if_pos h2, List.filter_cons, hf, decide_False,
          Bool.false_eq_true, if_false, hnil, List.foldl_nil]
      · have hf : GetScanId query_pt < GetScanId pt ∧
            GetScanId pt ≤ GetScanId query_pt + kNearbyScanNum :=
          ⟨not_le.mp h1, not_lt.mp h2⟩
        simp only [cornForward, if_neg h1, if_neg h2, List.filter_cons, hf, and_self,
          decide_True, if_true, List.foldl_cons, pickStep]
        split_ifs
        · exact ih2 _
        · exact ih2 _

/-- On a list ordered by non-increasing scan-line id the backward loop with its `break` is a
running minimum over the points of the lower window. -/
theorem cornBackward_eq_fold (query_pt : TPoint) (L : List (Nat × TPoint)) :
    (L.Pairwise fun a b => GetScanId b.2 ≤ GetScanId a.2) →
    ∀ st : CornState, cornBackward query_pt L st =
      (L.filter fun c => decide (GetScanId query_pt - kNearbyScanNum ≤ GetScanId c.2 ∧
        GetScanId c.2 < GetScanId query_pt)).foldl (pickStep query_pt) st := by
  induction L with
  | nil => intro _ st; rfl
  | cons hd rest ih =>
    intro hp st
    obtain ⟨i, pt⟩ := hd
    have ih2 := ih (List.Pairwise.of_cons hp)
    by_cases h1 : GetScanId pt ≥ GetScanId query_pt
    · have hf : ¬ (GetScanId query_pt - kNearbyScanNum ≤ GetScanId pt ∧
          GetScanId pt < GetScanId query_pt) := fun h => absurd h1 (not_le.mpr h.2)
      simp only [cornBackward, if_pos h1, List.filter_cons, hf, decide_False,
        Bool.false_eq_true, if_false]
      exact ih2 st
    · by_cases h2 : GetScanId pt < GetScanId query_pt - kNearbyScanNum
      · have hf : ¬ (GetScanId query_pt - kNearbyScanNum ≤ GetScanId pt ∧
            GetScanId pt < GetScanId query_pt) := fun h => absurd h.1 (not_le.mpr h2)
        have hnil : (rest.filter fun c => decide (GetScanId query_pt - kNearbyScanNum ≤
            GetScanId c.2 ∧ GetScanId c.2 < GetScanId query_pt)) = [] := by
          rw [List.filter_eq_nil_iff]
          intro c hc
          have := List.rel_of_pairwise_cons hp hc
          simp only at this
          simp only [decide_eq_true_eq, not_and, not_lt]
          intro _
          omega
        simp only [cornBackward, if_neg h1, if_pos h2, List.filter_cons, hf, decide_False,
          Bool.false_eq_true, if_false, hnil, List.foldl_nil]
      · have hf : GetScanId query_pt - kNearbyScanNum ≤ GetScanId pt ∧
            GetScanId pt < GetScanId query_pt := ⟨not_lt.mp h2, not_le.mp h1⟩
        simp only [cornBackward, if_neg h1, if_neg h2, List.filter_cons, hf, and_self,
          decide_True, if_true, List.foldl_cons, pickStep]
        split_ifs
        · exact ih2 _
        · exact ih2 _

/-- The running minimum started at `bound` agrees with the first minimum over the candidates
closer than `bound`. -/
theorem pickFold_argmin (query_pt : TPoint) (bound : ℚ) (L : List (Nat × TPoint)) :
    ∀ (st : CornState) (acc : Option (Nat × TPoint)), PickRel query_pt bound st acc →
      PickRel query_pt bound (L.foldl (pickStep query_pt) st)
        ((L.filter fun c => decide (DistanceSqure query_pt c.2 < bound)).foldl
          (List.argAux fun b c => DistanceSqure query_pt b.2 < DistanceSqure query_pt c.2)
          acc) := by
  induction L with
  | nil => intro st acc h; exact h
  | cons c rest ih =>
    intro st acc h
    by_cases hc : DistanceSqure query_pt c.2 < bound
    · simp only [List.foldl_cons, List.filter_cons, hc, decide_True, if_true]
      apply ih
      rcases h with ⟨h1, h2⟩ | ⟨c0, h1, h2, h3⟩
      · subst h1 h2
        exact Or.inr ⟨c, by simp [List.argAux], by simp [pickStep, hc], hc⟩
      · subst h1 h2
        by_cases hlt : DistanceSqure query_pt c.2 < DistanceSqure query_pt c0.2
        · exact Or.inr ⟨c, by simp [List.argAux, hlt], by simp [pickStep, hlt], hc⟩
        · exact Or.inr ⟨c0, by simp [List.argAux, hlt], by simp [pickStep, hlt], h3⟩
    · simp only [List.foldl_cons, List.filter_cons, hc, decide_False, Bool.false_eq_true,
        if_false]
      have hst : pickStep query_pt st c = st := by
        unfold pickStep
        rw [if_neg]
        rcases h with ⟨_, h2⟩ | ⟨c0, _, h2, h3⟩
        · rw [h2]; exact hc
        · rw [h2]; exact fun hlt => hc (lt_trans hlt h3)
      rw [hst]
      exact ih st acc h

/-- The candidates of the reference are the window candidates of the target. -/
theorem mem_cornCandidates (tgt : List TPoint) (query_pt : TPoint) (n j : Nat) (pt : TPoint) :
    (j, pt) ∈ cornCandidates tgt query_pt n ↔
      tgt[j]? = some pt ∧ WindowCandidate query_pt n j pt := by
  unfold cornCandidates WindowCandidate
  simp only [List.mem_append, List.mem_filter, mem_forwardRange, mem_backwardRange,
    decide_eq_true_eq]
  constructor
  · rintro (⟨⟨h1, h2⟩, h3⟩ | ⟨⟨h1, h2⟩, h3⟩)
    · exact ⟨h2, Or.inl ⟨h1, h3⟩⟩
    · exact ⟨h2, Or.inr ⟨h1, h3⟩⟩
  · rintro ⟨h2, (⟨h1, h3⟩ | ⟨h1, h3⟩)⟩
    · exact Or.inl ⟨⟨h1, h2⟩, h3⟩
    · exact Or.inr ⟨⟨h1, h2⟩, h3⟩

/-- On a sorted target the two scans leave the choice of the reference. -/
theorem cornScan_eq_ref (tgt : List TPoint) (hsorted : ScanSorted tgt) (dist_thresh : ℚ)
    (query_pt : TPoint) (n : Nat) :
    PickRel query_pt (dist_thresh * dist_thresh) (cornScan tgt dist_thresh query_pt n)
      (cornPt2Ref tgt dist_thresh query_pt n) := by
  have h := pickFold_argmin query_pt (dist_thresh * dist_thresh)
    (cornCandidates tgt query_pt n) ⟨-1, dist_thresh * dist_thresh⟩ none (Or.inl ⟨rfl, rfl⟩)
  have e : cornScan tgt dist_thresh query_pt n =
      (cornCandidates tgt query_pt n).foldl (pickStep query_pt)
        ⟨-1, dist_thresh * dist_thresh⟩ := by
    unfold cornScan cornCandidates
    rw [cornForward_eq_fold query_pt _ (forwardRange_pairwise tgt n hsorted),
      cornBackward_eq_fold query_pt _ (backwardRange_pairwise tgt n hsorted),
      List.foldl_append]
  rw [e]
  exact h



/-- The first minimum of a list splits it: everything before it is strictly larger, everything
after it is at least as large. -/
theorem argmin_split (f : Nat × TPoint → ℚ) (l : List (Nat × TPoint)) :
    ∀ c, List.argmin f l = some c →
      ∃ A B, l = A ++ c :: B ∧ (∀ a ∈ A, f c < f a) ∧ (∀ b ∈ B, f c ≤ f b) := by
  induction l using List.reverseRecOn with
  | nil => intro c h; simp at h
  | append_singleton l a ih =>
    intro c h
    rw [List.argmin_concat] at h
    cases hl : List.argmin f l with
    | none =>
      rw [hl] at h
      simp only [Option.some.injEq] at h
      subst h
      rw [List.argmin_eq_none] at hl
      subst hl
      exact ⟨[], [], rfl, by simp, by simp⟩
    | some c0 =>
      rw [hl] at h
      obtain ⟨A, B, hAB, hA, hB⟩ := ih c0 hl
      by_cases hlt : f a < f c0
      · simp only [hlt, if_true, Option.some.injEq] at h
        subst h
        refine ⟨l, [], rfl, ?_, by simp⟩
        intro x hx
        rw [hAB] at hx
        rcases List.mem_append.mp hx with hx | hx
        · exact lt_trans hlt (hA x hx)
        · rcases List.mem_cons.mp hx with rfl | hx
          · exact hlt
          · exact lt_of_lt_of_le hlt (hB x hx)
      · simp only [hlt, if_false, Option.some.injEq] at h
        subst h
        refine ⟨A, B ++ [a], by rw [hAB]; simp, hA, ?_⟩
        intro x hx
        rcases List.mem_append.mp hx with hx | hx
        · exact hB x hx
        · rw [List.mem_singleton] at hx
          subst hx
          exact not_lt.mp hlt

/-- C16: for every target sequence ordered by non-decreasing scan-line id, with `n` the index
the nearest-neighbour search returned, `d` the distance it reported and `q` the query's
scan-line id, the break-based scans of `AssociateCornPoints` equal the filter-based reference.
The candidates are `F = {i > n : q < id(i) ≤ q + 2}` in increasing index order followed by
`B = {i < n : q - 2 ≤ id(i) < q}` in decreasing index order; the body emits
`(query, target[n], pt2)` with `pt2` the candidate of minimum squared distance among those
closer than `dist_thresh * dist_thresh`, the first visited among equals (every candidate
visited before it is strictly farther, every one visited after it at least as far); and it
emits exactly when `d` is below the threshold and some candidate is closer than that initial
bound. -/
theorem corner_scan_refines_reference (search : KdTree) (tgt : List TPoint)
    (hsorted : ScanSorted tgt) (dist_thresh : ℚ) (query_pt : TPoint) (d : ℚ) (n : Nat)
    (pt1 : TPoint) (hd : (search tgt query_pt).dists[0]? = some d)
    (hn : (search tgt query_pt).indices[0]? = some n) (h1 : tgt[n]? = some pt1) :
    (∀ j pt, (j, pt) ∈ cornCandidates tgt query_pt n ↔
      tgt[j]? = some pt ∧ WindowCandidate query_pt n j pt) ∧
    cornBody search tgt dist_thresh query_pt =
      .ok (if d < dist_thresh then
        (cornPt2Ref tgt dist_thresh query_pt n).map fun c => ⟨query_pt, ⟨pt1, c.2⟩⟩
      else none) ∧
    ((∃ p, cornBody search tgt dist_thresh query_pt = .ok (some p)) ↔
      d < dist_thresh ∧ ∃ c ∈ cornCandidates tgt query_pt n,
        DistanceSqure query_pt c.2 < dist_thresh * dist_thresh) ∧
    (∀ c, cornPt2Ref tgt dist_thresh query_pt n = some c →
      (cornScan tgt dist_thresh query_pt n).pt2_idx = (c.1 : Int) ∧
      c ∈ cornCandidates tgt query_pt n ∧
      DistanceSqure query_pt c.2 < dist_thresh * dist_thresh ∧
      (∀ a ∈ cornCandidates tgt query_pt n,
        DistanceSqure query_pt c.2 ≤ DistanceSqure query_pt a.2) ∧
      ∃ A B, (cornCandidates tgt query_pt n).filter (fun c =>
            decide (DistanceSqure query_pt c.2 < dist_thresh * dist_thresh)) = A ++ c :: B ∧
        (∀ a ∈ A, DistanceSqure query_pt c.2 < DistanceSqure query_pt a.2) ∧
        (∀ b ∈ B, DistanceSqure query_pt c.2 ≤ DistanceSqure query_pt b.2)) := by
  have hrel := cornScan_eq_ref tgt hsorted dist_thresh query_pt n
  have href : ∀ c, cornPt2Ref tgt dist_thresh query_pt n = some c →
      c ∈ (cornCandidates tgt query_pt n).filter (fun c =>
          decide (DistanceSqure query_pt c.2 < dist_thresh * dist_thresh)) ∧
      (∀ a ∈ (cornCandidates tgt query_pt n).filter (fun c =>
          decide (DistanceSqure query_pt c.2 < dist_thresh * dist_thresh)),
        DistanceSqure query_pt c.2 ≤ DistanceSqure query_pt a.2) ∧
      ∃ A B, (cornCandidates tgt query_pt n).filter (fun c =>
            decide (DistanceSqure query_pt c.2 < dist_thresh * dist_thresh)) = A ++ c :: B ∧
        (∀ a ∈ A, DistanceSqure query_pt c.2 < DistanceSqure query_pt a.2) ∧
        (∀ b ∈ B, DistanceSqure query_pt c.2 ≤ DistanceSqure query_pt b.2) := by
    intro c hc
    have hc2 : c ∈ List.argmin (fun c : Nat × TPoint => DistanceSqure query_pt c.2)
        ((cornCandidates tgt query_pt n).filter (fun c =>
          decide (DistanceSqure query_pt c.2 < dist_thresh * dist_thresh))) := hc
    exact ⟨List.argmin_mem hc2,
      fun a ha => List.le_of_mem_argmin (f := fun c : Nat × TPoint =>
        DistanceSqure query_pt c.2) ha hc2,
      argmin_split (fun c => DistanceSqure query_pt c.2) _ c hc⟩
  have hbody : cornBody search tgt dist_thresh query_pt =
      .ok (if d < dist_thresh then
        (cornPt2Ref tgt dist_thresh query_pt n).map fun c => ⟨query_pt, ⟨pt1, c.2⟩⟩
      else none) := by
    obtain ⟨hrej, hacc⟩ := body_of_dist search tgt dist_thresh d query_pt hd
    by_cases hlt : d < dist_thresh
    · rw [(hacc hlt).1, if_pos hlt]
      have e0 : vecAt (search tgt query_pt).indices 0 = .ok n := (vecAt_eq_ok _ _ _).mpr hn
      have e1 : vecAt tgt n = .ok pt1 := (vecAt_eq_ok _ _ _).mpr h1
      unfold cornWindow
      simp only [e0, e1, bind, Except.bind]
      rcases hrel with ⟨r1, r2⟩ | ⟨c, r1, r2, _⟩
      · rw [r1, r2]
        simp [pure, Except.pure]
      · rw [r1, r2]
        have hc := (href c r1).1
        rw [List.mem_filter] at hc
        obtain ⟨j, pt⟩ := c
        have hj := ((mem_cornCandidates tgt query_pt n j pt).mp hc.1).1
        simp [(vecAt_eq_ok tgt j pt).mpr hj, pure, Except.pure]
    · rw [(hrej (not_lt.mp hlt)).1, if_neg hlt]
  refine ⟨mem_cornCandidates tgt query_pt n, hbody, ?_, ?_⟩
  · rw [hbody]
    by_cases hlt : d < dist_thresh
    · simp only [if_pos hlt, Except.ok.injEq, hlt, true_and]
      constructor
      · rintro ⟨p, hp⟩
        cases hr : cornPt2Ref tgt dist_thresh query_pt n with
        | none => rw [hr] at hp; simp at hp
        | some c =>
          have hc := (href c hr).1
          rw [List.mem_filter] at hc
          exact ⟨c, hc.1, by simpa using hc.2⟩
      · rintro ⟨c, hc1, hc2⟩
        cases hr : cornPt2Ref tgt dist_thresh query_pt n with
        | none =>
          unfold cornPt2Ref at hr
          rw [List.argmin_eq_none, List.filter_eq_nil_iff] at hr
          exact absurd (by simpa using hc2) (hr c hc1)
        | some c0 => exact ⟨_, rfl⟩
    · simp [hlt]
  · intro c hc
    obtain ⟨m1, m2, m3⟩ := href c hc
    have hm := m1
    rw [List.mem_filter] at hm
    have hlt : DistanceSqure query_pt c.2 < dist_thresh * dist_thresh := by simpa using hm.2
    refine ⟨?_, hm.1, hlt, ?_, m3⟩
    · rcases hrel with ⟨r1, _⟩ | ⟨c0, r1, r2, _⟩
      · rw [hc] at r1; cases r1
      · rw [hc] at r1
        cases r1
        rw [r2]
    · intro a ha
      by_cases hal : DistanceSqure query_pt a.2 < dist_thresh * dist_thresh
      · exact m2 a (List.mem_filter.mpr ⟨ha, by simpa using hal⟩)
      · exact le_trans (le_of_lt hlt) (not_lt.mp hal)

/-- C16 on the sorted target `[(1,0,0) id 0, (2,0,0) id 0, (3,0,0) id 2]` and the query
`(0,0,0)` with id 1: the nearest neighbour is at index 0 at squared distance 1, the only
candidate is `(3,0,0)` at index 2, and it is the `pt2` emitted. -/
theorem corner_scan_refines_reference_witness :
    ScanSorted [⟨1, 0, 0, 0⟩, ⟨2, 0, 0, 0⟩, ⟨3, 0, 0, 2⟩] ∧
    (nearestKSearch [⟨1, 0, 0, 0⟩, ⟨2, 0, 0, 0⟩, ⟨3, 0, 0, 2⟩] ⟨0, 0, 0, 1⟩).dists[0]? =
      some 1 ∧
    (nearestKSearch [⟨1, 0, 0, 0⟩, ⟨2, 0, 0, 0⟩, ⟨3, 0, 0, 2⟩] ⟨0, 0, 0, 1⟩).indices[0]? =
      some 0 ∧
    cornPt2Ref [⟨1, 0, 0, 0⟩, ⟨2, 0, 0, 0⟩, ⟨3, 0, 0, 2⟩] kDistSquareThresh ⟨0, 0, 0, 1⟩ 0 =
      some (2, ⟨3, 0, 0, 2⟩) ∧
    cornBody nearestKSearch [⟨1, 0, 0, 0⟩, ⟨2, 0, 0, 0⟩, ⟨3, 0, 0, 2⟩] kDistSquareThresh
        ⟨0, 0, 0, 1⟩ =
      .ok (if (1 : ℚ) < kDistSquareThresh then
        (cornPt2Ref [⟨1, 0, 0, 0⟩, ⟨2, 0, 0, 0⟩, ⟨3, 0, 0, 2⟩] kDistSquareThresh
          ⟨0, 0, 0, 1⟩ 0).map fun c => ⟨⟨0, 0, 0, 1⟩, ⟨⟨1, 0, 0, 0⟩, c.2⟩⟩
      else none) :=
  ⟨by decide!, by decide!, by decide!, by decide!,
    (corner_scan_refines_reference nearestKSearch [⟨1, 0, 0, 0⟩, ⟨2, 0, 0, 0⟩, ⟨3, 0, 0, 2⟩]
      (by decide!) kDistSquareThresh ⟨0, 0, 0, 1⟩ 1 0 ⟨1, 0, 0, 0⟩ (by decide!) (by decide!)
      (by decide!)).2.1⟩


end OhMyLoam
